import Mathlib

/-! ## ctrlv: content classification, handlers and the save endpoint

A shallow embedding of `src/assets/js/contentClassifier.js`, of the handlers it
dispatches to and of `src/pages/api/saveFile.js`, followed by the properties of the
specification settled against it.

JavaScript strings are held as lists of characters (`JSString`); the built-ins the
source calls (`trim`, `split`, `startsWith`, `toFixed`, `RegExp.prototype.test`) are
modelled after ECMAScript. `toLowerCase` is a parameter of the functions that call it.
-/

namespace CtrlV

/-! ## JavaScript strings -/

/-- A JavaScript string, as the list of its characters (well-formed Unicode text). -/
abbrev JSString := List Char

/-- UTF-16 code units taken by one character. -/
def codeUnits (c : Char) : Nat := if c.toNat < 65536 then 1 else 2

/-- The `length` property of a string: its number of UTF-16 code units. -/
def jsLength : JSString → Nat
  | [] => 0
  | c :: cs => codeUnits c + jsLength cs

/-- Code points of ECMAScript `WhiteSpace` and `LineTerminator`, the characters that
`String.prototype.trim` strips. -/
def whiteSpaceCodes : List Nat :=
  [0x09, 0x0A, 0x0B, 0x0C, 0x0D, 0x20, 0xA0, 0x1680,
   0x2000, 0x2001, 0x2002, 0x2003, 0x2004, 0x2005, 0x2006, 0x2007, 0x2008, 0x2009, 0x200A,
   0x2028, 0x2029, 0x202F, 0x205F, 0x3000, 0xFEFF]

/-- Whether `trim` strips the character. -/
def isWhiteSpace (c : Char) : Bool := whiteSpaceCodes.contains c.toNat

/-- The function `String.prototype.trimStart`. -/
def trimStart : JSString → JSString
  | [] => []
  | c :: cs => if isWhiteSpace c then trimStart cs else c :: cs

/-- The function `String.prototype.trim`: white space removed from both ends. -/
def trim (s : JSString) : JSString := (trimStart (trimStart s).reverse).reverse

/-- The function `String.prototype.startsWith`. -/
def startsWith : JSString → JSString → Bool
  | _, [] => true
  | [], _ :: _ => false
  | c :: cs, p :: ps => c == p && startsWith cs ps

/-- The function `String.prototype.split` with a one-character separator: the pieces between the
occurrences of `sep`, in order; a string without `sep` gives one piece. -/
def split (sep : Char) : JSString → List JSString
  | [] => [[]]
  | c :: cs =>
    if c = sep then [] :: split sep cs
    else match split sep cs with
      | [] => [[c]]
      | p :: ps => (c :: p) :: ps

/-! ## Regular expressions -/

/-- Regular expressions with character classes given as lists of inclusive ranges.
`fail` matches nothing; it has no source syntax and only arises in derivatives. -/
inductive Regex where
  | fail : Regex
  | eps : Regex
  | set (ranges : List (Char × Char)) : Regex
  | seq (a b : Regex) : Regex
  | alt (a b : Regex) : Regex
  | star (a : Regex) : Regex
  deriving Repr

namespace Regex

/-- A single character `c`. -/
def chr (c : Char) : Regex := set [(c, c)]

/-- The characters of `s` in sequence. -/
def lit : List Char → Regex
  | [] => eps
  | c :: cs => seq (chr c) (lit cs)

/-- The expression `r?` -/
def opt (r : Regex) : Regex := alt r eps

/-- The expression `r+` -/
def plus (r : Regex) : Regex := seq r (star r)

/-- The expression `r{n}` -/
def times (r : Regex) : Nat → Regex
  | 0 => eps
  | n + 1 => seq r (times r n)

/-- The expression `r{0,n}` -/
def upTo (r : Regex) : Nat → Regex
  | 0 => eps
  | n + 1 => opt (seq r (upTo r n))

/-- The expression `r{lo,hi}` -/
def range (r : Regex) (lo hi : Nat) : Regex := seq (times r lo) (upTo r (hi - lo))

/-- Whether `c` lies in one of the ranges. -/
def inRanges (ranges : List (Char × Char)) (c : Char) : Bool :=
  ranges.any fun r => r.1.toNat ≤ c.toNat && c.toNat ≤ r.2.toNat

/-- Whether a class accepts `c`. Under the `i` flag (without `u`) two characters match
when their canonical forms agree; for a class of ASCII members that is: `c` or its
ASCII upper- or lower-case counterpart is a member (a non-ASCII character is never
canonicalised to an ASCII one). -/
def accepts (ignoreCase : Bool) (ranges : List (Char × Char)) (c : Char) : Bool :=
  inRanges ranges c ||
    (ignoreCase && (inRanges ranges c.toLower || inRanges ranges c.toUpper))

/-- Whether the expression matches the empty string. -/
def nullable : Regex → Bool
  | fail => false
  | eps => true
  | set _ => false
  | seq a b => nullable a && nullable b
  | alt a b => nullable a || nullable b
  | star _ => true

/-- Whether the expression is literally `fail`. -/
def isFail : Regex → Bool
  | fail => true
  | _ => false

/-- Sequence, absorbing `fail`. -/
def mkSeq (a b : Regex) : Regex := if isFail a || isFail b then fail else seq a b

/-- Alternative, dropping `fail`. -/
def mkAlt (a b : Regex) : Regex := if isFail a then b else if isFail b then a else alt a b

/-- Brzozowski derivative: what must match the rest after reading `c`. -/
def deriv (ignoreCase : Bool) : Regex → Char → Regex
  | fail, _ => fail
  | eps, _ => fail
  | set rs, c => if accepts ignoreCase rs c then eps else fail
  | seq a b, c =>
    if nullable a then mkAlt (mkSeq (deriv ignoreCase a c) b) (deriv ignoreCase b c)
    else mkSeq (deriv ignoreCase a c) b
  | alt a b, c => mkAlt (deriv ignoreCase a c) (deriv ignoreCase b c)
  | star a, c => mkSeq (deriv ignoreCase a c) (star a)

/-- The value of `/^r$/.test(s)`, with the `i` flag when `ignoreCase`: whether the whole
of `s` matches `r`. -/
def test (ignoreCase : Bool) : Regex → List Char → Bool
  | r, [] => nullable r
  | r, c :: cs => test ignoreCase (deriv ignoreCase r c) cs

end Regex

/-- The class `\d` -/
def digitRange : List (Char × Char) := [('0', '9')]

/-- The class `\w` -/
def wordRanges : List (Char × Char) := [('a', 'z'), ('A', 'Z'), ('0', '9'), ('_', '_')]

/-- The pattern of `isUrl`, between `^` and `$`:
`(https?:\/\/)?([\da-z.-]+)\.([a-z.]{2,6})([\/\w.-]*)*\/?`. -/
def urlRegex : Regex :=
  .seq (.opt (.seq (.lit "http".toList) (.seq (.opt (.chr 's')) (.lit "://".toList))))
  (.seq (.plus (.set (digitRange ++ [('a', 'z'), ('.', '.'), ('-', '-')])))
  (.seq (.chr '.')
  (.seq (.range (.set [('a', 'z'), ('.', '.')]) 2 6)
  (.seq (.star (.star (.set ([('/', '/')] ++ wordRanges ++ [('.', '.'), ('-', '-')]))))
        (.opt (.chr '/'))))))

/-! ## Numbers -/

/-- The constant `Number.MAX_SAFE_INTEGER`: up to it every integer is a Number, and a byte
count (the length of a string, the size of a file) never exceeds it. -/
def maxSafeInteger : Nat := 2 ^ 53 - 1

/-- The value of `x.toFixed(2)` for a non-negative `x = num / den` below `10^21`, after ECMAScript:
with `n` the integer for which `n / 100 - x` is closest to zero (the larger one when
there are two), the decimal digits of `n` are padded on the left with zeros to three
digits and a point is put before the last two. -/
def toFixed2 (num den : Nat) : JSString :=
  let n := (200 * num + den) / (2 * den)
  let m := Nat.toDigits 10 n
  let m := if m.length ≤ 2 then List.replicate (3 - m.length) '0' ++ m else m
  m.take (m.length - 2) ++ '.' :: m.drop (m.length - 2)

/-! ## The classifier (`contentClassifier.js`) -/

/-- A `Blob` (or `File`): its bytes and its MIME type. -/
structure Blob where
  bytes : List Nat
  type : JSString
  deriving DecidableEq, Repr

/-- The `size` of a blob. -/
def Blob.size (b : Blob) : Nat := b.bytes.length

/-- An `img` element: its `src` and the raw file the paste and drop handlers attach
to it as `img.file`. -/
structure Img where
  src : JSString
  file : Option Blob
  deriving DecidableEq, Repr

/-- The `dataset` of the content container. `fileSize` is written by the drop handler
as `file.size.toString()` and is held here as the byte count it denotes. -/
structure Dataset where
  fileContent : Option JSString := none
  fileName : Option JSString := none
  fileSize : Option Nat := none
  savedFileName : Option JSString := none
  savedFileType : Option JSString := none
  savedFileSize : Option JSString := none
  url : Option JSString := none
  urlTitle : Option JSString := none
  urlDescription : Option JSString := none
  urlImage : Option JSString := none
  videoUrl : Option JSString := none
  deriving DecidableEq, Repr

/-- The content container: the first `img` under it (`querySelector('img')`), its
`textContent` and its `dataset`. -/
structure Container where
  img : Option Img := none
  textContent : JSString := []
  dataset : Dataset := {}
  deriving DecidableEq, Repr

/-- The four content types. -/
inductive ContentType where
  | Text | URL | Image | File
  deriving DecidableEq, Repr

/-- The element a descriptor refers to: the image or the container. -/
inductive Element where
  | image (i : Img)
  | container (c : Container)
  deriving DecidableEq, Repr

/-- What `classifyContent` returns. -/
structure ContentDescriptor where
  type : ContentType
  size : JSString
  format : JSString
  element : Element
  url : Option JSString := none
  deriving DecidableEq, Repr

/-- Truthiness of a string-valued property: defined and not empty. -/
def truthy : Option JSString → Bool
  | none => false
  | some s => !s.isEmpty

/-- The function `formatFileSize`: `(bytes / 1024).toFixed(2)` followed by `" KB"`. -/
def formatFileSize (bytes : Nat) : JSString := toFixed2 bytes 1024 ++ " KB".toList

/-- The function `isUrl`: a non-empty text whose trimmed form matches the pattern, ignoring case. -/
def isUrl (text : JSString) : Bool :=
  if text.isEmpty then false else urlRegex.test true (trim text)

/-- The function `getFileExtension`: the lower-cased last piece of the name split at `'.'`
when there is more than one piece, `'unknown'` otherwise and for a missing or empty name. -/
def getFileExtension (toLowerCase : JSString → JSString) (fileName : Option JSString) :
    JSString :=
  match fileName with
  | none => "unknown".toList
  | some name =>
    if name.isEmpty then "unknown".toList
    else
      let parts := split '.' name
      if parts.length > 1 then
        match parts.getLast? with
        | some p => toLowerCase p
        | none => "unknown".toList
      else "unknown".toList

/-- The function `getImageFormat`: for a source starting with `data:`, the piece after the first
`'/'` of `dataUrl.split(',')[0].split(':')[1].split(';')[0]` when it is not empty;
`'unknown'` otherwise (also when an index is out of range, the `catch` branch). -/
def getImageFormat (dataUrl : JSString) : JSString :=
  if dataUrl.isEmpty || !startsWith dataUrl "data:".toList then "unknown".toList
  else
    match (split ',' dataUrl)[0]? with
    | none => "unknown".toList
    | some beforeComma =>
      match (split ':' beforeComma)[1]? with
      | none => "unknown".toList
      | some afterColon =>
        match (split ';' afterColon)[0]? with
        | none => "unknown".toList
        | some mimeType =>
          match (split '/' mimeType)[1]? with
          | none => "unknown".toList
          | some sub => if sub.isEmpty then "unknown".toList else sub

/-- The function `classifyContent`: `null` for a missing container; otherwise the descriptor of the
first check that holds: an `img` with a source, stored file content, URL-like text,
and plain text as the default. -/
def classifyContent (toLowerCase : JSString → JSString) :
    Option Container → Option ContentDescriptor
  | none => none
  | some contentElement =>
    match contentElement.img.filter (fun image => !image.src.isEmpty) with
    | some image =>
      some { type := .Image
             size := formatFileSize (match image.file with | some f => f.size | none => 0)
             format := getImageFormat image.src
             element := .image image }
    | none =>
      if truthy contentElement.dataset.fileContent then
        some { type := .File
               size := formatFileSize (contentElement.dataset.fileSize.getD 0)
               format :=
                 if truthy contentElement.dataset.fileName then
                   getFileExtension toLowerCase contentElement.dataset.fileName
                 else "unknown".toList
               element := .container contentElement }
      else
        let text := contentElement.textContent
        if isUrl text then
          some { type := .URL
                 size := formatFileSize (jsLength text)
                 format := "url".toList
                 element := .container contentElement
                 url := some (trim text) }
        else
          some { type := .Text
                 size := formatFileSize (jsLength text)
                 format := "text".toList
                 element := .container contentElement }

/-- ASCII lower-casing, the restriction of `toLowerCase` to ASCII names. -/
def asciiLower (s : JSString) : JSString := s.map Char.toLower

/-- Characters that `getImageFormat` lets into the MIME type of a data URL: all but the
three separators it splits at. -/
def mimeChar (c : Char) : Bool := c != ',' && c != ':' && c != ';'

/-! ## More built-ins used by the handlers -/

/-- The function `String.prototype.split` with a non-empty string separator: scanning from the left,
each occurrence of `sep` ends a piece and is skipped (`skip` counts the characters of
a found separator still to pass; `cur` holds the current piece reversed). -/
def splitStrAux (sep : JSString) : JSString → Nat → JSString → List JSString
  | [], _, cur => [cur.reverse]
  | _ :: cs, skip + 1, cur => splitStrAux sep cs skip cur
  | c :: cs, 0, cur =>
    if startsWith (c :: cs) sep then cur.reverse :: splitStrAux sep cs (sep.length - 1) []
    else splitStrAux sep cs 0 (c :: cur)

/-- The value of `s.split(sep)` for a non-empty string `sep`. -/
def splitStr (sep s : JSString) : List JSString := splitStrAux sep s 0 []

/-- UTF-8 bytes of one character. -/
def utf8Char (c : Char) : List Nat :=
  let n := c.toNat
  if n < 0x80 then [n]
  else if n < 0x800 then [0xC0 + n / 64, 0x80 + n % 64]
  else if n < 0x10000 then [0xE0 + n / 4096, 0x80 + n / 64 % 64, 0x80 + n % 64]
  else [0xF0 + n / 262144, 0x80 + n / 4096 % 64, 0x80 + n / 64 % 64, 0x80 + n % 64]

/-- The bytes of `new Blob([text])`: the text in UTF-8. -/
def utf8Encode : JSString → List Nat
  | [] => []
  | c :: cs => utf8Char c ++ utf8Encode cs

/-- The value of `String(n)` for a non-negative integer. -/
def numberToString (n : Nat) : JSString := Nat.toDigits 10 n

/-- The value of `a || b` on strings that may be undefined. -/
def orElse (a : Option JSString) (b : JSString) : JSString :=
  match a with
  | some s => if s.isEmpty then b else s
  | none => b

/-! ## Handlers: results, requests and the environment -/

/-- How a call ends: with a value, or by throwing an error with a message. -/
inductive Outcome (α : Type) where
  | ok (value : α) : Outcome α
  | error (message : JSString) : Outcome α
  deriving DecidableEq, Repr

/-- Metadata derived from a URL by `fetchUrlMetadata`. -/
structure Metadata where
  title : JSString
  description : JSString
  image : JSString
  isImage : Bool
  isVideo : Bool
  deriving DecidableEq, Repr

/-- The result object returned by the handlers and by `processContent`. -/
structure SaveResult where
  success : Bool
  message : JSString
  fileName : Option JSString := none
  fileType : Option JSString := none
  fileSize : Option Nat := none
  url : Option JSString := none
  metadata : Option Metadata := none
  deriving DecidableEq, Repr

/-- The JSON body posted to `/api/saveFile`. -/
structure SaveRequest where
  fileName : JSString
  fileContent : JSString
  fileType : JSString
  deriving DecidableEq, Repr

/-- The object read from the endpoint's response: whether its `success` is truthy, and
its `message`. -/
structure ServerReply where
  success : Bool
  message : Option JSString := none
  deriving DecidableEq, Repr

/-- The response to `fetch(url)`: `ok`, `statusText`, and what `blob()` gives (its bytes,
or the message of the error it throws). -/
structure FetchResponse where
  ok : Bool
  statusText : JSString
  blob : Outcome Blob

/-- The environment of one run: the clock, the platform functions that can fail and
the remote parties, each call ending in an `Outcome`.
* `fetch url`: the outcome of `fetch(url)`;
* `readAsDataURL blob`: the data URL `FileReader` produces for the blob;
* `postSaveFile req`: the outcome of the `POST` to `/api/saveFile`, and inside it the
  outcome of `response.json()`;
* `atob s`: base64 decoding, as a string of characters with codes up to 255;
* `parsesAsUrl s`: whether `new URL(s)` succeeds. -/
structure World where
  now : Nat
  toLowerCase : JSString → JSString
  fetch : JSString → Outcome FetchResponse
  readAsDataURL : Blob → Outcome JSString
  postSaveFile : SaveRequest → Outcome (Outcome ServerReply)
  atob : JSString → Outcome JSString
  parsesAsUrl : JSString → Bool

/-- A request leaving the page. -/
inductive Effect where
  | get (url : JSString)
  | post (req : SaveRequest)
  deriving DecidableEq, Repr

/-- What a handler can change: the content element it was given (its `dataset`) and the
requests sent so far, oldest first. -/
structure HState where
  element : Option Container
  effects : List Effect := []
  deriving DecidableEq, Repr

/-- A computation that may send requests, update the content element and throw: from a
state to the value returned or the message of the error thrown, and the state reached. -/
def Eff (α : Type) : Type := HState → Outcome α × HState

namespace Eff

/-- Return a value. -/
def ret {α : Type} (a : α) : Eff α := fun s => (.ok a, s)

/-- Run `m`, then `f` on its value; an error thrown by `m` passes through. -/
def andThen {α β : Type} (m : Eff α) (f : α → Eff β) : Eff β := fun s =>
  match m s with
  | (.ok a, s1) => f a s1
  | (.error e, s1) => (.error e, s1)

/-- The statement `throw new Error(message)`. -/
def raise {α : Type} (message : JSString) : Eff α := fun s => (.error message, s)

/-- The statement `try { m } catch (error) { h error.message }`. -/
def catching {α : Type} (m : Eff α) (h : JSString → Eff α) : Eff α := fun s =>
  match m s with
  | (.ok a, s1) => (.ok a, s1)
  | (.error e, s1) => h e s1

/-- The outcome of a platform call. -/
def lift {α : Type} (r : Outcome α) : Eff α := fun s => (r, s)

/-- Record a request being sent. -/
def emit (e : Effect) : Eff Unit := fun s => (.ok (), { s with effects := s.effects ++ [e] })

/-- The statement `if (contentElement) { ... contentElement.dataset ... }`: update the
dataset of the content element when there is one. -/
def updateDataset (f : Dataset → Dataset) : Eff Unit := fun s =>
  (.ok (), { s with element := s.element.map fun c => { c with dataset := f c.dataset } })

/-- The content element. -/
def element : Eff (Option Container) := fun s => (.ok s.element, s)

instance : Monad Eff where
  pure := ret
  bind := andThen

instance : MonadExcept JSString Eff where
  throw := raise
  tryCatch := catching

end Eff

/-- Run a computation on a content element with no request sent yet. -/
def Eff.run {α : Type} (m : Eff α) (contentElement : Option Container) :
    Outcome α × HState :=
  m { element := contentElement, effects := [] }

/-! ## Handlers (`textHandler.js`, `fileHandler.js`, `mediaHandler.js`, `urlHandler.js`) -/

/-- The failure result `{ success: false, message }`. -/
def failure (message : JSString) : SaveResult := { success := false, message := message }

/-- The result of a `catch (error)` block: `Error: ` followed by the message. -/
def errorResult (message : JSString) : SaveResult := failure ("Error: ".toList ++ message)

/-- Store the saved file's name, type and size in the dataset of the content element. -/
def storeSaved (fileName fileType : JSString) (blob : Blob) : Eff Unit :=
  Eff.updateDataset fun d =>
    { d with savedFileName := some fileName
             savedFileType := some fileType
             savedFileSize := some (numberToString blob.size) }

/-- The function `blobToBase64`: the data URL read from the blob, or the read error. -/
def blobToBase64 (w : World) (blob : Blob) : Eff JSString := Eff.lift (w.readAsDataURL blob)

/-- The function `saveToServer` (the same text in each handler file): post the blob as a
data URL to `/api/saveFile`; a reply without truthy `success` is thrown as an error;
every error is turned into a failure result. -/
def saveToServer (w : World) (blob : Blob) (fileName fileType : JSString) : Eff SaveResult :=
  tryCatch
    (do
      let fileContent ← blobToBase64 w blob
      let request : SaveRequest :=
        { fileName := fileName, fileContent := fileContent, fileType := fileType }
      Eff.emit (.post request)
      let response ← Eff.lift (w.postSaveFile request)
      let result ← Eff.lift response
      if !result.success then
        throw (orElse result.message "Failed to save file".toList)
      else
        pure { success := true
               message := "Saved to server as ".toList ++ fileName
               fileName := some fileName
               fileType := some fileType
               fileSize := some blob.size })
    (fun message => pure (errorResult message))

/-- The function `handleText`. -/
def handleText (w : World) (text : Option JSString) : Eff SaveResult :=
  if !truthy text then pure (failure "No text content to process".toList)
  else
    tryCatch
      (do
        let fileName := "text_".toList ++ numberToString w.now ++ ".txt".toList
        let blob : Blob := { bytes := utf8Encode (text.getD []), type := "text/plain".toList }
        let result ← saveToServer w blob fileName "text".toList
        storeSaved fileName "text".toList blob
        pure result)
      (fun message => pure (errorResult message))

/-- One chunk of `base64ToBlob`: the character codes of up to 512 characters, as the
elements of a `Uint8Array`. -/
def byteArrayOf (slice : JSString) : List Nat := slice.map fun c => c.toNat % 256

/-- The loop of `base64ToBlob`, from `offset` on: `rest` is `byteCharacters` from
`offset`; each round takes a slice of 512 characters. `fuel` bounds the rounds. -/
def base64ToBlobLoop : Nat → JSString → List (List Nat) → Option (List (List Nat))
  | 0, rest, byteArrays => if rest.isEmpty then some byteArrays else none
  | fuel + 1, rest, byteArrays =>
    if rest.isEmpty then some byteArrays
    else base64ToBlobLoop fuel (rest.drop 512) (byteArrays ++ [byteArrayOf (rest.take 512)])

/-- The `type` of `new Blob(parts, { type })`: the given type in ASCII lower case, or the
empty string when it holds a character outside U+0020 to U+007E. -/
def blobType (type : JSString) : JSString :=
  if type.all fun c => 0x20 ≤ c.toNat && c.toNat ≤ 0x7E then type.map Char.toLower else []

/-- The function `base64ToBlob`: decode, cut into chunks of 512 and join them into a blob. -/
def base64ToBlob (w : World) (base64 : JSString) (mimeType : JSString) : Eff Blob := do
  let byteCharacters ← Eff.lift (w.atob base64)
  match base64ToBlobLoop byteCharacters.length byteCharacters [] with
  | some byteArrays => pure { bytes := byteArrays.flatten, type := blobType mimeType }
  | none => throw "loop did not finish".toList

/-- The message of the `TypeError` thrown on reading a property of `undefined`. -/
def typeError : JSString := "Cannot read properties of undefined".toList

/-- The function `handleFile`. -/
def handleFile (w : World) (fileContent fileName : Option JSString) : Eff SaveResult :=
  if !truthy fileContent || !truthy fileName then
    pure (failure "Missing file content or name".toList)
  else
    let content := fileContent.getD []
    let name := fileName.getD []
    tryCatch
      (do
        let blob ←
          (if startsWith content "data:".toList then do
            let beforeComma ← Eff.lift (((split ',' content)[0]?).elim (.error typeError) .ok)
            let afterColon ← Eff.lift (((split ':' beforeComma)[1]?).elim (.error typeError) .ok)
            let mimeType := orElse ((split ';' afterColon)[0]?) "application/octet-stream".toList
            let base64Data := ((split ',' content)[1]?).getD "undefined".toList
            base64ToBlob w base64Data mimeType
          else
            pure { bytes := utf8Encode content, type := "application/octet-stream".toList })
        let result ← saveToServer w blob name "file".toList
        storeSaved name "file".toList blob
        pure result)
      (fun message => pure (errorResult message))

/-- The function `dataURLToBlob` of `mediaHandler.js`. -/
def dataURLToBlob (w : World) (dataUrl : JSString) : Eff Blob := do
  let parts := splitStr ";base64,".toList dataUrl
  let head ← Eff.lift ((parts[0]?).elim (.error typeError) .ok)
  let contentType := orElse ((split ':' head)[1]?) "application/octet-stream".toList
  let raw ← Eff.lift (w.atob ((parts[1]?).getD "undefined".toList))
  pure { bytes := raw.map (fun c => c.toNat % 256), type := blobType contentType }

/-- The function `fetchImageAsBlob`. -/
def fetchImageAsBlob (w : World) (url : JSString) : Eff Blob :=
  if startsWith url "data:".toList then dataURLToBlob w url
  else do
    Eff.emit (.get url)
    let response ← Eff.lift (w.fetch url)
    if !response.ok then
      throw ("Failed to fetch image: ".toList ++ response.statusText)
    else
      Eff.lift response.blob

/-- The image extensions both handlers look for. -/
def imageExtensions : List JSString :=
  ["jpg".toList, "jpeg".toList, "png".toList, "gif".toList, "webp".toList, "svg".toList]

/-- The video extensions of `fetchUrlMetadata`. -/
def videoExtensions : List JSString :=
  ["mp4".toList, "webm".toList, "ogg".toList, "mov".toList]

/-- The extension taken from a MIME type: its last piece split at `'/'`, with `jpeg` and
`svg+xml` renamed. -/
def mimeExtensionOf (mimeType : JSString) : JSString :=
  let mimeExtension := ((split '/' mimeType).getLast?).getD []
  if mimeExtension = "jpeg".toList then "jpg".toList
  else if mimeExtension = "svg+xml".toList then "svg".toList
  else mimeExtension

namespace MediaHandler

/-- The function `getImageExtension` of `mediaHandler.js`. -/
def getImageExtension (toLowerCase : JSString → JSString) (url mimeType : JSString) :
    JSString :=
  let urlExtension := toLowerCase (((split '.' url).getLast?).getD [])
  if !url.isEmpty && !startsWith url "data:".toList && imageExtensions.contains urlExtension then
    urlExtension
  else if !mimeType.isEmpty then mimeExtensionOf mimeType
  else "png".toList

end MediaHandler

namespace UrlHandler

/-- The function `getImageExtension` of `urlHandler.js`. -/
def getImageExtension (toLowerCase : JSString → JSString) (url mimeType : JSString) :
    JSString :=
  let urlExtension := toLowerCase (((split '.' url).getLast?).getD [])
  if imageExtensions.contains urlExtension then urlExtension
  else if !mimeType.isEmpty then mimeExtensionOf mimeType
  else "png".toList

end UrlHandler

/-- The function `handleImage`. -/
def handleImage (w : World) (imageElement : Option Img) : Eff SaveResult :=
  match imageElement with
  | none => pure (failure "No image content to process".toList)
  | some image =>
    if image.src.isEmpty then pure (failure "No image content to process".toList)
    else
      tryCatch
        (do
          let imageUrl := image.src
          let blob ←
            (match image.file with
              | some file => pure file
              | none => fetchImageAsBlob w imageUrl)
          let fileExtension := MediaHandler.getImageExtension w.toLowerCase imageUrl blob.type
          let fileName :=
            "image_".toList ++ numberToString w.now ++ ".".toList ++ fileExtension
          let result ← saveToServer w blob fileName "image".toList
          storeSaved fileName "image".toList blob
          pure result)
        (fun message => pure (errorResult message))

/-- The function `fetchUrlMetadata`: image or video by the lower-cased piece after the
last `'.'`. -/
def fetchUrlMetadata (toLowerCase : JSString → JSString) (url : JSString) : Metadata :=
  let extension := toLowerCase (((split '.' url).getLast?).getD [])
  let isImage := imageExtensions.contains extension
  let isVideo := videoExtensions.contains extension
  if isImage || isVideo then
    { title := ((split '/' url).getLast?).getD []
      description := (if isImage then "Image".toList else "Video".toList) ++ " from ".toList ++ url
      image := if isImage then url else []
      isImage := isImage
      isVideo := isVideo }
  else
    { title := url
      description := "Link to ".toList ++ url
      image := []
      isImage := false
      isVideo := false }

/-- The function `downloadImage` of `urlHandler.js`. The result of `saveToServer` is bound
to `result` and not looked at again. -/
def downloadImage (w : World) (url : JSString) : Eff SaveResult :=
  tryCatch
    (do
      Eff.emit (.get url)
      let response ← Eff.lift (w.fetch url)
      if !response.ok then
        throw ("Failed to fetch image: ".toList ++ response.statusText)
      else do
        let blob ← Eff.lift response.blob
        let fileName := "image_".toList ++ numberToString w.now ++ ".".toList ++
          UrlHandler.getImageExtension w.toLowerCase url blob.type
        let _result ← saveToServer w blob fileName "image".toList
        storeSaved fileName "image".toList blob
        pure { success := true
               message := "Image downloaded and saved as ".toList ++ fileName
               fileName := some fileName
               fileType := some "image".toList
               fileSize := some blob.size })
    (fun message => pure (errorResult message))

/-- The function `isValidUrl`: whether `new URL(url)` succeeds. -/
def isValidUrl (w : World) (url : JSString) : Bool := w.parsesAsUrl url

/-- The function `handleVideoUrl`: only the URL is stored. -/
def handleVideoUrl (url : JSString) : Eff SaveResult := do
  Eff.updateDataset fun d => { d with videoUrl := some url }
  pure { success := true
         message := "Video URL processed".toList
         url := some url
         fileType := some "video".toList }

/-- The function `handleUrl`. -/
def handleUrl (w : World) (url : Option JSString) : Eff SaveResult :=
  if !truthy url then pure (failure "No URL to process".toList)
  else
    tryCatch
      (do
        let url := trim (url.getD [])
        if !isValidUrl w url then
          pure (failure "Invalid URL format".toList)
        else do
          let metadata := fetchUrlMetadata w.toLowerCase url
          Eff.updateDataset fun d =>
            { d with url := some url
                     urlTitle := some metadata.title
                     urlDescription := some metadata.description
                     urlImage := some metadata.image }
          if metadata.isImage then downloadImage w url
          else if metadata.isVideo then handleVideoUrl url
          else
            pure { success := true
                   message := "URL processed successfully".toList
                   url := some url
                   metadata := some metadata })
      (fun message => pure (errorResult message))

/-! ## The dispatcher (`processContent`) -/

/-- The four handlers `processContent` imports. -/
structure Handlers where
  handleText : Option JSString → Eff SaveResult
  handleUrl : Option JSString → Eff SaveResult
  handleImage : Option Img → Eff SaveResult
  handleFile : Option JSString → Option JSString → Eff SaveResult

/-- The handlers of this repository. -/
def handlers (w : World) : Handlers :=
  { handleText := handleText w
    handleUrl := handleUrl w
    handleImage := handleImage w
    handleFile := handleFile w }

/-- The `textContent` of the element a descriptor refers to (an `img` has none). -/
def Element.textContent : Element → JSString
  | .image _ => []
  | .container c => c.textContent

/-- The image a descriptor refers to, when its element is one. -/
def Element.asImage : Element → Option Img
  | .image i => some i
  | .container _ => none

/-- The function `processContent`, over the handlers it calls: classify the content
element, then run the handler of the descriptor's type inside `try`/`catch`. -/
def processContentWith (w : World) (h : Handlers) : Eff SaveResult := do
  let contentElement ← Eff.element
  match classifyContent w.toLowerCase contentElement with
  | none => pure (failure "No content to process".toList)
  | some contentInfo =>
    tryCatch
      (match contentInfo.type with
        | .URL => h.handleUrl contentInfo.url
        | .Image => h.handleImage contentInfo.element.asImage
        | .File =>
          match contentElement with
          | none => throw typeError
          | some element =>
            h.handleFile element.dataset.fileContent
              (some (orElse element.dataset.fileName
                ("file_".toList ++ numberToString w.now)))
        | .Text => h.handleText (some contentInfo.element.textContent))
      (fun message => pure (errorResult message))

/-- The function `processContent` with the repository's handlers. -/
def processContent (w : World) : Eff SaveResult := processContentWith w (handlers w)

/-! ## Definitions used to state the properties -/

/-- The handler call the specification names for a descriptor type: `handleUrl` with the
trimmed text, `handleImage` with the `img`, `handleFile` with the stored content and
the stored name (the generated `file_<ms>` when no name is stored), `handleText` with
the text. -/
def expectedCall (w : World) (h : Handlers) (c : Container) : ContentType → Eff SaveResult
  | .URL => h.handleUrl (some (trim c.textContent))
  | .Image => h.handleImage c.img
  | .File =>
    h.handleFile c.dataset.fileContent
      (some (orElse c.dataset.fileName ("file_".toList ++ numberToString w.now)))
  | .Text => h.handleText (some c.textContent)

/-- Handlers that only report how they were called, in the message of their result. -/
def echoHandlers : Handlers :=
  { handleText := fun text => pure (failure ("handleText ".toList ++ text.getD []))
    handleUrl := fun url => pure (failure ("handleUrl ".toList ++ url.getD []))
    handleImage := fun image =>
      pure (failure ("handleImage ".toList ++ ((image.map fun i => i.src).getD [])))
    handleFile := fun content name =>
      pure (failure ("handleFile ".toList ++ content.getD [] ++ " ".toList ++ name.getD [])) }

/-- An environment in which every remote call succeeds: any URL gives a three-byte PNG,
read back by `FileReader` as `data:image/png;base64,AQID`. -/
def happyWorld : World :=
  { now := 1700000000000
    toLowerCase := asciiLower
    fetch := fun _ =>
      .ok { ok := true, statusText := "OK".toList,
            blob := .ok { bytes := [1, 2, 3], type := "image/png".toList } }
    readAsDataURL := fun _ => .ok "data:image/png;base64,AQID".toList
    postSaveFile := fun _ => .ok (.ok { success := true })
    atob := fun _ => .ok []
    parsesAsUrl := fun _ => true }

/-- As `happyWorld`, but the `POST` to `/api/saveFile` fails with a network error. -/
def offlineSaveWorld : World :=
  { happyWorld with postSaveFile := fun _ => .error "Failed to fetch".toList }

/-- As `happyWorld`, but the endpoint answers `{ success: false, message: 'disk full' }`. -/
def refusingSaveWorld : World :=
  { happyWorld with
    postSaveFile := fun _ => .ok (.ok { success := false, message := some "disk full".toList }) }

/-- Persistence confirmed in a final state: a save request was sent and the endpoint's
response to it reported success. -/
def Confirmed (w : World) (s : HState) : Prop :=
  ∃ req reply, Effect.post req ∈ s.effects ∧ w.postSaveFile req = .ok (.ok reply) ∧
    reply.success = true

/-- An image URL as pasted text. -/
def catUrl : JSString := "https://example.com/cat.png".toList

/-- The save request `downloadImage` sends for `catUrl` in the sample environments. -/
def catRequest : SaveRequest :=
  { fileName := "image_1700000000000.png".toList
    fileContent := "data:image/png;base64,AQID".toList
    fileType := "image".toList }

/-- The result `downloadImage` returns for `catUrl` in the sample environments. -/
def catResult : SaveResult :=
  { success := true
    message := "Image downloaded and saved as image_1700000000000.png".toList
    fileName := some "image_1700000000000.png".toList
    fileType := some "image".toList
    fileSize := some 3 }

/-- The strings an expression matches in full (with the `i` flag when `ignoreCase`):
the usual meaning of the operators, against which `Regex.test` is checked below. -/
inductive Regex.Matches (ignoreCase : Bool) : Regex → List Char → Prop
  | eps : Regex.Matches ignoreCase .eps []
  | set {rs : List (Char × Char)} {c : Char} :
      Regex.accepts ignoreCase rs c = true → Regex.Matches ignoreCase (.set rs) [c]
  | seq {a b : Regex} {s t : List Char} :
      Regex.Matches ignoreCase a s → Regex.Matches ignoreCase b t →
      Regex.Matches ignoreCase (.seq a b) (s ++ t)
  | altLeft {a b : Regex} {s : List Char} :
      Regex.Matches ignoreCase a s → Regex.Matches ignoreCase (.alt a b) s
  | altRight {a b : Regex} {s : List Char} :
      Regex.Matches ignoreCase b s → Regex.Matches ignoreCase (.alt a b) s
  | starNil {a : Regex} : Regex.Matches ignoreCase (.star a) []
  | starCons {a : Regex} {s t : List Char} :
      Regex.Matches ignoreCase a s → Regex.Matches ignoreCase (.star a) t →
      Regex.Matches ignoreCase (.star a) (s ++ t)

/-- As `happyWorld`, but the blob cannot be read: `FileReader` fires `error`, and the
event it rejects with has no `message` (the template renders `undefined`). -/
def unreadableWorld : World :=
  { happyWorld with readAsDataURL := fun _ => .error "undefined".toList }

/-- The result of a successful `saveToServer`. -/
def savedResult (blob : Blob) (fileName fileType : JSString) : SaveResult :=
  { success := true
    message := "Saved to server as ".toList ++ fileName
    fileName := some fileName
    fileType := some fileType
    fileSize := some blob.size }

/-- The blob `handleFile` builds from the stored content: decoded from a data URL, or the
content itself as raw data. -/
def fileBlob (w : World) (content : JSString) : Eff Blob :=
  if startsWith content "data:".toList then do
    let beforeComma ← Eff.lift (((split ',' content)[0]?).elim (.error typeError) .ok)
    let afterColon ← Eff.lift (((split ':' beforeComma)[1]?).elim (.error typeError) .ok)
    let mimeType := orElse ((split ';' afterColon)[0]?) "application/octet-stream".toList
    let base64Data := ((split ',' content)[1]?).getD "undefined".toList
    base64ToBlob w base64Data mimeType
  else
    pure { bytes := utf8Encode content, type := "application/octet-stream".toList }

/-- A dropped binary file as the drop handler stores it: its data URL, name and size. -/
def reportContainer : Container :=
  { textContent := "File: report.pdf".toList
    dataset :=
      { fileContent := some "data:application/pdf;base64,AQID".toList
        fileName := some "report.pdf".toList
        fileSize := some 3 } }

/-- The piece of a string after its last `'.'`; the whole string when it has none. -/
def afterLastDot (s : JSString) : JSString := ((split '.' s).getLast?).getD []

/-- The piece of a string after its last `'/'`; the whole string when it has none. -/
def afterLastSlash (s : JSString) : JSString := ((split '/' s).getLast?).getD []

/-- The state after `handleUrl` has stored the URL and its metadata in the dataset of the
content element. -/
def withUrlMetadata (url : JSString) (metadata : Metadata) (s : HState) : HState :=
  { s with
    element := s.element.map fun c =>
      { c with
        dataset :=
          { c.dataset with
            url := some url
            urlTitle := some metadata.title
            urlDescription := some metadata.description
            urlImage := some metadata.image } } }

/-- The state after `handleVideoUrl` has stored the video URL. -/
def withVideoUrl (url : JSString) (s : HState) : HState :=
  { s with
    element := s.element.map fun c => { c with dataset := { c.dataset with videoUrl := some url } } }

/-- The file name `downloadImage` generates for a fetched blob. -/
def downloadName (w : World) (url : JSString) (blob : Blob) : JSString :=
  "image_".toList ++ numberToString w.now ++ ".".toList ++
    UrlHandler.getImageExtension w.toLowerCase url blob.type

/-! ## Base64, `atob` and `FileReader.readAsDataURL` -/

/-- The base64 alphabet of RFC 4648, in the order of the six-bit values. -/
def base64Alphabet : List Char :=
  "ABCDEFGHIJKLMNOPQRSTUVWXYZabcdefghijklmnopqrstuvwxyz0123456789+/".toList

/-- The character of a six-bit value. -/
def base64Char (n : Nat) : Char := base64Alphabet.getD n 'A'

/-- The six-bit value of a character of the alphabet. -/
def base64Value (c : Char) : Option Nat :=
  if 65 ≤ c.toNat ∧ c.toNat ≤ 90 then some (c.toNat - 65)
  else if 97 ≤ c.toNat ∧ c.toNat ≤ 122 then some (c.toNat - 97 + 26)
  else if 48 ≤ c.toNat ∧ c.toNat ≤ 57 then some (c.toNat - 48 + 52)
  else if c = '+' then some 62
  else if c = '/' then some 63
  else none

/-- The six-bit values encoding a byte sequence: four for each three bytes, three for two
bytes left over, two for one. -/
def encodeSextets : List Nat → List Nat
  | a :: b :: c :: rest =>
    (a / 4) :: (a % 4 * 16 + b / 16) :: (b % 16 * 4 + c / 64) :: (c % 64) :: encodeSextets rest
  | [a, b] => [a / 4, a % 4 * 16 + b / 16, b % 16 * 4]
  | [a] => [a / 4, a % 4 * 16]
  | [] => []

/-- Base64 of a byte sequence, padded with `=` to a multiple of four characters. -/
def base64Encode (bytes : List Nat) : JSString :=
  (encodeSextets bytes).map base64Char ++ List.replicate ((3 - bytes.length % 3) % 3) '='

/-- The bytes a sequence of six-bit values decodes to: three for each four values, two
for three values left over (their last two bits dropped), one for two (four bits dropped). -/
def decodeSextets : List Nat → List Nat
  | a :: b :: c :: d :: rest =>
    (a * 4 + b / 16) :: (b % 16 * 16 + c / 4) :: (c % 4 * 64 + d) :: decodeSextets rest
  | [a, b, c] => [a * 4 + b / 16, b % 16 * 16 + c / 4]
  | [a, b] => [a * 4 + b / 16]
  | _ => []

/-- The six-bit values of a string of alphabet characters; `none` when a character is
outside the alphabet. -/
def sextetsOf : JSString → Option (List Nat)
  | [] => some []
  | c :: cs =>
    match base64Value c, sextetsOf cs with
    | some v, some vs => some (v :: vs)
    | _, _ => none

/-- ASCII whitespace: tab, line feed, form feed, carriage return, space. -/
def isAsciiWhitespace (c : Char) : Bool :=
  c.toNat = 9 || c.toNat = 10 || c.toNat = 12 || c.toNat = 13 || c.toNat = 32

/-- Remove one or two `=` from the end. -/
def stripPadding (data : JSString) : JSString :=
  if data.reverse.take 2 = ['=', '='] then data.dropLast.dropLast
  else if data.reverse.take 1 = ['='] then data.dropLast
  else data

/-- The message of the `InvalidCharacterError` thrown by `atob`. -/
def invalidCharacterError : JSString :=
  "The string to be decoded is not correctly encoded.".toList

/-- The function `atob`, the forgiving base64 decoding of the HTML standard: ASCII
whitespace is removed; when the length is a multiple of four, one or two `=` at the end
are removed; a length of one more than a multiple of four, or a character outside the
alphabet, is an error; the result is the string whose character codes are the bytes. -/
def atob (data : JSString) : Outcome JSString :=
  let data := data.filter fun c => !isAsciiWhitespace c
  let data := if data.length % 4 = 0 then stripPadding data else data
  if data.length % 4 = 1 then .error invalidCharacterError
  else
    match sextetsOf data with
    | none => .error invalidCharacterError
    | some sextets => .ok ((decodeSextets sextets).map Char.ofNat)

/-- The data URL `FileReader.readAsDataURL` produces for a blob: its type (or
`application/octet-stream` when it has none) and its bytes in base64. -/
def toDataURL (blob : Blob) : JSString :=
  "data:".toList ++
    (if blob.type.isEmpty then "application/octet-stream".toList else blob.type) ++
    ";base64,".toList ++ base64Encode blob.bytes

/-- The blob `handleText` wraps a text in. -/
def textBlob (text : JSString) : Blob :=
  { bytes := utf8Encode text, type := "text/plain".toList }

/-- An environment whose `FileReader` and `atob` are the standard ones and whose remote
calls succeed. -/
def standardWorld : World :=
  { happyWorld with
    readAsDataURL := fun blob => .ok (toDataURL blob)
    atob := atob }

/-! ## The save endpoint (`pages/api/saveFile.js`) -/

/-- The six-bit value of a character for `Buffer.from(s, 'base64')`, which also accepts
the URL-safe characters `-` and `_`. -/
def bufferBase64Value (c : Char) : Option Nat :=
  if c = '-' then some 62 else if c = '_' then some 63 else base64Value c

/-- The bytes of `Buffer.from(s, 'base64')`: decoding stops at the first `=`, characters
outside the alphabet are skipped, and an incomplete last group gives the bytes it fully
determines. On the base64 of a byte sequence this is that sequence. -/
def bufferFromBase64 (s : JSString) : List Nat :=
  decodeSextets ((s.takeWhile fun c => c != '=').filterMap bufferBase64Value)

/-- The replacement character U+FFFD. -/
def replacementChar : Char := Char.ofNat 0xFFFD

/-- The state of the UTF-8 decoder between bytes: the code point so far, the
continuation bytes seen and needed, and the range allowed for the next byte. -/
structure Utf8State where
  codePoint : Nat := 0
  bytesSeen : Nat := 0
  bytesNeeded : Nat := 0
  lower : Nat := 0x80
  upper : Nat := 0xBF
  deriving DecidableEq, Repr

/-- The decoder on a byte that starts a sequence: an ASCII byte is a character, a lead
byte opens a sequence of two, three or four bytes, any other byte is an error. -/
def utf8Start (b : Nat) : List Char × Utf8State :=
  if b ≤ 0x7F then ([Char.ofNat b], {})
  else if 0xC2 ≤ b ∧ b ≤ 0xDF then ([], { bytesNeeded := 1, codePoint := b % 32 })
  else if 0xE0 ≤ b ∧ b ≤ 0xEF then
    ([], { bytesNeeded := 2, codePoint := b % 16
           lower := if b = 0xE0 then 0xA0 else 0x80
           upper := if b = 0xED then 0x9F else 0xBF })
  else if 0xF0 ≤ b ∧ b ≤ 0xF4 then
    ([], { bytesNeeded := 3, codePoint := b % 8
           lower := if b = 0xF0 then 0x90 else 0x80
           upper := if b = 0xF4 then 0x8F else 0xBF })
  else ([replacementChar], {})

/-- One byte through the decoder. A byte outside the allowed range ends the sequence
with U+FFFD and is then read again as the start of a new one. -/
def utf8Step (st : Utf8State) (b : Nat) : List Char × Utf8State :=
  if st.bytesNeeded = 0 then utf8Start b
  else if b < st.lower ∨ st.upper < b then
    (replacementChar :: (utf8Start b).1, (utf8Start b).2)
  else if st.bytesSeen + 1 = st.bytesNeeded then
    ([Char.ofNat (st.codePoint * 64 + b % 64)], {})
  else
    ([], { st with codePoint := st.codePoint * 64 + b % 64, bytesSeen := st.bytesSeen + 1
                   lower := 0x80, upper := 0xBF })

/-- The decoder over the remaining bytes; a sequence cut short by the end is an error. -/
def utf8DecodeFrom (st : Utf8State) : List Nat → JSString
  | [] => if st.bytesNeeded = 0 then [] else [replacementChar]
  | b :: bs => (utf8Step st b).1 ++ utf8DecodeFrom (utf8Step st b).2 bs

/-- The string of `buffer.toString('utf-8')`: UTF-8 decoding in which every ill-formed
sequence becomes U+FFFD. -/
def utf8Decode (bytes : List Nat) : JSString := utf8DecodeFrom {} bytes

/-- The fields read from the JSON body of a request; a field that is absent or `null`
is `none`. -/
structure SaveBody where
  fileName : Option JSString := none
  fileContent : Option JSString := none
  fileType : Option JSString := none
  deriving DecidableEq, Repr

/-- The response of the endpoint: its status and the fields of its JSON body. -/
structure Response where
  status : Nat
  success : Bool
  message : JSString
  filePath : Option JSString := none
  deriving DecidableEq, Repr

/-- The download directory: whether it exists, and the files written into it so far,
each with its path and bytes, oldest first. -/
structure Disk where
  dirExists : Bool := true
  files : List (JSString × List Nat) := []
  deriving DecidableEq, Repr

/-- The platform of the endpoint: `path.join(downloadDir, fileName)`, and the errors, if
any, with which `mkdirSync` and `writeFileSync` (by path) fail. -/
structure Server where
  pathJoin : JSString → JSString
  mkdirError : Option JSString := none
  writeError : JSString → Option JSString := fun _ => none

/-- The message of the `TypeError` of `Buffer.from(undefined, 'base64')`. -/
def bufferTypeError : JSString :=
  "The first argument must be of type string or an instance of Buffer".toList

/-- The bytes the endpoint writes for a request that passed validation: for type `image`
the decoded payload of the data URL; otherwise, for content starting with `data:`, the
decoded payload turned into a string and written as text, and the content itself as
text when it is not a data URL. An error is the message of the exception thrown. -/
def contentBytes (data : SaveBody) : Outcome (List Nat) :=
  if data.fileType = some "image".toList then
    match data.fileContent with
    | none => .error typeError
    | some fileContent =>
      match (split ',' fileContent)[1]? with
      | none => .error bufferTypeError
      | some base64Data => .ok (bufferFromBase64 base64Data)
  else
    match data.fileContent with
    | none => .error typeError
    | some fileContent =>
      if startsWith fileContent "data:".toList then
        match (split ',' fileContent)[1]? with
        | none => .error bufferTypeError
        | some base64Data => .ok (utf8Encode (utf8Decode (bufferFromBase64 base64Data)))
      else .ok (utf8Encode fileContent)

/-- The response with status 400. -/
def badRequest : Response :=
  { status := 400, success := false, message := "Missing required fields".toList }

/-- The response with status 500 for an error caught. -/
def serverError (message : JSString) : Response :=
  { status := 500, success := false, message := message }

/-- The response with status 200. -/
def savedResponse (fileName : JSString) : Response :=
  { status := 200, success := true
    message := "File saved as ".toList ++ fileName
    filePath := some ("/download/".toList ++ fileName) }

/-- The handler `POST` of the endpoint, on the outcome of `request.json()`: validation,
creation of the directory when it is missing, decoding, writing; every exception is
answered with status 500. -/
def POST (srv : Server) (body : Outcome SaveBody) (disk : Disk) : Response × Disk :=
  match body with
  | .error m => (serverError m, disk)
  | .ok data =>
    if !truthy data.fileName || (!truthy data.fileContent && data.fileType != some "image".toList)
    then (badRequest, disk)
    else
      match (if disk.dirExists then none else srv.mkdirError) with
      | some m => (serverError m, disk)
      | none =>
        let fileName := data.fileName.getD []
        let filePath := srv.pathJoin fileName
        match contentBytes data with
        | .error m => (serverError m, { disk with dirExists := true })
        | .ok bytes =>
          match srv.writeError filePath with
          | some m => (serverError m, { disk with dirExists := true })
          | none =>
            (savedResponse fileName,
              { dirExists := true, files := disk.files ++ [(filePath, bytes)] })

/-- A server whose directory operations succeed and whose paths are the download
directory followed by the name. -/
def plainServer : Server :=
  { pathJoin := fun fileName => "src/download/".toList ++ fileName }

/-! ## Strings with and without a scheme -/

/-- Whether `s` begins with `p` when ASCII letters are compared without regard to case. -/
def startsWithIgnoreCase (s p : JSString) : Bool := startsWith (asciiLower s) (asciiLower p)

/-- Whether no character class of the expression accepts `c`: then no string the
expression matches holds `c`. -/
def Regex.excludes (ignoreCase : Bool) (c : Char) : Regex → Bool
  | .fail => true
  | .eps => true
  | .set ranges => !Regex.accepts ignoreCase ranges c
  | .seq a b => Regex.excludes ignoreCase c a && Regex.excludes ignoreCase c b
  | .alt a b => Regex.excludes ignoreCase c a && Regex.excludes ignoreCase c b
  | .star a => Regex.excludes ignoreCase c a

/-- The characters the URL parser strips from both ends of its input. -/
def isC0ControlOrSpace (c : Char) : Bool := c.toNat ≤ 0x20

/-- The input as the URL parser reads it: C0 controls and spaces removed from both ends,
tabs and newlines removed everywhere. -/
def urlInput (s : JSString) : JSString :=
  ((s.dropWhile isC0ControlOrSpace).reverse.dropWhile isC0ControlOrSpace).reverse.filter
    fun c => !(c.toNat == 0x09 || c.toNat == 0x0A || c.toNat == 0x0D)

/-- Whether the URL parser finds a scheme at the start: an ASCII letter, then letters,
digits, `+`, `-` and `.`, then `:`. -/
def hasScheme : JSString → Bool
  | [] => false
  | c :: cs =>
    c.isAlpha &&
      (cs.dropWhile fun d => d.isAlphanum || d == '+' || d == '-' || d == '.').head? == some ':'

/-- As `happyWorld`, but `new URL(s)` succeeds exactly on the inputs that have a scheme. -/
def schemeWorld : World :=
  { happyWorld with parsesAsUrl := fun s => hasScheme (urlInput s) }

/-! ## The matcher agrees with the meaning of the operators -/

namespace Regex

theorem not_matches_fail (ic : Bool) (s : List Char) : ¬ Matches ic fail s := by
  intro h
  cases h

theorem isFail_iff (r : Regex) : isFail r = true ↔ r = fail := by
  cases r <;> simp [isFail]

theorem matches_mkSeq (ic : Bool) (a b : Regex) (s : List Char) :
    Matches ic (mkSeq a b) s ↔ Matches ic (seq a b) s := by
  unfold mkSeq
  split_ifs with h
  · constructor
    · intro hm
      exact absurd hm (not_matches_fail ic s)
    · intro hm
      cases hm with
      | seq ha hb =>
        rw [Bool.or_eq_true, isFail_iff, isFail_iff] at h
        rcases h with h | h
        · subst h; exact absurd ha (not_matches_fail ic _)
        · subst h; exact absurd hb (not_matches_fail ic _)
  · exact Iff.rfl

theorem matches_mkAlt (ic : Bool) (a b : Regex) (s : List Char) :
    Matches ic (mkAlt a b) s ↔ Matches ic (alt a b) s := by
  unfold mkAlt
  split_ifs with h1 h2
  · rw [isFail_iff] at h1
    subst h1
    constructor
    · exact Matches.altRight
    · intro hm
      cases hm with
      | altLeft ha => exact absurd ha (not_matches_fail ic _)
      | altRight hb => exact hb
  · rw [isFail_iff] at h2
    subst h2
    constructor
    · exact Matches.altLeft
    · intro hm
      cases hm with
      | altLeft ha => exact ha
      | altRight hb => exact absurd hb (not_matches_fail ic _)
  · exact Iff.rfl

theorem nullable_iff (ic : Bool) (r : Regex) : nullable r = true ↔ Matches ic r [] := by
  induction r with
  | fail => simp [nullable, not_matches_fail]
  | eps => simp [nullable, Matches.eps]
  | set rs =>
    simp only [nullable, Bool.false_eq_true, false_iff]
    intro h
    cases h
  | seq a b iha ihb =>
    simp only [nullable, Bool.and_eq_true, iha, ihb]
    constructor
    · rintro ⟨ha, hb⟩
      exact Matches.seq ha hb
    · intro h
      generalize hs : ([] : List Char) = s at h
      cases h with
      | seq ha hb =>
        obtain ⟨h1, h2⟩ := List.append_eq_nil.1 hs.symm
        subst h1 h2
        exact ⟨ha, hb⟩
  | alt a b iha ihb =>
    simp only [nullable, Bool.or_eq_true, iha, ihb]
    constructor
    · rintro (ha | hb)
      · exact Matches.altLeft ha
      · exact Matches.altRight hb
    · intro h
      cases h with
      | altLeft ha => exact Or.inl ha
      | altRight hb => exact Or.inr hb
  | star a _ => simp [nullable, Matches.starNil]

theorem matches_seq_cons (ic : Bool) (a b : Regex) (c : Char) (s : List Char) :
    Matches ic (seq a b) (c :: s) ↔
      (∃ s1 s2, s = s1 ++ s2 ∧ Matches ic a (c :: s1) ∧ Matches ic b s2) ∨
      (Matches ic a [] ∧ Matches ic b (c :: s)) := by
  constructor
  · intro h
    generalize hs : c :: s = u at h
    cases h with
    | @seq _ _ x y ha hb =>
      cases x with
      | nil =>
        simp only [List.nil_append] at hs
        subst hs
        exact Or.inr ⟨ha, hb⟩
      | cons x xs =>
        simp only [List.cons_append, List.cons.injEq] at hs
        obtain ⟨h1, h2⟩ := hs
        subst h1 h2
        exact Or.inl ⟨xs, y, rfl, ha, hb⟩
  · rintro (⟨s1, s2, rfl, ha, hb⟩ | ⟨ha, hb⟩)
    · exact Matches.seq ha hb
    · exact Matches.seq ha hb

theorem matches_star_cons (ic : Bool) (a : Regex) (c : Char) (s : List Char) :
    Matches ic (star a) (c :: s) ↔
      ∃ s1 s2, s = s1 ++ s2 ∧ Matches ic a (c :: s1) ∧ Matches ic (star a) s2 := by
  constructor
  · intro h
    generalize hr : star a = r at h
    generalize hs : c :: s = u at h
    induction h with
    | eps => cases hr
    | set _ => cases hr
    | seq _ _ _ _ => cases hr
    | altLeft _ _ => cases hr
    | altRight _ _ => cases hr
    | starNil => cases hs
    | @starCons a2 x y ha hb _ ihb =>
      cases hr
      cases x with
      | nil =>
        simp only [List.nil_append] at hs
        exact ihb rfl hs
      | cons x xs =>
        simp only [List.cons_append, List.cons.injEq] at hs
        obtain ⟨h1, h2⟩ := hs
        subst h1 h2
        exact ⟨xs, y, rfl, ha, hb⟩
  · rintro ⟨s1, s2, rfl, ha, hb⟩
    exact Matches.starCons ha hb

theorem matches_deriv (ic : Bool) (r : Regex) (c : Char) :
    ∀ s : List Char, Matches ic (deriv ic r c) s ↔ Matches ic r (c :: s) := by
  induction r with
  | fail =>
    intro s
    simp [deriv, not_matches_fail]
  | eps =>
    intro s
    simp only [deriv]
    constructor
    · intro h
      exact absurd h (not_matches_fail ic s)
    · intro h
      cases h
  | set rs =>
    intro s
    simp only [deriv]
    split_ifs with hacc
    · constructor
      · intro h
        cases h
        exact Matches.set hacc
      · intro h
        cases h
        exact Matches.eps
    · constructor
      · intro h
        exact absurd h (not_matches_fail ic s)
      · intro h
        cases h with
        | set h2 => exact absurd h2 hacc
  | seq a b iha ihb =>
    intro s
    rw [matches_seq_cons]
    simp only [deriv]
    split_ifs with hn
    · rw [matches_mkAlt]
      constructor
      · intro h
        cases h with
        | altLeft h1 =>
          rw [matches_mkSeq] at h1
          cases h1 with
          | seq ha hb => exact Or.inl ⟨_, _, rfl, (iha _).1 ha, hb⟩
        | altRight h2 => exact Or.inr ⟨(nullable_iff ic a).1 hn, (ihb _).1 h2⟩
      · rintro (⟨s1, s2, rfl, ha, hb⟩ | ⟨_, hb⟩)
        · exact Matches.altLeft ((matches_mkSeq ic _ _ _).2 (Matches.seq ((iha _).2 ha) hb))
        · exact Matches.altRight ((ihb _).2 hb)
    · rw [matches_mkSeq]
      constructor
      · intro h
        cases h with
        | seq ha hb => exact Or.inl ⟨_, _, rfl, (iha _).1 ha, hb⟩
      · rintro (⟨s1, s2, rfl, ha, hb⟩ | ⟨ha, _⟩)
        · exact Matches.seq ((iha _).2 ha) hb
        · exact absurd ((nullable_iff ic a).2 ha) hn
  | alt a b iha ihb =>
    intro s
    simp only [deriv]
    rw [matches_mkAlt]
    constructor
    · intro h
      cases h with
      | altLeft ha => exact Matches.altLeft ((iha _).1 ha)
      | altRight hb => exact Matches.altRight ((ihb _).1 hb)
    · intro h
      cases h with
      | altLeft ha => exact Matches.altLeft ((iha _).2 ha)
      | altRight hb => exact Matches.altRight ((ihb _).2 hb)
  | star a iha =>
    intro s
    rw [matches_star_cons]
    simp only [deriv]
    rw [matches_mkSeq]
    constructor
    · intro h
      cases h with
      | seq ha hb => exact ⟨_, _, rfl, (iha _).1 ha, hb⟩
    · rintro ⟨s1, s2, rfl, ha, hb⟩
      exact Matches.seq ((iha _).2 ha) hb

/-- The matcher decides the meaning: `test` answers `true` exactly on the strings the
expression matches in full. -/
theorem test_iff_matches (ic : Bool) (s : List Char) :
    ∀ r : Regex, test ic r s = true ↔ Matches ic r s := by
  induction s with
  | nil =>
    intro r
    exact nullable_iff ic r
  | cons c cs ih =>
    intro r
    simp only [test]
    rw [ih, matches_deriv]

end Regex

/-! ## Lemmas on the string built-ins -/

theorem split_ne_nil (sep : Char) (s : JSString) : split sep s ≠ [] := by
  induction s with
  | nil => simp [split]
  | cons c cs ih =>
    unfold split
    split_ifs
    · simp
    · cases h : split sep cs <;> simp

theorem split_of_not_mem (sep : Char) (s : JSString) (h : sep ∉ s) : split sep s = [s] := by
  induction s with
  | nil => rfl
  | cons c cs ih =>
    have hc : c ≠ sep := fun e => h (by simp [e])
    have hs : sep ∉ cs := fun e => h (by simp [e])
    simp [split, hc, ih hs]

theorem split_append_sep (sep : Char) (a b : JSString) (h : sep ∉ a) :
    split sep (a ++ sep :: b) = a :: split sep b := by
  induction a with
  | nil => simp [split]
  | cons c cs ih =>
    have hc : c ≠ sep := fun e => h (by simp [e])
    have hs : sep ∉ cs := fun e => h (by simp [e])
    simp [split, hc, ih hs]

theorem isUrl_eq_test (text : JSString) : isUrl text = urlRegex.test true (trim text) := by
  cases text with
  | nil => decide
  | cons c cs => simp [isUrl]

theorem classifyContent_some (toLowerCase : JSString → JSString) (c : Container) :
    ∃ d, classifyContent toLowerCase (some c) = some d := by
  unfold classifyContent
  cases himg : c.img.filter fun i => !i.src.isEmpty with
  | some i => simp [himg]
  | none =>
    by_cases hf : truthy c.dataset.fileContent = true
    · simp [himg, hf]
    · by_cases hu : isUrl c.textContent = true
      · simp [himg, hf, hu]
      · simp [himg, hf, hu]

theorem base64ToBlobLoop_finishes (fuel : Nat) :
    ∀ (rest : JSString) (byteArrays : List (List Nat)), rest.length ≤ fuel →
      ∃ r, base64ToBlobLoop fuel rest byteArrays = some r := by
  induction fuel with
  | zero =>
    intro rest byteArrays h
    have : rest = [] := List.length_eq_zero.1 (Nat.le_zero.1 h)
    subst this
    exact ⟨byteArrays, rfl⟩
  | succ fuel ih =>
    intro rest byteArrays h
    cases rest with
    | nil => exact ⟨byteArrays, rfl⟩
    | cons c cs =>
      have hlen : ((c :: cs).drop 512).length ≤ fuel := by
        simp only [List.length_drop, List.length_cons] at h ⊢
        omega
      obtain ⟨r, hr⟩ := ih ((c :: cs).drop 512)
        (byteArrays ++ [byteArrayOf ((c :: cs).take 512)]) hlen
      exact ⟨r, by simpa [base64ToBlobLoop] using hr⟩

/-! ## Classification: priority, text, URL, absence -/

/-- C1: for every present container the descriptor's type is that of the first check
that holds: an `img` with a non-empty `src` gives Image; else non-empty stored file
content gives File; else trimmed text matching the URL pattern gives URL; else Text. -/
theorem classifyContent_priority (toLowerCase : JSString → JSString) (c : Container) :
    (classifyContent toLowerCase (some c)).map (fun d => d.type) =
      some (if (c.img.filter fun i => !i.src.isEmpty).isSome then ContentType.Image
            else if truthy c.dataset.fileContent then ContentType.File
            else if urlRegex.test true (trim c.textContent) then ContentType.URL
            else ContentType.Text) := by
  unfold classifyContent
  cases himg : c.img.filter fun i => !i.src.isEmpty with
  | some i => simp [himg]
  | none =>
    by_cases hf : truthy c.dataset.fileContent = true
    · simp [himg, hf]
    · by_cases hu : urlRegex.test true (trim c.textContent) = true
      · simp [himg, hf, isUrl_eq_test, hu]
      · simp [himg, hf, isUrl_eq_test, hu]

/-- C2, refuted as stated: a container holding only the text `example.com` is classified
as URL with format `url`, not as Text. -/
theorem classifyContent_text_only_counterexample :
    (classifyContent asciiLower (some { textContent := "example.com".toList })).map
        (fun d => (d.type, d.format)) = some (ContentType.URL, "url".toList) ∧
    (classifyContent asciiLower (some { textContent := "example.com".toList })).map
        (fun d => d.type) ≠ some ContentType.Text := by
  decide

/-- C2, amended: for every container with no image and no stored file content whose
text, trimmed, does not match the URL pattern, the descriptor has type Text, format
`text` and size `(length / 1024).toFixed(2)` followed by ` KB`, the length being that of
the text in UTF-16 code units. -/
theorem classifyContent_text_only (toLowerCase : JSString → JSString) (c : Container)
    (himg : c.img = none) (hfile : c.dataset.fileContent = none)
    (hurl : urlRegex.test true (trim c.textContent) = false) :
    classifyContent toLowerCase (some c) =
      some { type := ContentType.Text
             size := toFixed2 (jsLength c.textContent) 1024 ++ " KB".toList
             format := "text".toList
             element := Element.container c
             url := none } := by
  simp [classifyContent, himg, hfile, truthy, isUrl_eq_test, hurl, formatFileSize]

theorem classifyContent_text_only_witness :
    classifyContent asciiLower (some { textContent := "hello world".toList }) =
      some { type := ContentType.Text
             size := "0.01 KB".toList
             format := "text".toList
             element := Element.container { textContent := "hello world".toList }
             url := none } :=
  classifyContent_text_only asciiLower { textContent := "hello world".toList } rfl rfl
    (by decide)

/-- C3: for every container with no image and no stored file content: when the trimmed
text matches the URL pattern the descriptor has type URL, format `url` and `url` equal
to the trimmed text; when it does not match, the type is Text. -/
theorem classifyContent_url (toLowerCase : JSString → JSString) (c : Container)
    (himg : c.img = none) (hfile : c.dataset.fileContent = none) :
    (urlRegex.test true (trim c.textContent) = true →
      classifyContent toLowerCase (some c) =
        some { type := ContentType.URL
               size := formatFileSize (jsLength c.textContent)
               format := "url".toList
               element := Element.container c
               url := some (trim c.textContent) }) ∧
    (urlRegex.test true (trim c.textContent) = false →
      (classifyContent toLowerCase (some c)).map (fun d => d.type) =
        some ContentType.Text) := by
  constructor
  · intro hurl
    simp [classifyContent, himg, hfile, truthy, isUrl_eq_test, hurl]
  · intro hurl
    simp [classifyContent, himg, hfile, truthy, isUrl_eq_test, hurl]

theorem classifyContent_url_witness :
    (classifyContent asciiLower (some { textContent := " https://Example.com/a ".toList })).map
        (fun d => (d.type, d.format, d.url)) =
      some (ContentType.URL, "url".toList, some "https://Example.com/a".toList) ∧
    (classifyContent asciiLower (some { textContent := "two words".toList })).map
        (fun d => d.type) = some ContentType.Text :=
  ⟨by
      rw [(classifyContent_url asciiLower { textContent := " https://Example.com/a ".toList }
        rfl rfl).1 (by decide)]
      decide,
   (classifyContent_url asciiLower { textContent := "two words".toList } rfl rfl).2
      (by decide)⟩

/-- C4, refuted as stated: the empty container (no image, no stored file content, empty
text) is not answered with `null` but with a Text descriptor of size `0.00 KB`. -/
theorem classifyContent_empty_counterexample :
    classifyContent asciiLower (some { img := none, textContent := [], dataset := {} }) =
      some { type := ContentType.Text
             size := "0.00 KB".toList
             format := "text".toList
             element := Element.container { img := none, textContent := [], dataset := {} }
             url := none } ∧
    classifyContent asciiLower (some { img := none, textContent := [], dataset := {} }) ≠
      none := by
  decide

/-- C4, amended: `classifyContent` returns `null` exactly when the container is absent;
for every present container it returns a descriptor, the empty one included, which is
classified as Text with size `0.00 KB`. -/
theorem classifyContent_null_iff (toLowerCase : JSString → JSString)
    (contentElement : Option Container) :
    (classifyContent toLowerCase contentElement = none ↔ contentElement = none) ∧
    (∀ c : Container, ∃ d, classifyContent toLowerCase (some c) = some d) ∧
    classifyContent toLowerCase (some { img := none, textContent := [], dataset := {} }) =
      some { type := ContentType.Text
             size := "0.00 KB".toList
             format := "text".toList
             element := Element.container { img := none, textContent := [], dataset := {} }
             url := none } := by
  refine ⟨?_, classifyContent_some toLowerCase, rfl⟩
  cases contentElement with
  | none => simp [classifyContent]
  | some c =>
    obtain ⟨d, hd⟩ := classifyContent_some toLowerCase c
    simp [hd]

theorem split_append_sep_last (sep : Char) (pre suf : JSString) (h : sep ∉ suf) :
    ∃ front, front ≠ [] ∧ split sep (pre ++ sep :: suf) = front ++ [suf] := by
  induction pre with
  | nil => exact ⟨[[]], by simp, by simp [split, split_of_not_mem sep suf h]⟩
  | cons c cs ih =>
    obtain ⟨front, hne, hs⟩ := ih
    by_cases hc : c = sep
    · exact ⟨[] :: front, by simp, by simp [split, hc, ← hs]⟩
    · cases front with
      | nil => exact absurd rfl hne
      | cons f fs =>
        refine ⟨(c :: f) :: fs, by simp, ?_⟩
        have : split sep (c :: cs ++ sep :: suf)
            = match split sep (cs ++ sep :: suf) with
              | [] => [[c]]
              | p :: ps => (c :: p) :: ps := by
          simp [split, hc]
        rw [this, hs]
        rfl

/-- C5: `getFileExtension` is the lower-cased part of the name after its last `'.'` when
the name has one, and `'unknown'` when it has none or is missing; names whose last parts
agree after lower-casing get the same result (`report.PDF` and `report.pdf` give `pdf`);
and the format of a File descriptor is `getFileExtension` of the stored name. -/
theorem getFileExtension_spec (toLowerCase : JSString → JSString) :
    (∀ pre suf : JSString, '.' ∉ suf →
      getFileExtension toLowerCase (some (pre ++ '.' :: suf)) = toLowerCase suf) ∧
    (∀ name : JSString, '.' ∉ name →
      getFileExtension toLowerCase (some name) = "unknown".toList) ∧
    getFileExtension toLowerCase none = "unknown".toList ∧
    (∀ pre suf suf2 : JSString, '.' ∉ suf → '.' ∉ suf2 →
      toLowerCase suf = toLowerCase suf2 →
      getFileExtension toLowerCase (some (pre ++ '.' :: suf)) =
        getFileExtension toLowerCase (some (pre ++ '.' :: suf2))) ∧
    (∀ (c : Container) (d : ContentDescriptor),
      classifyContent toLowerCase (some c) = some d → d.type = ContentType.File →
        d.format = getFileExtension toLowerCase c.dataset.fileName) ∧
    getFileExtension asciiLower (some "report.PDF".toList) = "pdf".toList ∧
    getFileExtension asciiLower (some "report.pdf".toList) = "pdf".toList := by
  have h1 : ∀ pre suf : JSString, '.' ∉ suf →
      getFileExtension toLowerCase (some (pre ++ '.' :: suf)) = toLowerCase suf := by
    intro pre suf h
    obtain ⟨front, hne, hs⟩ := split_append_sep_last '.' pre suf h
    have hlen : 1 < (front ++ [suf]).length := by
      cases front with
      | nil => exact absurd rfl hne
      | cons f fs => simp
    simp only [getFileExtension, hs, List.getLast?_concat]
    simp [hlen, hne]
  refine ⟨h1, ?_, rfl, ?_, ?_, by decide, by decide⟩
  · intro name h
    simp [getFileExtension, split_of_not_mem '.' name h]
  · intro pre suf suf2 h h2 heq
    rw [h1 pre suf h, h1 pre suf2 h2, heq]
  · intro c d hd ht
    unfold classifyContent at hd
    cases himg : c.img.filter fun i => !i.src.isEmpty with
    | some i =>
      simp [himg] at hd
      subst hd
      simp at ht
    | none =>
      by_cases hf : truthy c.dataset.fileContent = true
      · simp only [himg, hf, if_true, Option.some.injEq] at hd
        subst hd
        cases hn : c.dataset.fileName with
        | none => simp [truthy, getFileExtension]
        | some n =>
          cases n with
          | nil => simp [truthy, getFileExtension]
          | cons x xs => simp [truthy]
      · by_cases hu : isUrl c.textContent = true
        · simp [himg, hf, hu] at hd
          subst hd
          simp at ht
        · simp [himg, hf, hu] at hd
          subst hd
          simp at ht

theorem getFileExtension_spec_witness :
    getFileExtension asciiLower (some ("archive.tar".toList ++ '.' :: "GZ".toList)) =
      asciiLower "GZ".toList ∧
    getFileExtension asciiLower (some "Makefile".toList) = "unknown".toList ∧
    getFileExtension asciiLower (some ("a".toList ++ '.' :: "TXT".toList)) =
      getFileExtension asciiLower (some ("a".toList ++ '.' :: "txt".toList)) :=
  ⟨(getFileExtension_spec asciiLower).1 "archive.tar".toList "GZ".toList (by decide),
   (getFileExtension_spec asciiLower).2.1 "Makefile".toList (by decide),
   (getFileExtension_spec asciiLower).2.2.2.1 "a".toList "TXT".toList "txt".toList
     (by decide) (by decide) (by decide)⟩

theorem split_head (sep : Char) (s : JSString) :
    (split sep s)[0]? = some (s.takeWhile fun c => c != sep) := by
  induction s with
  | nil => rfl
  | cons c cs ih =>
    by_cases hc : c = sep
    · simp [split, hc]
    · cases hs : split sep cs with
      | nil => exact absurd hs (split_ne_nil sep cs)
      | cons p ps =>
        rw [hs] at ih
        simp at ih
        simp [split, hc, hs, List.takeWhile_cons, ih]

theorem startsWith_append (p s : JSString) : startsWith (p ++ s) p = true := by
  induction p with
  | nil => cases s <;> rfl
  | cons c cs ih => simp [startsWith, ih]

theorem takeWhile_mime (l : JSString) :
    ((l.takeWhile fun c => c != ',').takeWhile fun c => c != ':').takeWhile (fun c => c != ';')
      = l.takeWhile mimeChar := by
  induction l with
  | nil => rfl
  | cons c cs ih =>
    by_cases h1 : c = ','
    · subst h1; simp [List.takeWhile_cons, mimeChar]
    · by_cases h2 : c = ':'
      · subst h2; simp [List.takeWhile_cons, mimeChar]
      · by_cases h3 : c = ';'
        · subst h3; simp [List.takeWhile_cons, mimeChar]
        · simp [List.takeWhile_cons, mimeChar, h1, h2, h3, ih]

theorem getImageFormat_data (body : JSString) :
    getImageFormat ("data:".toList ++ body) =
      match (split '/' (body.takeWhile mimeChar))[1]? with
      | none => "unknown".toList
      | some sub => if sub.isEmpty then "unknown".toList else sub := by
  have h0 : (split ',' ("data:".toList ++ body))[0]?
      = some ("data:".toList ++ body.takeWhile fun c => c != ',') := by
    rw [split_head, List.takeWhile_append_of_pos]
    intro a ha
    have : a = 'd' ∨ a = 'a' ∨ a = 't' ∨ a = 'a' ∨ a = ':' := by simpa using ha
    rcases this with h | h | h | h | h <;> subst h <;> decide
  have h1 : ∀ b : JSString, (split ':' ("data:".toList ++ b))[1]?
      = some (b.takeWhile fun c => c != ':') := by
    intro b
    have : "data:".toList ++ b = "data".toList ++ ':' :: b := rfl
    rw [this, split_append_sep ':' _ _ (by decide)]
    simp [split_head]
  unfold getImageFormat
  rw [startsWith_append]
  simp only [h0, h1, split_head, takeWhile_mime]
  simp

theorem takeWhile_mime_stop (rest : JSString)
    (h : rest = [] ∨ ∃ c r, rest = c :: r ∧ mimeChar c = false) :
    rest.takeWhile mimeChar = [] := by
  rcases h with h | ⟨c, r, h, hc⟩
  · subst h; rfl
  · subst h; simp [List.takeWhile_cons, hc]

/-- C6: for a source `data:` type `/` subtype, then nothing or `;`-parameters, then `,`
and a payload, with type and subtype free of `,` `:` `;` `/` and the subtype not empty,
the format is the subtype (`data:image/png;base64,...` gives `png`); a source that does
not start with `data:`, or whose MIME type has no `/` or nothing after it, gives
`unknown`; and the format of an Image descriptor is `getImageFormat` of the `src`. -/
theorem getImageFormat_spec :
    (∀ type subtype params payload : JSString,
      (∀ c ∈ type, c ≠ ',' ∧ c ≠ ':' ∧ c ≠ ';' ∧ c ≠ '/') →
      (∀ c ∈ subtype, c ≠ ',' ∧ c ≠ ':' ∧ c ≠ ';' ∧ c ≠ '/') →
      subtype ≠ [] →
      (params = [] ∨ ∃ r, params = ';' :: r) →
      getImageFormat ("data:".toList ++ type ++ '/' :: subtype ++ params ++ ',' :: payload)
        = subtype) ∧
    (∀ src : JSString, startsWith src "data:".toList = false →
      getImageFormat src = "unknown".toList) ∧
    (∀ type rest : JSString,
      (∀ c ∈ type, c ≠ ',' ∧ c ≠ ':' ∧ c ≠ ';' ∧ c ≠ '/') →
      (rest = [] ∨ ∃ c r, rest = c :: r ∧ (c = ',' ∨ c = ':' ∨ c = ';')) →
      getImageFormat ("data:".toList ++ type ++ rest) = "unknown".toList) ∧
    (∀ type rest : JSString,
      (∀ c ∈ type, c ≠ ',' ∧ c ≠ ':' ∧ c ≠ ';' ∧ c ≠ '/') →
      (rest = [] ∨ ∃ c r, rest = c :: r ∧ (c = ',' ∨ c = ':' ∨ c = ';' ∨ c = '/')) →
      getImageFormat ("data:".toList ++ type ++ '/' :: rest) = "unknown".toList) ∧
    (∀ (toLowerCase : JSString → JSString) (c : Container) (d : ContentDescriptor),
      classifyContent toLowerCase (some c) = some d → d.type = ContentType.Image →
        ∃ i, c.img = some i ∧ d.format = getImageFormat i.src) ∧
    (∀ payload : JSString,
      getImageFormat ("data:image/png;base64,".toList ++ payload) = "png".toList) := by
  have hm : ∀ t : JSString, (∀ c ∈ t, c ≠ ',' ∧ c ≠ ':' ∧ c ≠ ';' ∧ c ≠ '/') →
      ∀ c ∈ t, mimeChar c = true := by
    intro t ht c hc
    have := ht c hc
    simp [mimeChar, this.1, this.2.1, this.2.2.1]
  have hs : ∀ t : JSString, (∀ c ∈ t, c ≠ ',' ∧ c ≠ ':' ∧ c ≠ ';' ∧ c ≠ '/') →
      '/' ∉ t := by
    intro t ht hmem
    exact (ht '/' hmem).2.2.2 rfl
  have hA : ∀ type subtype params payload : JSString,
      (∀ c ∈ type, c ≠ ',' ∧ c ≠ ':' ∧ c ≠ ';' ∧ c ≠ '/') →
      (∀ c ∈ subtype, c ≠ ',' ∧ c ≠ ':' ∧ c ≠ ';' ∧ c ≠ '/') →
      subtype ≠ [] →
      (params = [] ∨ ∃ r, params = ';' :: r) →
      getImageFormat ("data:".toList ++ type ++ '/' :: subtype ++ params ++ ',' :: payload)
        = subtype := by
    intro type subtype params payload ht hsub hne hp
    have hbody : "data:".toList ++ type ++ '/' :: subtype ++ params ++ ',' :: payload
        = "data:".toList ++ ((type ++ '/' :: subtype) ++ (params ++ ',' :: payload)) := by
      simp
    have hall : ∀ c ∈ type ++ '/' :: subtype, mimeChar c = true := by
      intro c hc
      rcases List.mem_append.1 hc with h | h
      · exact hm type ht c h
      · rcases List.mem_cons.1 h with h | h
        · subst h; decide
        · exact hm subtype hsub c h
    have hstop : (params ++ ',' :: payload).takeWhile mimeChar = [] := by
      apply takeWhile_mime_stop
      right
      rcases hp with h | ⟨r, h⟩
      · exact ⟨',', payload, by simp [h], by decide⟩
      · exact ⟨';', r ++ ',' :: payload, by simp [h], by decide⟩
    rw [hbody, getImageFormat_data, List.takeWhile_append_of_pos hall, hstop,
      List.append_nil, split_append_sep '/' type subtype (hs type ht),
      split_of_not_mem '/' subtype (hs subtype hsub)]
    cases subtype with
    | nil => exact absurd rfl hne
    | cons x xs => simp
  refine ⟨hA, ?_, ?_, ?_, ?_, ?_⟩
  · intro src h
    unfold getImageFormat
    rw [h]
    simp
  · intro type rest ht hr
    have hstop : rest.takeWhile mimeChar = [] := by
      apply takeWhile_mime_stop
      rcases hr with h | ⟨c, r, h, hc⟩
      · exact Or.inl h
      · exact Or.inr ⟨c, r, h, by rcases hc with e | e | e <;> subst e <;> decide⟩
    rw [List.append_assoc, getImageFormat_data, List.takeWhile_append_of_pos (hm type ht),
      hstop, List.append_nil, split_of_not_mem '/' type (hs type ht)]
    rfl
  · intro type rest ht hr
    have hbody : "data:".toList ++ type ++ '/' :: rest =
        "data:".toList ++ (type ++ '/' :: rest) := by
      simp
    have hsplit : ∃ tl,
        split '/' ((type ++ '/' :: rest).takeWhile mimeChar) = type :: [] :: tl := by
      rw [List.takeWhile_append_of_pos (hm type ht)]
      have h1 : ('/' :: rest).takeWhile mimeChar = '/' :: rest.takeWhile mimeChar := by
        simp [List.takeWhile_cons, mimeChar]
      rw [h1, split_append_sep '/' type _ (hs type ht)]
      rcases hr with h | ⟨c, r, h, hc⟩
      · subst h; exact ⟨[], rfl⟩
      · subst h
        rcases hc with e | e | e | e
        · subst e; exact ⟨[], rfl⟩
        · subst e; exact ⟨[], rfl⟩
        · subst e; exact ⟨[], rfl⟩
        · subst e
          refine ⟨split '/' (r.takeWhile mimeChar), ?_⟩
          have h2 : ('/' :: r).takeWhile mimeChar = '/' :: r.takeWhile mimeChar := by
            simp [List.takeWhile_cons, mimeChar]
          rw [h2]
          simp [split]
    obtain ⟨tl, htl⟩ := hsplit
    rw [hbody, getImageFormat_data, htl]
    simp
  · intro toLowerCase c d hd ht
    unfold classifyContent at hd
    cases himg : c.img.filter fun i => !i.src.isEmpty with
    | some i =>
      simp only [himg, Option.some.injEq] at hd
      subst hd
      cases hi : c.img with
      | none => simp [hi] at himg
      | some j =>
        have : j = i := by
          rw [hi] at himg
          simp [Option.filter] at himg
          exact himg.2
        subst this
        exact ⟨j, rfl, rfl⟩
    | none =>
      by_cases hf : truthy c.dataset.fileContent = true
      · simp [himg, hf] at hd
        subst hd
        simp at ht
      · by_cases hu : isUrl c.textContent = true
        · simp [himg, hf, hu] at hd
          subst hd
          simp at ht
        · simp [himg, hf, hu] at hd
          subst hd
          simp at ht
  · intro payload
    have := hA "image".toList "png".toList ";base64".toList payload (by decide) (by decide)
      (by decide) (Or.inr ⟨"base64".toList, rfl⟩)
    simpa using this

theorem getImageFormat_spec_witness :
    getImageFormat ("data:".toList ++ "image".toList ++ '/' :: "jpeg".toList ++
        ";base64".toList ++ ',' :: "AAAA".toList) = "jpeg".toList ∧
    getImageFormat "https://example.com/a.png".toList = "unknown".toList ∧
    getImageFormat ("data:".toList ++ "image".toList ++ ",AAAA".toList) = "unknown".toList ∧
    getImageFormat ("data:".toList ++ "image".toList ++ '/' :: ";base64,AAAA".toList) =
      "unknown".toList :=
  ⟨getImageFormat_spec.1 "image".toList "jpeg".toList ";base64".toList "AAAA".toList
      (by decide) (by decide) (by decide) (Or.inr ⟨"base64".toList, rfl⟩),
   getImageFormat_spec.2.1 "https://example.com/a.png".toList (by decide),
   getImageFormat_spec.2.2.1 "image".toList ",AAAA".toList (by decide)
      (Or.inr ⟨',', "AAAA".toList, rfl, Or.inl rfl⟩),
   getImageFormat_spec.2.2.2.1 "image".toList ";base64,AAAA".toList (by decide)
      (Or.inr ⟨';', "base64,AAAA".toList, rfl, Or.inr (Or.inr (Or.inl rfl))⟩)⟩

theorem toDigitsCore_eq (n : Nat) : ∀ (fuel : Nat) (ds : List Char), n < fuel →
    Nat.toDigitsCore 10 fuel n ds = Nat.toDigits 10 n ++ ds := by
  induction n using Nat.strong_induction_on with
  | _ n ih =>
    intro fuel ds hf
    cases fuel with
    | zero => omega
    | succ f =>
      by_cases h0 : n / 10 = 0
      · simp [Nat.toDigits, Nat.toDigitsCore, h0]
      · have hlt : n / 10 < n := by omega
        have hA := ih (n / 10) hlt f (Nat.digitChar (n % 10) :: ds) (by omega)
        have hB := ih (n / 10) hlt n [Nat.digitChar (n % 10)] hlt
        simp only [Nat.toDigits, Nat.toDigitsCore, h0, if_false] at hA hB ⊢
        rw [hA, hB]
        simp

theorem toDigits_lt_ten (n : Nat) (h : n < 10) : Nat.toDigits 10 n = [Nat.digitChar n] := by
  have h0 : n / 10 = 0 := by omega
  have h1 : n % 10 = n := by omega
  simp [Nat.toDigits, Nat.toDigitsCore, h0, h1]

theorem toDigits_step (n : Nat) (h : 10 ≤ n) :
    Nat.toDigits 10 n = Nat.toDigits 10 (n / 10) ++ [Nat.digitChar (n % 10)] := by
  have h0 : n / 10 ≠ 0 := by omega
  have hlt : n / 10 < n := by omega
  have hB := toDigitsCore_eq (n / 10) n [Nat.digitChar (n % 10)] hlt
  simp only [Nat.toDigits, Nat.toDigitsCore, h0, if_false] at hB ⊢
  exact hB

theorem toDigits_ne_nil (n : Nat) : Nat.toDigits 10 n ≠ [] := by
  by_cases h : n < 10
  · simp [toDigits_lt_ten n h]
  · simp [toDigits_step n (by omega)]

theorem toFixed2_digits (num den : Nat) :
    toFixed2 num den =
      Nat.toDigits 10 ((200 * num + den) / (2 * den) / 100) ++
        ['.', Nat.digitChar ((200 * num + den) / (2 * den) / 10 % 10),
          Nat.digitChar ((200 * num + den) / (2 * den) % 10)] := by
  unfold toFixed2
  generalize (200 * num + den) / (2 * den) = q
  dsimp only
  by_cases h1 : q < 10
  · have e0 : q / 100 = 0 := by omega
    have e1 : q / 10 % 10 = 0 := by omega
    have e2 : q % 10 = q := by omega
    rw [e0, e1, e2, toDigits_lt_ten q h1]
    rfl
  · by_cases h2 : q < 100
    · have e0 : q / 100 = 0 := by omega
      have e1 : q / 10 % 10 = q / 10 := by omega
      rw [e0, e1, toDigits_step q (by omega), toDigits_lt_ten (q / 10) (by omega)]
      rfl
    · have e0 : q / 10 / 10 = q / 100 := by omega
      rw [toDigits_step q (by omega), toDigits_step (q / 10) (by omega), e0]
      have hne := toDigits_ne_nil (q / 100)
      cases hd : Nat.toDigits 10 (q / 100) with
      | nil => exact absurd hd hne
      | cons x xs => simp

/-- C7: for every byte count `n` (an integer the runtime holds exactly), the reported
size is the decimal numeral of `q / 100`, a point and the two digits of `q % 100`,
followed by ` KB`, where `q / 100` is `n / 1024` rounded to two decimals, ties going up;
every descriptor's size is that string for the byte count of its content: the size of the
raw file attached to the `img` (0 without one) for an Image, the stored `fileSize` (0
without one) for a File, the length of the text for a URL and for a Text; an Image
descriptor whose `img` has no raw file attached reports `0.00 KB`, and so does the text
`hello`. -/
theorem formatFileSize_spec :
    (∀ n : Nat, n ≤ maxSafeInteger →
      ∃ q : Nat,
        (q : ℚ) / 100 - 1 / 200 ≤ (n : ℚ) / 1024 ∧
        (n : ℚ) / 1024 < (q : ℚ) / 100 + 1 / 200 ∧
        formatFileSize n =
          Nat.toDigits 10 (q / 100) ++
            ['.', Nat.digitChar (q / 10 % 10), Nat.digitChar (q % 10)] ++ " KB".toList) ∧
    (∀ (toLowerCase : JSString → JSString) (c : Container) (d : ContentDescriptor),
      classifyContent toLowerCase (some c) = some d →
        (d.type = ContentType.Image →
          ∃ i, c.img = some i ∧ i.src ≠ [] ∧
            d.size = formatFileSize (match i.file with | some f => f.size | none => 0)) ∧
        (d.type = ContentType.File →
          d.size = formatFileSize (c.dataset.fileSize.getD 0)) ∧
        (d.type = ContentType.URL ∨ d.type = ContentType.Text →
          d.size = formatFileSize (jsLength c.textContent))) ∧
    (∀ (toLowerCase : JSString → JSString) (c : Container) (i : Img) (d : ContentDescriptor),
      c.img = some i → i.src ≠ [] → i.file = none →
      classifyContent toLowerCase (some c) = some d →
        d.type = ContentType.Image ∧ d.size = "0.00 KB".toList) ∧
    (∀ (toLowerCase : JSString → JSString) (c : Container),
      c.img = none → c.dataset.fileContent = none → c.textContent = "hello".toList →
        (classifyContent toLowerCase (some c)).map (fun d => d.size) =
          some "0.00 KB".toList) := by
  refine ⟨?_, ?_, ?_, ?_⟩
  · intro n _
    refine ⟨(200 * n + 1024) / (2 * 1024), ?_, ?_, ?_⟩
    · have h : 2 * 1024 * ((200 * n + 1024) / (2 * 1024)) ≤ 200 * n + 1024 :=
        Nat.mul_div_le _ _
      have hq : ((2 * 1024 * ((200 * n + 1024) / (2 * 1024)) : Nat) : ℚ)
          ≤ ((200 * n + 1024 : Nat) : ℚ) := by exact_mod_cast h
      push_cast at hq
      linarith
    · have h : 200 * n + 1024 < 2 * 1024 * ((200 * n + 1024) / (2 * 1024) + 1) :=
        Nat.lt_mul_div_succ _ (by decide)
      have hq : ((200 * n + 1024 : Nat) : ℚ)
          < ((2 * 1024 * ((200 * n + 1024) / (2 * 1024) + 1) : Nat) : ℚ) := by exact_mod_cast h
      push_cast at hq
      linarith
    · simp only [formatFileSize, toFixed2_digits]
  · intro toLowerCase c d hd
    unfold classifyContent at hd
    cases himg : c.img.filter fun i => !i.src.isEmpty with
    | some i =>
      simp only [himg, Option.some.injEq] at hd
      subst hd
      have hi : c.img = some i ∧ i.src ≠ [] := by
        cases hc : c.img with
        | none => simp [hc] at himg
        | some j =>
          rw [hc] at himg
          simp only [Option.filter] at himg
          split_ifs at himg with hj
          · have hji : j = i := Option.some.inj himg
            subst hji
            refine ⟨rfl, fun he => ?_⟩
            rw [he] at hj
            exact absurd hj (by decide)
      refine ⟨fun _ => ⟨i, hi.1, hi.2, rfl⟩, fun h => ?_, fun h => ?_⟩
      · simp at h
      · rcases h with h | h <;> simp at h
    | none =>
      by_cases hf : truthy c.dataset.fileContent = true
      · simp only [himg, hf, if_true, Option.some.injEq] at hd
        subst hd
        refine ⟨fun h => ?_, fun _ => rfl, fun h => ?_⟩
        · simp at h
        · rcases h with h | h <;> simp at h
      · by_cases hu : isUrl c.textContent = true
        · simp [himg, hf, hu] at hd
          subst hd
          refine ⟨fun h => ?_, fun h => ?_, fun _ => rfl⟩
          · simp at h
          · simp at h
        · simp [himg, hf, hu] at hd
          subst hd
          refine ⟨fun h => ?_, fun h => ?_, fun _ => rfl⟩
          · simp at h
          · simp at h
  · intro toLowerCase c i d hi hsrc hfile hd
    have himg : (c.img.filter fun i => !i.src.isEmpty) = some i := by
      cases hs : i.src with
      | nil => exact absurd hs hsrc
      | cons x xs => simp [hi, Option.filter, hs]
    simp only [classifyContent, himg, hfile, Option.some.injEq] at hd
    subst hd
    have hs : formatFileSize 0 = "0.00 KB".toList := by decide
    exact ⟨rfl, hs⟩
  · intro toLowerCase c himg hfile htext
    have hu : isUrl "hello".toList = false := by decide
    have hs : formatFileSize (jsLength "hello".toList) = "0.00 KB".toList := by decide
    simp only [classifyContent, himg, hfile, htext, Option.filter, truthy, hu, hs]
    rfl

theorem formatFileSize_spec_witness :
    (∃ q : Nat,
        (q : ℚ) / 100 - 1 / 200 ≤ ((128 : Nat) : ℚ) / 1024 ∧
        ((128 : Nat) : ℚ) / 1024 < (q : ℚ) / 100 + 1 / 200 ∧
        formatFileSize 128 =
          Nat.toDigits 10 (q / 100) ++
            ['.', Nat.digitChar (q / 10 % 10), Nat.digitChar (q % 10)] ++ " KB".toList) ∧
    formatFileSize 128 = "0.13 KB".toList ∧
    (classifyContent asciiLower
        (some { img := some { src := "data:image/png;base64,AAAA".toList, file := none } })).map
      (fun d => d.size) = some "0.00 KB".toList ∧
    (classifyContent asciiLower
        (some { dataset := { fileContent := some "data:,x".toList
                             fileName := some "report.pdf".toList
                             fileSize := some 1536 } })).map
      (fun d => d.size) = some "1.50 KB".toList ∧
    (classifyContent asciiLower
        (some { img := some { src := "blob:x".toList
                              file := some { bytes := [1, 2, 3, 4, 5, 6]
                                             type := "image/png".toList } } })).map
      (fun d => d.size) = some "0.01 KB".toList ∧
    "1.50 KB".toList = formatFileSize 1536 :=
  ⟨formatFileSize_spec.1 128 (by decide), by decide, by decide, by decide, by decide,
   (formatFileSize_spec.2.1 asciiLower
      { dataset := { fileContent := some "data:,x".toList
                     fileName := some "report.pdf".toList
                     fileSize := some 1536 } }
      { type := ContentType.File
        size := "1.50 KB".toList
        format := "pdf".toList
        element := Element.container
          { dataset := { fileContent := some "data:,x".toList
                         fileName := some "report.pdf".toList
                         fileSize := some 1536 } } }
      (by decide)).2.1 rfl⟩

/-! ## Dispatch -/

/-- C8: when classification gives `null`, `processContent` runs no handler and returns
`{ success: false, message: 'No content to process' }`; when it gives a descriptor, the
run of `processContent` is the run of the one handler call named for the descriptor's
type: it ends in the same state and returns that call's result unchanged (an error
thrown by the call is returned as `Error: ` and its message). -/
theorem processContent_dispatch (w : World) (h : Handlers) (s : HState) :
    (classifyContent w.toLowerCase s.element = none →
      processContentWith w h s = (.ok (failure "No content to process".toList), s)) ∧
    (∀ (c : Container) (d : ContentDescriptor), s.element = some c →
      classifyContent w.toLowerCase (some c) = some d →
        (∀ r s1, expectedCall w h c d.type s = (.ok r, s1) →
          processContentWith w h s = (.ok r, s1)) ∧
        (∀ m s1, expectedCall w h c d.type s = (.error m, s1) →
          processContentWith w h s = (.ok (errorResult m), s1))) := by
  constructor
  · intro hnone
    simp only [processContentWith, bind, Eff.andThen, Eff.element, hnone]
    rfl
  · intro c d hel hd
    have hrun : processContentWith w h s =
        Eff.catching (expectedCall w h c d.type) (fun m => Eff.ret (errorResult m)) s := by
      have hd2 := hd
      unfold classifyContent at hd2
      simp only [processContentWith, bind, Eff.andThen, Eff.element, hel, hd]
      cases himg : c.img.filter fun i => !i.src.isEmpty with
      | some i =>
        simp only [himg, Option.some.injEq] at hd2
        subst hd2
        have hi : c.img = some i := by
          cases hc : c.img with
          | none => simp [hc] at himg
          | some j =>
            rw [hc] at himg
            simp [Option.filter] at himg
            rw [himg.2]
        simp only [expectedCall, hi]
        rfl
      | none =>
        by_cases hf : truthy c.dataset.fileContent = true
        · simp [himg, hf] at hd2
          subst hd2
          rfl
        · by_cases hu : isUrl c.textContent = true
          · simp [himg, hf, hu] at hd2
            subst hd2
            rfl
          · simp [himg, hf, hu] at hd2
            subst hd2
            rfl
    constructor
    · intro r s1 hcall
      rw [hrun]
      simp only [Eff.catching, hcall]
    · intro m s1 hcall
      rw [hrun]
      simp only [Eff.catching, hcall]
      rfl

theorem processContent_dispatch_witness :
    processContentWith happyWorld echoHandlers
        { element := some { textContent := " example.com ".toList } } =
      (.ok (failure "handleUrl example.com".toList),
        { element := some { textContent := " example.com ".toList } }) ∧
    processContentWith happyWorld echoHandlers { element := none } =
      (.ok (failure "No content to process".toList), { element := none }) :=
  ⟨((processContent_dispatch happyWorld echoHandlers
        { element := some { textContent := " example.com ".toList } }).2
        { textContent := " example.com ".toList }
        { type := ContentType.URL
          size := "0.01 KB".toList
          format := "url".toList
          element := Element.container { textContent := " example.com ".toList }
          url := some "example.com".toList }
        rfl (by decide)).1 _ _ (by decide),
   (processContent_dispatch happyWorld echoHandlers { element := none }).1 (by decide)⟩

/-! ## Errors and confirmation of persistence -/

theorem catching_returns {α : Type} (m : Eff α) (g : JSString → α) (s : HState) :
    ∃ r s1, Eff.catching m (fun e => Eff.ret (g e)) s = (.ok r, s1) := by
  unfold Eff.catching
  cases h : m s with
  | mk o s1 =>
    cases o with
    | ok a => exact ⟨a, s1, rfl⟩
    | error e => exact ⟨g e, s1, rfl⟩

/-- No exception escapes `saveToServer`, a handler or the dispatcher: each returns a
result from every state, whatever the environment does. -/
theorem no_exception_escapes (w : World) (s : HState) :
    (∀ blob fileName fileType,
      ∃ r s1, saveToServer w blob fileName fileType s = (.ok r, s1)) ∧
    (∀ text, ∃ r s1, handleText w text s = (.ok r, s1)) ∧
    (∀ url, ∃ r s1, handleUrl w url s = (.ok r, s1)) ∧
    (∀ image, ∃ r s1, handleImage w image s = (.ok r, s1)) ∧
    (∀ content name, ∃ r s1, handleFile w content name s = (.ok r, s1)) ∧
    (∀ h : Handlers, ∃ r s1, processContentWith w h s = (.ok r, s1)) ∧
    (∃ r s1, processContent w s = (.ok r, s1)) := by
  have hp : ∀ h : Handlers, ∃ r s1, processContentWith w h s = (.ok r, s1) := by
    intro h
    unfold processContentWith
    simp only [bind, Eff.andThen, Eff.element]
    cases classifyContent w.toLowerCase s.element with
    | none => exact ⟨_, _, rfl⟩
    | some d => exact catching_returns _ _ _
  refine ⟨?_, ?_, ?_, ?_, ?_, hp, hp _⟩
  · intro blob fileName fileType
    exact catching_returns _ _ _
  · intro text
    unfold handleText
    split_ifs
    · exact ⟨_, _, rfl⟩
    · exact catching_returns _ _ _
  · intro url
    unfold handleUrl
    split_ifs
    · exact ⟨_, _, rfl⟩
    · exact catching_returns _ _ _
  · intro image
    unfold handleImage
    cases image with
    | none => exact ⟨_, _, rfl⟩
    | some i =>
      dsimp only
      split_ifs
      · exact ⟨_, _, rfl⟩
      · exact catching_returns _ _ _
  · intro content name
    unfold handleFile
    split_ifs
    · exact ⟨_, _, rfl⟩
    · exact catching_returns _ _ _

theorem andThen_ok {α β : Type} (m : Eff α) (f : α → Eff β) (s : HState) (r : β)
    (s1 : HState) (h : (m >>= f) s = (.ok r, s1)) :
    ∃ a s0, m s = (.ok a, s0) ∧ f a s0 = (.ok r, s1) := by
  simp only [bind, Eff.andThen] at h
  cases hm : m s with
  | mk o s0 =>
    rw [hm] at h
    cases o with
    | ok a => exact ⟨a, s0, rfl, h⟩
    | error e => simp at h

theorem catching_success (m : Eff SaveResult) (s : HState) (r : SaveResult) (s1 : HState)
    (h : Eff.catching m (fun e => Eff.ret (errorResult e)) s = (.ok r, s1))
    (hs : r.success = true) : m s = (.ok r, s1) := by
  unfold Eff.catching at h
  cases hm : m s with
  | mk o s0 =>
    rw [hm] at h
    cases o with
    | ok a => exact h
    | error e =>
      simp only [Eff.ret, Prod.mk.injEq, Outcome.ok.injEq] at h
      rw [← h.1] at hs
      simp [errorResult, failure] at hs

theorem saveToServer_success (w : World) (blob : Blob) (fileName fileType : JSString)
    (s : HState) (r : SaveResult) (s1 : HState)
    (h : saveToServer w blob fileName fileType s = (.ok r, s1)) (hs : r.success = true) :
    Confirmed w s1 := by
  have hb := catching_success _ s r s1 h hs
  obtain ⟨content, s2, h1, hb⟩ := andThen_ok _ _ _ _ _ hb
  obtain ⟨_, s3, h2, hb⟩ := andThen_ok _ _ _ _ _ hb
  obtain ⟨response, s4, h3, hb⟩ := andThen_ok _ _ _ _ _ hb
  obtain ⟨reply, s5, h4, hb⟩ := andThen_ok _ _ _ _ _ hb
  simp only [blobToBase64, Eff.lift, Prod.mk.injEq] at h1 h3 h4
  simp only [Eff.emit, Prod.mk.injEq, Outcome.ok.injEq, true_and] at h2
  obtain ⟨h3a, h3b⟩ := h3
  obtain ⟨h4a, h4b⟩ := h4
  subst h3b h4b
  by_cases hsucc : reply.success = true
  · simp only [hsucc, Bool.not_true, Bool.false_eq_true, if_false, pure, Eff.ret,
      Prod.mk.injEq] at hb
    refine ⟨{ fileName := fileName, fileContent := content, fileType := fileType }, reply,
      ?_, ?_, hsucc⟩
    · rw [← hb.2, ← h2]
      simp
    · rw [h3a, h4a]
  · simp only [hsucc, Bool.not_false, if_true, throw, throwThe, MonadExceptOf.throw,
      Eff.raise, Prod.mk.injEq] at hb
    simp at hb

theorem save_then_store_success (w : World) (blob : Blob) (fileName fileType : JSString)
    (s : HState) (r : SaveResult) (s1 : HState)
    (h : (saveToServer w blob fileName fileType >>= fun result =>
            storeSaved fileName fileType blob >>= fun _ => pure result) s = (.ok r, s1))
    (hs : r.success = true) : Confirmed w s1 := by
  obtain ⟨result, s2, h1, h⟩ := andThen_ok _ _ _ _ _ h
  obtain ⟨_, s3, h2, h⟩ := andThen_ok _ _ _ _ _ h
  simp only [pure, Eff.ret, Prod.mk.injEq, Outcome.ok.injEq] at h
  simp only [storeSaved, Eff.updateDataset, Prod.mk.injEq, true_and] at h2
  obtain ⟨hr, hs3⟩ := h
  subst hr hs3
  obtain ⟨req, reply, hmem, hpost, hsucc⟩ := saveToServer_success w blob fileName fileType s
    result s2 h1 hs
  exact ⟨req, reply, by rw [← h2]; exact hmem, hpost, hsucc⟩

/-- The handlers that return the result of `saveToServer` report success only when the
save is confirmed: `handleText`, `handleFile` and `handleImage`. -/
theorem sibling_handlers_confirm (w : World) (s : HState) (r : SaveResult) (s1 : HState)
    (hs : r.success = true) :
    (∀ text, handleText w text s = (.ok r, s1) → Confirmed w s1) ∧
    (∀ content name, handleFile w content name s = (.ok r, s1) → Confirmed w s1) ∧
    (∀ image, handleImage w image s = (.ok r, s1) → Confirmed w s1) := by
  refine ⟨?_, ?_, ?_⟩
  · intro text h
    unfold handleText at h
    split_ifs at h
    · simp only [pure, Eff.ret, Prod.mk.injEq, Outcome.ok.injEq] at h
      rw [← h.1] at hs
      simp [failure] at hs
    · exact save_then_store_success w _ _ _ s r s1 (catching_success _ s r s1 h hs) hs
  · intro content name h
    unfold handleFile at h
    split_ifs at h
    · simp only [pure, Eff.ret, Prod.mk.injEq, Outcome.ok.injEq] at h
      rw [← h.1] at hs
      simp [failure] at hs
    · have hb := catching_success _ s r s1 h hs
      obtain ⟨blob, s2, _, hb⟩ := andThen_ok _ _ _ _ _ hb
      exact save_then_store_success w _ _ _ s2 r s1 hb hs
  · intro image h
    unfold handleImage at h
    cases image with
    | none =>
      simp only [pure, Eff.ret, Prod.mk.injEq, Outcome.ok.injEq] at h
      rw [← h.1] at hs
      simp [failure] at hs
    | some i =>
      dsimp only at h
      split_ifs at h
      · simp only [pure, Eff.ret, Prod.mk.injEq, Outcome.ok.injEq] at h
        rw [← h.1] at hs
        simp [failure] at hs
      · have hb := catching_success _ s r s1 h hs
        obtain ⟨blob, s2, _, hb⟩ := andThen_ok _ _ _ _ _ hb
        exact save_then_store_success w _ _ _ s2 r s1 hb hs

/-- C9, at the failing input: for the pasted image URL `catUrl`, with the image fetched
and the `POST` to `/api/saveFile` failing with the error `Failed to fetch`, `handleUrl`
and `processContent` return a result (nothing escapes), but it is the success result of
`downloadImage` and not `{ success: false, message: 'Error: Failed to fetch' }`, which
`saveToServer` did return for that error. -/
theorem handleUrl_save_error_dropped :
    offlineSaveWorld.postSaveFile catRequest = .error "Failed to fetch".toList ∧
    (saveToServer offlineSaveWorld { bytes := [1, 2, 3], type := "image/png".toList }
        catRequest.fileName catRequest.fileType).run none =
      (.ok (errorResult "Failed to fetch".toList),
        { element := none, effects := [.post catRequest] }) ∧
    ((handleUrl offlineSaveWorld (some catUrl)).run none).1 = .ok catResult ∧
    ((handleUrl offlineSaveWorld (some catUrl)).run none).2.effects =
      [.get catUrl, .post catRequest] ∧
    ((processContent offlineSaveWorld).run (some { textContent := catUrl })).1 =
      .ok catResult ∧
    catResult ≠ errorResult "Failed to fetch".toList := by
  decide

/-- C10, at the failing input: for the pasted image URL `catUrl`, with the image fetched
and the endpoint answering `{ success: false, message: 'disk full' }`, `handleUrl`
returns `success: true` although no save was confirmed. -/
theorem handleUrl_success_unconfirmed :
    refusingSaveWorld.postSaveFile catRequest =
      .ok (.ok { success := false, message := some "disk full".toList }) ∧
    ((handleUrl refusingSaveWorld (some catUrl)).run none).1 = .ok catResult ∧
    catResult.success = true ∧
    ((handleUrl refusingSaveWorld (some catUrl)).run none).2.effects =
      [.get catUrl, .post catRequest] ∧
    ¬ Confirmed refusingSaveWorld ((handleUrl refusingSaveWorld (some catUrl)).run none).2 := by
  refine ⟨by decide, by decide, by decide, by decide, ?_⟩
  rintro ⟨req, reply, _, hpost, hsucc⟩
  simp only [refusingSaveWorld, Outcome.ok.injEq] at hpost
  rw [← hpost] at hsucc
  simp at hsucc

/-! ## The persistence client (`saveToServer`) -/

theorem saveToServer_eq (w : World) (blob : Blob) (fileName fileType : JSString)
    (s : HState) :
    saveToServer w blob fileName fileType s =
      match w.readAsDataURL blob with
      | .error m => (.ok (errorResult m), s)
      | .ok content =>
        match w.postSaveFile
            { fileName := fileName, fileContent := content, fileType := fileType } with
        | .error m =>
          (.ok (errorResult m),
            { s with effects := s.effects ++
                [.post { fileName := fileName, fileContent := content, fileType := fileType }] })
        | .ok (.error m) =>
          (.ok (errorResult m),
            { s with effects := s.effects ++
                [.post { fileName := fileName, fileContent := content, fileType := fileType }] })
        | .ok (.ok reply) =>
          (.ok (if reply.success then savedResult blob fileName fileType
                else errorResult (orElse reply.message "Failed to save file".toList)),
            { s with effects := s.effects ++
                [.post { fileName := fileName, fileContent := content, fileType := fileType }] }) := by
  unfold saveToServer
  simp only [tryCatch, tryCatchThe, MonadExceptOf.tryCatch, MonadExcept.tryCatch, bind, pure,
    throw, throwThe, MonadExceptOf.throw, MonadExcept.throw,
    Eff.catching, Eff.andThen, Eff.ret, Eff.raise, Eff.lift, Eff.emit, blobToBase64]
  cases h1 : w.readAsDataURL blob with
  | error m => rfl
  | ok content =>
    dsimp only
    cases h2 : w.postSaveFile
        { fileName := fileName, fileContent := content, fileType := fileType } with
    | error m => rfl
    | ok response =>
      cases response with
      | error m => rfl
      | ok reply =>
        dsimp only
        cases hr : reply.success <;> rfl

/-- C11, refuted as stated: for a blob that cannot be read, `saveToServer` sends no
request at all (not exactly one) and returns `{ success: false, message: 'Error: undefined' }`. -/
theorem saveToServer_unreadable_counterexample :
    (saveToServer unreadableWorld { bytes := [1, 2, 3], type := "image/png".toList }
        "cat.png".toList "image".toList).run none =
      (.ok (errorResult "undefined".toList), { element := none, effects := [] }) ∧
    ((saveToServer unreadableWorld { bytes := [1, 2, 3], type := "image/png".toList }
        "cat.png".toList "image".toList).run none).2.effects.length ≠ 1 := by
  decide

/-- C11, amended: `saveToServer` never throws and leaves the content element alone. When
reading the blob fails with message `m` it sends no request and returns
`{ success: false, message: 'Error: ' + m }`. When the blob is read it sends exactly one
request, the `POST` to `/api/saveFile` of the file name, the data URL and the type tag;
it returns the success result (with that name, that tag and the blob's size) exactly when
the response parses and its `success` is truthy; a network failure and an unparsable
response with message `m` give `Error: ` + `m`; a parsed response without truthy
`success` gives `Error: ` + its message, or `Error: Failed to save file` without one. -/
theorem saveToServer_spec (w : World) (blob : Blob) (fileName fileType : JSString)
    (s : HState) :
    (∀ m, w.readAsDataURL blob = .error m →
      saveToServer w blob fileName fileType s = (.ok (errorResult m), s)) ∧
    (∀ content, w.readAsDataURL blob = .ok content →
      (saveToServer w blob fileName fileType s).2 =
        { s with effects := s.effects ++
            [.post { fileName := fileName, fileContent := content, fileType := fileType }] } ∧
      ((saveToServer w blob fileName fileType s).1 =
          .ok (savedResult blob fileName fileType) ↔
        ∃ reply, w.postSaveFile
            { fileName := fileName, fileContent := content, fileType := fileType } =
              .ok (.ok reply) ∧ reply.success = true) ∧
      (∀ m, w.postSaveFile
            { fileName := fileName, fileContent := content, fileType := fileType } =
              .error m →
        (saveToServer w blob fileName fileType s).1 = .ok (errorResult m)) ∧
      (∀ m, w.postSaveFile
            { fileName := fileName, fileContent := content, fileType := fileType } =
              .ok (.error m) →
        (saveToServer w blob fileName fileType s).1 = .ok (errorResult m)) ∧
      (∀ reply, w.postSaveFile
            { fileName := fileName, fileContent := content, fileType := fileType } =
              .ok (.ok reply) → reply.success = false →
        (saveToServer w blob fileName fileType s).1 =
          .ok (errorResult (orElse reply.message "Failed to save file".toList)))) := by
  have hne : ∀ m, savedResult blob fileName fileType ≠ errorResult m := by
    intro m h
    have := congrArg SaveResult.success h
    simp [savedResult, errorResult, failure] at this
  constructor
  · intro m hm
    rw [saveToServer_eq, hm]
  · intro content hc
    rw [saveToServer_eq, hc]
    dsimp only
    cases hp : w.postSaveFile
        { fileName := fileName, fileContent := content, fileType := fileType } with
    | error m =>
      refine ⟨rfl, ?_, ?_, ?_, ?_⟩
      · simp [(hne m).symm]
      · intro m2 h2
        cases h2
        rfl
      · intro m2 h2
        cases h2
      · intro reply h2
        cases h2
    | ok response =>
      cases response with
      | error m =>
        refine ⟨rfl, ?_, ?_, ?_, ?_⟩
        · simp [(hne m).symm]
        · intro m2 h2
          cases h2
        · intro m2 h2
          cases h2
          rfl
        · intro reply h2
          cases h2
      | ok reply =>
        refine ⟨rfl, ?_, ?_, ?_, ?_⟩
        · cases hr : reply.success
          · simp [(hne _).symm, hr]
          · simp [hr]
        · intro m2 h2
          cases h2
        · intro m2 h2
          cases h2
        · intro reply2 h2 hr
          cases h2
          simp [hr]

theorem saveToServer_spec_witness :
    (saveToServer unreadableWorld { bytes := [1, 2, 3], type := "image/png".toList }
        "cat.png".toList "image".toList).run none =
      (.ok (errorResult "undefined".toList), { element := none, effects := [] }) ∧
    ((saveToServer refusingSaveWorld { bytes := [1, 2, 3], type := "image/png".toList }
        catRequest.fileName catRequest.fileType).run none).2 =
      { element := none, effects := [.post catRequest] } ∧
    ((saveToServer refusingSaveWorld { bytes := [1, 2, 3], type := "image/png".toList }
        catRequest.fileName catRequest.fileType).run none).1 =
      .ok (errorResult "disk full".toList) :=
  ⟨(saveToServer_spec unreadableWorld { bytes := [1, 2, 3], type := "image/png".toList }
      "cat.png".toList "image".toList { element := none, effects := [] }).1
      "undefined".toList rfl,
   ((saveToServer_spec refusingSaveWorld { bytes := [1, 2, 3], type := "image/png".toList }
      catRequest.fileName catRequest.fileType { element := none, effects := [] }).2
      "data:image/png;base64,AQID".toList rfl).1,
   ((saveToServer_spec refusingSaveWorld { bytes := [1, 2, 3], type := "image/png".toList }
      catRequest.fileName catRequest.fileType { element := none, effects := [] }).2
      "data:image/png;base64,AQID".toList rfl).2.2.2.2
      { success := false, message := some "disk full".toList } rfl rfl⟩

/-! ## Validation -/

/-- C12: a handler called with an empty or missing required field returns its
validation message with `success: false` at once: the state is untouched, so no request
is sent and the dataset of the content element is unchanged. -/
theorem validation_errors (w : World) (s : HState) :
    (∀ text : Option JSString, text = none ∨ text = some [] →
      handleText w text s = (.ok (failure "No text content to process".toList), s)) ∧
    (∀ fileContent fileName : Option JSString,
      (fileContent = none ∨ fileContent = some []) ∨ (fileName = none ∨ fileName = some []) →
      handleFile w fileContent fileName s =
        (.ok (failure "Missing file content or name".toList), s)) ∧
    (∀ image : Option Img, image = none ∨ (∃ i, image = some i ∧ i.src = []) →
      handleImage w image s = (.ok (failure "No image content to process".toList), s)) ∧
    (∀ url : Option JSString, url = none ∨ url = some [] →
      handleUrl w url s = (.ok (failure "No URL to process".toList), s)) := by
  have ht : ∀ x : Option JSString, x = none ∨ x = some [] → truthy x = false := by
    intro x hx
    rcases hx with h | h <;> subst h <;> rfl
  refine ⟨?_, ?_, ?_, ?_⟩
  · intro text h
    simp only [handleText, ht text h]
    rfl
  · intro fileContent fileName h
    have hg : (!truthy fileContent || !truthy fileName) = true := by
      rcases h with h | h
      · simp [ht _ h]
      · simp [ht _ h]
    simp only [handleFile, hg]
    rfl
  · intro image h
    rcases h with h | ⟨i, h, hsrc⟩
    · subst h
      rfl
    · subst h
      simp only [handleImage, hsrc]
      rfl
  · intro url h
    simp only [handleUrl, ht url h]
    rfl

theorem validation_errors_witness :
    handleText happyWorld (some []) { element := some { textContent := "x".toList } } =
      (.ok (failure "No text content to process".toList),
        { element := some { textContent := "x".toList } }) ∧
    handleFile happyWorld (some "data:,x".toList) none { element := none } =
      (.ok (failure "Missing file content or name".toList), { element := none }) ∧
    handleImage happyWorld (some { src := [], file := none }) { element := none } =
      (.ok (failure "No image content to process".toList), { element := none }) ∧
    handleUrl happyWorld none { element := none } =
      (.ok (failure "No URL to process".toList), { element := none }) :=
  ⟨(validation_errors happyWorld { element := some { textContent := "x".toList } }).1
      (some []) (Or.inr rfl),
   (validation_errors happyWorld { element := none }).2.1 (some "data:,x".toList) none
      (Or.inr (Or.inl rfl)),
   (validation_errors happyWorld { element := none }).2.2.1 (some { src := [], file := none })
      (Or.inr ⟨{ src := [], file := none }, rfl, rfl⟩),
   (validation_errors happyWorld { element := none }).2.2.2 none (Or.inl rfl)⟩

/-! ## The File handler keeps the original name -/

theorem saveToServer_shape (w : World) (blob : Blob) (fileName fileType : JSString)
    (s : HState) :
    ∃ r s1, saveToServer w blob fileName fileType s = (.ok r, s1) ∧
      s1.element = s.element ∧
      (s1.effects = s.effects ∨
        ∃ content, s1.effects = s.effects ++
          [.post { fileName := fileName, fileContent := content, fileType := fileType }]) ∧
      (r.success = true → r = savedResult blob fileName fileType) := by
  have herr : ∀ m, (errorResult m).success = true → errorResult m = savedResult blob fileName fileType := by
    intro m h
    simp [errorResult, failure] at h
  rw [saveToServer_eq]
  cases w.readAsDataURL blob with
  | error m => exact ⟨_, _, rfl, rfl, Or.inl rfl, herr m⟩
  | ok content =>
    dsimp only
    cases w.postSaveFile
        { fileName := fileName, fileContent := content, fileType := fileType } with
    | error m => exact ⟨_, _, rfl, rfl, Or.inr ⟨content, rfl⟩, herr m⟩
    | ok response =>
      cases response with
      | error m => exact ⟨_, _, rfl, rfl, Or.inr ⟨content, rfl⟩, herr m⟩
      | ok reply =>
        refine ⟨_, _, rfl, rfl, Or.inr ⟨content, rfl⟩, ?_⟩
        cases reply.success
        · exact herr _
        · intro _
          rfl

theorem save_then_store_run (w : World) (blob : Blob) (fileName fileType : JSString)
    (s : HState) (r : SaveResult) (s1 : HState)
    (h : saveToServer w blob fileName fileType s = (.ok r, s1)) :
    (saveToServer w blob fileName fileType >>= fun result =>
        storeSaved fileName fileType blob >>= fun _ => pure result) s =
      (.ok r, (storeSaved fileName fileType blob s1).2) := by
  simp only [bind, Eff.andThen, h]
  rfl

theorem base64ToBlob_state (w : World) (base64 mimeType : JSString) (s : HState) :
    (base64ToBlob w base64 mimeType s).2 = s := by
  unfold base64ToBlob
  simp only [bind, Eff.andThen, Eff.lift]
  cases w.atob base64 with
  | error m => rfl
  | ok byteCharacters =>
    dsimp only
    cases base64ToBlobLoop byteCharacters.length byteCharacters [] <;> rfl

theorem fileBlob_state (w : World) (content : JSString) (s : HState) :
    (fileBlob w content s).2 = s := by
  unfold fileBlob
  split_ifs
  · simp only [bind, Eff.andThen, Eff.lift]
    cases (split ',' content)[0]? with
    | none => rfl
    | some beforeComma =>
      simp only [Option.elim]
      cases (split ':' beforeComma)[1]? with
      | none => rfl
      | some afterColon =>
        simp only [Option.elim]
        exact base64ToBlob_state _ _ _ _
  · rfl

theorem handleFile_eq (w : World) (content name : JSString) (hc : content ≠ [])
    (hn : name ≠ []) :
    handleFile w (some content) (some name) =
      Eff.catching
        (fileBlob w content >>= fun blob =>
          saveToServer w blob name "file".toList >>= fun result =>
            storeSaved name "file".toList blob >>= fun _ => pure result)
        (fun message => Eff.ret (errorResult message)) := by
  have h1 : truthy (some content) = true := by
    cases content with
    | nil => exact absurd rfl hc
    | cons x xs => rfl
  have h2 : truthy (some name) = true := by
    cases name with
    | nil => exact absurd rfl hn
    | cons x xs => rfl
  simp only [handleFile, h1, h2, fileBlob]
  rfl

theorem handleFile_run (w : World) (content name : JSString) (hc : content ≠ [])
    (hn : name ≠ []) (s : HState) :
    (∃ m, handleFile w (some content) (some name) s = (.ok (errorResult m), s)) ∨
    (∃ blob r s1, saveToServer w blob name "file".toList s = (.ok r, s1) ∧
      handleFile w (some content) (some name) s =
        (.ok r, (storeSaved name "file".toList blob s1).2)) := by
  rw [handleFile_eq w content name hc hn]
  have hst := fileBlob_state w content s
  cases hb : fileBlob w content s with
  | mk o s0 =>
    rw [hb] at hst
    simp only at hst
    subst hst
    cases o with
    | error m =>
      left
      refine ⟨m, ?_⟩
      simp only [Eff.catching, bind, Eff.andThen, hb]
      rfl
    | ok blob =>
      right
      obtain ⟨r, s1, hsave, _⟩ := saveToServer_shape w blob name "file".toList s0
      refine ⟨blob, r, s1, hsave, ?_⟩
      have := save_then_store_run w blob name "file".toList s0 r s1 hsave
      simp only [Eff.catching, bind, Eff.andThen, hb] at this ⊢
      rw [this]

theorem classifyContent_file (toLowerCase : JSString → JSString) (c : Container)
    (d : ContentDescriptor) (hd : classifyContent toLowerCase (some c) = some d)
    (ht : d.type = ContentType.File) : truthy c.dataset.fileContent = true := by
  unfold classifyContent at hd
  cases himg : c.img.filter fun i => !i.src.isEmpty with
  | some i =>
    simp only [himg, Option.some.injEq] at hd
    subst hd
    simp at ht
  | none =>
    by_cases hf : truthy c.dataset.fileContent = true
    · exact hf
    · by_cases hu : isUrl c.textContent = true
      · simp [himg, hf, hu] at hd
        subst hd
        simp at ht
      · simp [himg, hf, hu] at hd
        subst hd
        simp at ht

theorem processContent_file (w : World) (c : Container) (d : ContentDescriptor)
    (s : HState) (hel : s.element = some c)
    (hd : classifyContent w.toLowerCase (some c) = some d) (ht : d.type = ContentType.File) :
    processContent w s =
      Eff.catching
        (handleFile w c.dataset.fileContent
          (some (orElse c.dataset.fileName ("file_".toList ++ numberToString w.now))))
        (fun m => Eff.ret (errorResult m)) s := by
  simp only [processContent, processContentWith, bind, Eff.andThen, Eff.element, hel, hd]
  cases d with
  | mk type size format element url =>
    simp only at ht
    subst ht
    rfl

/-- C13: for a container classified as File whose stored name is a non-empty `n`, every
request `processContent` sends is a save request with `fileName` = `n` and `fileType`
`file`, there is at most one, and when the result has `success: true` its `fileName` is
`n` and so is the `savedFileName` stored on the container. -/
theorem processContent_file_keeps_name (w : World) (c : Container) (d : ContentDescriptor)
    (n : JSString) (hd : classifyContent w.toLowerCase (some c) = some d)
    (ht : d.type = ContentType.File) (hn : c.dataset.fileName = some n) (hne : n ≠ []) :
    (∀ e ∈ ((processContent w).run (some c)).2.effects,
      ∃ content, e = Effect.post
        { fileName := n, fileContent := content, fileType := "file".toList }) ∧
    ((processContent w).run (some c)).2.effects.length ≤ 1 ∧
    (∀ r, ((processContent w).run (some c)).1 = .ok r → r.success = true →
      r.fileName = some n ∧ r.fileType = some "file".toList ∧
      Confirmed w ((processContent w).run (some c)).2 ∧
      ((processContent w).run (some c)).2.element.map (fun e => e.dataset.savedFileName) =
        some (some n)) := by
  have hcontent := classifyContent_file w.toLowerCase c d hd ht
  obtain ⟨content, hc, hcne⟩ : ∃ content, c.dataset.fileContent = some content ∧
      content ≠ [] := by
    cases hfc : c.dataset.fileContent with
    | none => simp [hfc, truthy] at hcontent
    | some content =>
      refine ⟨content, rfl, ?_⟩
      intro h
      subst h
      simp [hfc, truthy] at hcontent
  have hname : orElse c.dataset.fileName ("file_".toList ++ numberToString w.now) = n := by
    rw [hn]
    cases n with
    | nil => exact absurd rfl hne
    | cons x xs => rfl
  have hrun : (processContent w).run (some c) =
      Eff.catching (handleFile w (some content) (some n))
        (fun m => Eff.ret (errorResult m)) { element := some c, effects := [] } := by
    unfold Eff.run
    rw [processContent_file w c d _ rfl hd ht, hc, hname]
  rw [hrun]
  rcases handleFile_run w content n hcne hne { element := some c, effects := [] } with
    ⟨m, hm⟩ | ⟨blob, r, s1, hsave, hm⟩
  · simp only [Eff.catching, hm]
    refine ⟨?_, ?_, ?_⟩
    · intro e he
      cases he
    · simp
    · intro r hr hs
      simp only [Outcome.ok.injEq] at hr
      subst hr
      simp [errorResult, failure] at hs
  · obtain ⟨r2, s2, hsave2, hel, heff, hres⟩ :=
      saveToServer_shape w blob n "file".toList { element := some c, effects := [] }
    rw [hsave] at hsave2
    simp only [Prod.mk.injEq, Outcome.ok.injEq] at hsave2
    obtain ⟨hr2, hs2⟩ := hsave2
    subst hr2 hs2
    simp only [Eff.catching, hm]
    have hstore : (storeSaved n "file".toList blob s1).2.effects = s1.effects := rfl
    refine ⟨?_, ?_, ?_⟩
    · intro e he
      rw [hstore] at he
      rcases heff with h | ⟨content2, h⟩
      · rw [h] at he
        cases he
      · rw [h] at he
        simp only [List.nil_append, List.mem_singleton] at he
        exact ⟨content2, he⟩
    · rw [hstore]
      rcases heff with h | ⟨content2, h⟩
      · rw [h]
        simp
      · rw [h]
        simp
    · intro r0 hr hs
      simp only [Outcome.ok.injEq] at hr
      subst hr
      have hsaved := hres hs
      refine ⟨?_, ?_, ?_, ?_⟩
      · rw [hsaved]
        rfl
      · rw [hsaved]
        rfl
      · obtain ⟨req, reply, hmem, hpost, hsucc⟩ :=
          saveToServer_success w blob n "file".toList _ r s1 hsave hs
        exact ⟨req, reply, by rw [hstore]; exact hmem, hpost, hsucc⟩
      · simp only [storeSaved, Eff.updateDataset, hel]
        rfl

theorem processContent_file_keeps_name_witness :
    ((processContent happyWorld).run (some reportContainer)).1 =
      .ok (savedResult { bytes := [], type := "application/pdf".toList }
        "report.pdf".toList "file".toList) ∧
    (∀ e ∈ ((processContent happyWorld).run (some reportContainer)).2.effects,
      ∃ content, e = Effect.post
        { fileName := "report.pdf".toList, fileContent := content,
          fileType := "file".toList }) ∧
    ((processContent happyWorld).run (some reportContainer)).2.effects.length ≤ 1 ∧
    (∀ r, ((processContent happyWorld).run (some reportContainer)).1 = .ok r →
      r.success = true →
      r.fileName = some "report.pdf".toList ∧ r.fileType = some "file".toList ∧
      Confirmed happyWorld ((processContent happyWorld).run (some reportContainer)).2 ∧
      ((processContent happyWorld).run (some reportContainer)).2.element.map
          (fun e => e.dataset.savedFileName) = some (some "report.pdf".toList)) :=
  ⟨by decide, processContent_file_keeps_name happyWorld reportContainer
    { type := ContentType.File
      size := "0.00 KB".toList
      format := "pdf".toList
      element := Element.container reportContainer }
    "report.pdf".toList (by decide) rfl rfl (by decide)⟩

/-! ## Image extensions -/

theorem getLast_split_append (sep : Char) (pre suf : JSString) (h : sep ∉ suf) :
    ((split sep (pre ++ sep :: suf)).getLast?).getD [] = suf := by
  obtain ⟨front, _, hs⟩ := split_append_sep_last sep pre suf h
  rw [hs, List.getLast?_concat]
  rfl

theorem getLast_split_of_not_mem (sep : Char) (s : JSString) (h : sep ∉ s) :
    ((split sep s).getLast?).getD [] = s := by
  rw [split_of_not_mem sep s h]
  rfl

/-- C15, refuted as stated: for a `data:` URL ending in `.png` and the MIME type
`image/gif`, the Image handler's `getImageExtension` returns `gif`, not the suffix `png`. -/
theorem getImageExtension_data_counterexample :
    MediaHandler.getImageExtension asciiLower
        "data:image/gif;base64,R0lGODlh;base64,.png".toList "image/gif".toList =
      "gif".toList ∧
    asciiLower (afterLastDot "data:image/gif;base64,R0lGODlh;base64,.png".toList) =
      "png".toList ∧
    "png".toList ∈ imageExtensions ∧
    MediaHandler.getImageExtension asciiLower
        "data:image/gif;base64,R0lGODlh;base64,.png".toList "image/gif".toList ≠
      "png".toList := by
  decide

/-- C15, amended: with `ext` the lower-cased piece of `u` after its last `'.'` (all of `u`
when it has none), the Image handler's `getImageExtension(u, m)` returns (a) `ext` when
`u` does not start with `data:` and `ext` is one of jpg, jpeg, png, gif, webp, svg; else
(b) when `m` is not empty, the piece of `m` after its last `'/'`, with `jpeg` turned into
`jpg` and `svg+xml` into `svg`; else (c) `png`. -/
theorem getImageExtension_spec (toLowerCase : JSString → JSString)
    (hempty : toLowerCase [] = []) (u m : JSString) :
    (startsWith u "data:".toList = false → toLowerCase (afterLastDot u) ∈ imageExtensions →
      MediaHandler.getImageExtension toLowerCase u m = toLowerCase (afterLastDot u)) ∧
    (startsWith u "data:".toList = true ∨ toLowerCase (afterLastDot u) ∉ imageExtensions →
      (m ≠ [] →
        MediaHandler.getImageExtension toLowerCase u m =
          if afterLastSlash m = "jpeg".toList then "jpg".toList
          else if afterLastSlash m = "svg+xml".toList then "svg".toList
          else afterLastSlash m) ∧
      (m = [] → MediaHandler.getImageExtension toLowerCase u m = "png".toList)) ∧
    (∀ pre suf : JSString, '.' ∉ suf → afterLastDot (pre ++ '.' :: suf) = suf) ∧
    (∀ s : JSString, '.' ∉ s → afterLastDot s = s) ∧
    (∀ pre suf : JSString, '/' ∉ suf → afterLastSlash (pre ++ '/' :: suf) = suf) ∧
    (∀ s : JSString, '/' ∉ s → afterLastSlash s = s) := by
  refine ⟨?_, ?_, getLast_split_append '.', getLast_split_of_not_mem '.',
    getLast_split_append '/', getLast_split_of_not_mem '/'⟩
  · intro hdata hext
    have hne : u ≠ [] := by
      intro h
      subst h
      have : toLowerCase (afterLastDot []) = [] := by
        simpa [afterLastDot, split] using hempty
      rw [this] at hext
      simp [imageExtensions] at hext
    have hne2 : u.isEmpty = false := by
      cases u with
      | nil => exact absurd rfl hne
      | cons x xs => rfl
    have hc : imageExtensions.contains (toLowerCase (afterLastDot u)) = true := by
      simpa using hext
    simp only [afterLastDot] at hc ⊢
    unfold MediaHandler.getImageExtension
    dsimp only
    rw [hne2, hdata, hc]
    rfl
  · intro h
    have hguard : (!u.isEmpty && !startsWith u "data:".toList &&
        imageExtensions.contains (toLowerCase (((split '.' u).getLast?).getD []))) = false := by
      rcases h with h | h
      · rw [h]
        cases u.isEmpty <;> rfl
      · have : imageExtensions.contains (toLowerCase (afterLastDot u)) = false := by
          simpa using h
        simp only [afterLastDot] at this
        rw [this]
        cases u.isEmpty <;> cases startsWith u "data:".toList <;> rfl
    constructor
    · intro hm
      have hm2 : m.isEmpty = false := by
        cases m with
        | nil => exact absurd rfl hm
        | cons x xs => rfl
      simp only [MediaHandler.getImageExtension, hguard, hm2, mimeExtensionOf, afterLastSlash]
      rfl
    · intro hm
      subst hm
      simp only [MediaHandler.getImageExtension, hguard]
      rfl

theorem getImageExtension_spec_witness :
    MediaHandler.getImageExtension asciiLower "https://example.com/Cat.PNG".toList
        "image/jpeg".toList = asciiLower (afterLastDot "https://example.com/Cat.PNG".toList) ∧
    MediaHandler.getImageExtension asciiLower "https://example.com/cat".toList
        "image/jpeg".toList = "jpg".toList ∧
    MediaHandler.getImageExtension asciiLower "https://example.com/cat".toList [] =
      "png".toList :=
  ⟨(getImageExtension_spec asciiLower rfl "https://example.com/Cat.PNG".toList
      "image/jpeg".toList).1 (by decide) (by decide),
   by
     rw [((getImageExtension_spec asciiLower rfl "https://example.com/cat".toList
       "image/jpeg".toList).2.1 (Or.inr (by decide))).1 (by decide)]
     decide,
   ((getImageExtension_spec asciiLower rfl "https://example.com/cat".toList []).2.1
      (Or.inr (by decide))).2 rfl⟩

/-! ## The URL handler -/

theorem fetchUrlMetadata_flags (toLowerCase : JSString → JSString) (url : JSString) :
    (fetchUrlMetadata toLowerCase url).isImage =
      imageExtensions.contains (toLowerCase (afterLastDot url)) ∧
    (fetchUrlMetadata toLowerCase url).isVideo =
      videoExtensions.contains (toLowerCase (afterLastDot url)) := by
  unfold fetchUrlMetadata afterLastDot
  dsimp only
  cases h1 : imageExtensions.contains (toLowerCase (((split '.' url).getLast?).getD [])) <;>
    cases h2 : videoExtensions.contains (toLowerCase (((split '.' url).getLast?).getD [])) <;>
    simp

theorem extensions_disjoint (ext : JSString) :
    ¬ (ext ∈ imageExtensions ∧ ext ∈ videoExtensions) := by
  rintro ⟨h1, h2⟩
  simp only [imageExtensions, List.mem_cons, List.mem_singleton, List.not_mem_nil,
    or_false] at h1
  rcases h1 with h | h | h | h | h | h <;> subst h <;> revert h2 <;> decide

theorem downloadImage_eq (w : World) (url : JSString) (s : HState) :
    downloadImage w url s =
      match w.fetch url with
      | .error m => (.ok (errorResult m), { s with effects := s.effects ++ [.get url] })
      | .ok response =>
        if response.ok then
          match response.blob with
          | .error m => (.ok (errorResult m), { s with effects := s.effects ++ [.get url] })
          | .ok blob =>
            (.ok { success := true
                   message := "Image downloaded and saved as ".toList ++ downloadName w url blob
                   fileName := some (downloadName w url blob)
                   fileType := some "image".toList
                   fileSize := some blob.size },
              (storeSaved (downloadName w url blob) "image".toList blob
                (saveToServer w blob (downloadName w url blob) "image".toList
                  { s with effects := s.effects ++ [.get url] }).2).2)
        else
          (.ok (errorResult ("Failed to fetch image: ".toList ++ response.statusText)),
            { s with effects := s.effects ++ [.get url] }) := by
  unfold downloadImage
  simp only [tryCatch, tryCatchThe, MonadExceptOf.tryCatch, MonadExcept.tryCatch, bind, pure,
    throw, throwThe, MonadExceptOf.throw, MonadExcept.throw,
    Eff.catching, Eff.andThen, Eff.ret, Eff.raise, Eff.lift, Eff.emit]
  cases w.fetch url with
  | error m => rfl
  | ok response =>
    dsimp only
    cases hok : response.ok
    · rfl
    · simp only [Bool.not_true, Bool.false_eq_true, if_false, if_true]
      cases response.blob with
      | error m => rfl
      | ok blob =>
        dsimp only
        obtain ⟨r, s1, hsave, _⟩ := saveToServer_shape w blob (downloadName w url blob)
          "image".toList { s with effects := s.effects ++ [.get url] }
        simp only [downloadName] at hsave ⊢
        simp only [Eff.andThen, Eff.lift, Eff.ret, hsave]
        rfl

theorem catching_downloadImage (w : World) (url : JSString) (s : HState) :
    Eff.catching (downloadImage w url) (fun m => Eff.ret (errorResult m)) s =
      downloadImage w url s := by
  unfold Eff.catching
  rw [downloadImage_eq]
  cases w.fetch url with
  | error m => rfl
  | ok response =>
    dsimp only
    cases response.ok
    · rfl
    · simp only [if_true]
      cases response.blob with
      | error m => rfl
      | ok blob => rfl

theorem handleUrl_eq (w : World) (url : JSString) (s : HState) (hne : url ≠ [])
    (hvalid : w.parsesAsUrl (trim url) = true) :
    handleUrl w (some url) s =
      if (fetchUrlMetadata w.toLowerCase (trim url)).isImage then
        downloadImage w (trim url)
          (withUrlMetadata (trim url) (fetchUrlMetadata w.toLowerCase (trim url)) s)
      else if (fetchUrlMetadata w.toLowerCase (trim url)).isVideo then
        (.ok { success := true
               message := "Video URL processed".toList
               url := some (trim url)
               fileType := some "video".toList },
          withVideoUrl (trim url)
            (withUrlMetadata (trim url) (fetchUrlMetadata w.toLowerCase (trim url)) s))
      else
        (.ok { success := true
               message := "URL processed successfully".toList
               url := some (trim url)
               metadata := some (fetchUrlMetadata w.toLowerCase (trim url)) },
          withUrlMetadata (trim url) (fetchUrlMetadata w.toLowerCase (trim url)) s) := by
  have h1 : truthy (some url) = true := by
    cases url with
    | nil => exact absurd rfl hne
    | cons x xs => rfl
  simp only [handleUrl, h1, isValidUrl, Option.getD, hvalid]
  simp only [tryCatch, tryCatchThe, MonadExceptOf.tryCatch, MonadExcept.tryCatch, bind, pure,
    Eff.catching, Eff.andThen, Eff.ret, Eff.updateDataset, Bool.not_true, Bool.false_eq_true,
    if_false]
  cases hi : (fetchUrlMetadata w.toLowerCase (trim url)).isImage
  · cases hv : (fetchUrlMetadata w.toLowerCase (trim url)).isVideo
    · rfl
    · rfl
  · simp only [if_true]
    exact catching_downloadImage w (trim url) _

/-- C16: for a non-empty string whose trimmed form `u` parses as a URL, `handleUrl` goes by
the lower-cased piece of `u` after its last `'.'`. In the image set: it is the run of
`downloadImage`, which fetches `u` and, once the bytes are fetched and read, sends one
save request of type `image`. In the video set: no request is sent, the URL is stored and
the result is `success: true` with `fileType` `video`. In neither: no request is sent and
the result is `success: true` with the URL and metadata whose `isImage` and `isVideo`
are false. No piece is in both sets. -/
theorem handleUrl_by_extension (w : World) (url : JSString) (s : HState) (hne : url ≠ [])
    (hvalid : w.parsesAsUrl (trim url) = true) :
    (w.toLowerCase (afterLastDot (trim url)) ∈ imageExtensions →
      handleUrl w (some url) s =
        downloadImage w (trim url)
          (withUrlMetadata (trim url) (fetchUrlMetadata w.toLowerCase (trim url)) s) ∧
      (∃ rest, (handleUrl w (some url) s).2.effects =
        s.effects ++ Effect.get (trim url) :: rest) ∧
      (∀ response blob content, w.fetch (trim url) = .ok response → response.ok = true →
        response.blob = .ok blob → w.readAsDataURL blob = .ok content →
        (handleUrl w (some url) s).2.effects =
          s.effects ++
            [Effect.get (trim url),
             Effect.post { fileName := downloadName w (trim url) blob
                           fileContent := content
                           fileType := "image".toList }])) ∧
    (w.toLowerCase (afterLastDot (trim url)) ∈ videoExtensions →
      handleUrl w (some url) s =
        (.ok { success := true
               message := "Video URL processed".toList
               url := some (trim url)
               fileType := some "video".toList },
          withVideoUrl (trim url)
            (withUrlMetadata (trim url) (fetchUrlMetadata w.toLowerCase (trim url)) s)) ∧
      (handleUrl w (some url) s).2.effects = s.effects) ∧
    (w.toLowerCase (afterLastDot (trim url)) ∉ imageExtensions →
      w.toLowerCase (afterLastDot (trim url)) ∉ videoExtensions →
      handleUrl w (some url) s =
        (.ok { success := true
               message := "URL processed successfully".toList
               url := some (trim url)
               metadata := some (fetchUrlMetadata w.toLowerCase (trim url)) },
          withUrlMetadata (trim url) (fetchUrlMetadata w.toLowerCase (trim url)) s) ∧
      (fetchUrlMetadata w.toLowerCase (trim url)).isImage = false ∧
      (fetchUrlMetadata w.toLowerCase (trim url)).isVideo = false ∧
      (handleUrl w (some url) s).2.effects = s.effects) ∧
    ¬ (w.toLowerCase (afterLastDot (trim url)) ∈ imageExtensions ∧
        w.toLowerCase (afterLastDot (trim url)) ∈ videoExtensions) := by
  obtain ⟨hfi, hfv⟩ := fetchUrlMetadata_flags w.toLowerCase (trim url)
  have heq := handleUrl_eq w url s hne hvalid
  refine ⟨?_, ?_, ?_, extensions_disjoint _⟩
  · intro himg
    have hi : (fetchUrlMetadata w.toLowerCase (trim url)).isImage = true := by
      rw [hfi]
      simpa using himg
    rw [hi] at heq
    simp only [if_true] at heq
    refine ⟨heq, ?_, ?_⟩
    · rw [heq, downloadImage_eq]
      cases w.fetch (trim url) with
      | error m => exact ⟨[], rfl⟩
      | ok response =>
        dsimp only
        cases response.ok
        · exact ⟨[], rfl⟩
        · simp only [if_true]
          cases response.blob with
          | error m => exact ⟨[], rfl⟩
          | ok blob =>
            dsimp only
            obtain ⟨r, s1, hsave, _, heff, _⟩ := saveToServer_shape w blob
              (downloadName w (trim url) blob) "image".toList
              { withUrlMetadata (trim url) (fetchUrlMetadata w.toLowerCase (trim url)) s with
                effects := (withUrlMetadata (trim url)
                  (fetchUrlMetadata w.toLowerCase (trim url)) s).effects ++
                    [.get (trim url)] }
            rw [hsave]
            have hstore : (storeSaved (downloadName w (trim url) blob) "image".toList blob
                s1).2.effects = s1.effects := rfl
            rw [hstore]
            rcases heff with h | ⟨content, h⟩
            · exact ⟨[], by rw [h]; rfl⟩
            · exact ⟨[Effect.post
                { fileName := downloadName w (trim url) blob, fileContent := content,
                  fileType := "image".toList }], by rw [h]; simp [withUrlMetadata]⟩
    · intro response blob content hf hok hb hread
      rw [heq, downloadImage_eq, hf]
      simp only [hok, if_true, hb]
      rw [saveToServer_eq, hread]
      dsimp only
      cases w.postSaveFile
          { fileName := downloadName w (trim url) blob, fileContent := content,
            fileType := "image".toList } with
      | error m => simp [storeSaved, Eff.updateDataset, withUrlMetadata]
      | ok response2 =>
        cases response2 with
        | error m => simp [storeSaved, Eff.updateDataset, withUrlMetadata]
        | ok reply => simp [storeSaved, Eff.updateDataset, withUrlMetadata]
  · intro hvid
    have hv : (fetchUrlMetadata w.toLowerCase (trim url)).isVideo = true := by
      rw [hfv]
      simpa using hvid
    have hi : (fetchUrlMetadata w.toLowerCase (trim url)).isImage = false := by
      rw [hfi]
      cases hc : imageExtensions.contains (w.toLowerCase (afterLastDot (trim url)))
      · rfl
      · exact absurd ⟨by simpa using hc, hvid⟩ (extensions_disjoint _)
    rw [hi, hv] at heq
    simp only [Bool.false_eq_true, if_false, if_true] at heq
    exact ⟨heq, by rw [heq]; rfl⟩
  · intro hni hnv
    have hi : (fetchUrlMetadata w.toLowerCase (trim url)).isImage = false := by
      rw [hfi]
      simpa using hni
    have hv : (fetchUrlMetadata w.toLowerCase (trim url)).isVideo = false := by
      rw [hfv]
      simpa using hnv
    rw [hi, hv] at heq
    simp only [Bool.false_eq_true, if_false] at heq
    exact ⟨heq, hi, hv, by rw [heq]; rfl⟩

theorem handleUrl_by_extension_witness :
    handleUrl happyWorld (some " https://example.com/clip.MP4 ".toList) { element := none } =
      (.ok { success := true
             message := "Video URL processed".toList
             url := some "https://example.com/clip.MP4".toList
             fileType := some "video".toList },
        { element := none }) ∧
    (handleUrl happyWorld (some catUrl) { element := none }).2.effects =
      [Effect.get catUrl, Effect.post catRequest] ∧
    (handleUrl happyWorld (some "https://example.com/".toList) { element := none }).2.effects
      = [] :=
  ⟨((handleUrl_by_extension happyWorld " https://example.com/clip.MP4 ".toList
      { element := none } (by decide) rfl).2.1 (by decide)).1,
   ((handleUrl_by_extension happyWorld catUrl { element := none } (by decide) rfl).1
      (by decide)).2.2 _ _ _ rfl rfl rfl rfl,
   ((handleUrl_by_extension happyWorld "https://example.com/".toList { element := none }
      (by decide) rfl).2.2.1 (by decide) (by decide)).2.2.2⟩

/-! ## Base64 round trip -/

theorem triples_induction {P : List Nat → Prop} (h0 : P []) (h1 : ∀ a, P [a])
    (h2 : ∀ a b, P [a, b]) (h3 : ∀ a b c rest, P rest → P (a :: b :: c :: rest)) :
    ∀ l, P l
  | [] => h0
  | [a] => h1 a
  | [a, b] => h2 a b
  | a :: b :: c :: rest => h3 a b c rest (triples_induction h0 h1 h2 h3 rest)

theorem base64Value_char : ∀ n, n < 64 → base64Value (base64Char n) = some n := by
  decide

theorem base64Char_ne_pad (n : Nat) : base64Char n ≠ '=' := by
  by_cases h : n < 64
  · revert n
    decide
  · have : base64Char n = 'A' := by
      unfold base64Char
      exact List.getD_eq_default _ _ (by simpa [base64Alphabet] using Nat.le_of_not_lt h)
    rw [this]
    decide

theorem base64Char_not_whitespace (n : Nat) : isAsciiWhitespace (base64Char n) = false := by
  by_cases h : n < 64
  · revert n
    decide
  · have : base64Char n = 'A' := by
      unfold base64Char
      exact List.getD_eq_default _ _ (by simpa [base64Alphabet] using Nat.le_of_not_lt h)
    rw [this]
    decide

theorem encodeSextets_lt : ∀ bytes : List Nat, (∀ b ∈ bytes, b < 256) →
    ∀ v ∈ encodeSextets bytes, v < 64 := by
  apply triples_induction
  · intro _ v hv
    simp [encodeSextets] at hv
  · intro a h v hv
    have ha := h a (by simp)
    simp only [encodeSextets, List.mem_cons, List.mem_singleton, List.not_mem_nil,
      or_false] at hv
    rcases hv with hv | hv <;> subst hv <;> omega
  · intro a b h v hv
    have ha := h a (by simp)
    have hb := h b (by simp)
    simp only [encodeSextets, List.mem_cons, List.mem_singleton, List.not_mem_nil,
      or_false] at hv
    rcases hv with hv | hv | hv <;> subst hv <;> omega
  · intro a b c rest ih h v hv
    have ha := h a (by simp)
    have hb := h b (by simp)
    have hc := h c (by simp)
    simp only [encodeSextets, List.mem_cons] at hv
    rcases hv with hv | hv | hv | hv | hv
    · subst hv; omega
    · subst hv; omega
    · subst hv; omega
    · subst hv; omega
    · exact ih (fun x hx => h x (by simp [hx])) v hv

theorem decode_encodeSextets : ∀ bytes : List Nat, (∀ b ∈ bytes, b < 256) →
    decodeSextets (encodeSextets bytes) = bytes := by
  apply triples_induction
  · intro _
    rfl
  · intro a h
    have ha := h a (by simp)
    simp only [encodeSextets, decodeSextets, List.cons.injEq, and_true]
    omega
  · intro a b h
    have ha := h a (by simp)
    have hb := h b (by simp)
    simp only [encodeSextets, decodeSextets, List.cons.injEq, and_true]
    constructor <;> omega
  · intro a b c rest ih h
    have ha := h a (by simp)
    have hb := h b (by simp)
    have hc := h c (by simp)
    simp only [encodeSextets, decodeSextets, List.cons.injEq]
    refine ⟨by omega, by omega, by omega, ih (fun x hx => h x (by simp [hx]))⟩

theorem encodeSextets_length : ∀ bytes : List Nat,
    (encodeSextets bytes).length + (3 - bytes.length % 3) % 3 = 4 * ((bytes.length + 2) / 3) ∧
    (encodeSextets bytes).length % 4 ≠ 1 := by
  apply triples_induction
  · decide
  · intro a
    simp [encodeSextets]
  · intro a b
    simp [encodeSextets]
  · intro a b c rest ih
    simp only [encodeSextets, List.length_cons]
    omega

theorem sextetsOf_map (vs : List Nat) (h : ∀ v ∈ vs, v < 64) :
    sextetsOf (vs.map base64Char) = some vs := by
  induction vs with
  | nil => rfl
  | cons v vs ih =>
    simp only [List.map_cons, sextetsOf, base64Value_char v (h v (by simp)),
      ih (fun x hx => h x (by simp [hx]))]

theorem stripPadding_append (x : JSString) (hx : ∀ c ∈ x, c ≠ '=') (k : Nat) (hk : k ≤ 2) :
    stripPadding (x ++ List.replicate k '=') = x := by
  have h1 : x.reverse.take 1 ≠ ['='] := by
    intro h
    have hm : '=' ∈ x.reverse.take 1 := by simp [h]
    exact hx '=' (List.mem_reverse.1 (List.mem_of_mem_take hm)) rfl
  have h2 : ∀ l : JSString, ('=' :: x.reverse).take 2 = '=' :: l → l ≠ ['='] := by
    intro l hl hl2
    apply h1
    subst hl2
    simpa using hl
  interval_cases k
  · simp only [List.replicate, List.append_nil]
    unfold stripPadding
    have h3 : x.reverse.take 2 ≠ ['=', '='] := by
      intro h
      have hm : '=' ∈ x.reverse.take 2 := by simp [h]
      exact hx '=' (List.mem_reverse.1 (List.mem_of_mem_take hm)) rfl
    rw [if_neg h3, if_neg h1]
  · unfold stripPadding
    have hr : (x ++ List.replicate 1 '=').reverse = '=' :: x.reverse := by simp
    rw [hr]
    have h3 : ('=' :: x.reverse).take 2 ≠ ['=', '='] := fun h => h2 _ h rfl
    have h4 : ('=' :: x.reverse).take 1 = ['='] := rfl
    rw [if_neg h3, if_pos h4]
    simp
  · unfold stripPadding
    have hr : (x ++ List.replicate 2 '=').reverse = '=' :: '=' :: x.reverse := by
      simp [List.replicate]
    rw [hr]
    have h3 : ('=' :: '=' :: x.reverse).take 2 = ['=', '='] := rfl
    rw [if_pos h3]
    have : x ++ List.replicate 2 '=' = (x ++ ['=']) ++ ['='] := by simp [List.replicate]
    rw [this, List.dropLast_concat, List.dropLast_concat]

/-- Decoding with `atob` what `base64Encode` produced gives back the bytes, as the string
of their character codes. -/
theorem atob_base64Encode (bytes : List Nat) (h : ∀ b ∈ bytes, b < 256) :
    atob (base64Encode bytes) = .ok (bytes.map Char.ofNat) := by
  have hk : (3 - bytes.length % 3) % 3 ≤ 2 := by omega
  have hxpad : ∀ c ∈ (encodeSextets bytes).map base64Char, c ≠ '=' := by
    intro c hc
    obtain ⟨v, _, rfl⟩ := List.mem_map.1 hc
    exact base64Char_ne_pad v
  have hfilter : (base64Encode bytes).filter (fun c => !isAsciiWhitespace c) =
      base64Encode bytes := by
    apply List.filter_eq_self.2
    intro c hc
    unfold base64Encode at hc
    rcases List.mem_append.1 hc with hc | hc
    · obtain ⟨v, _, rfl⟩ := List.mem_map.1 hc
      simp [base64Char_not_whitespace v]
    · have := List.eq_of_mem_replicate hc
      subst this
      decide
  obtain ⟨hlen, hmod⟩ := encodeSextets_length bytes
  have hlen4 : (base64Encode bytes).length % 4 = 0 := by
    unfold base64Encode
    simp only [List.length_append, List.length_map, List.length_replicate]
    omega
  have hstrip : stripPadding (base64Encode bytes) = (encodeSextets bytes).map base64Char :=
    stripPadding_append _ hxpad _ hk
  have hmod2 : ((encodeSextets bytes).map base64Char).length % 4 ≠ 1 := by
    simpa using hmod
  unfold atob
  simp only [hfilter, hlen4, if_true, hstrip, if_neg hmod2,
    sextetsOf_map _ (encodeSextets_lt bytes h), decode_encodeSextets bytes h]

/-! ## Chunked decoding in `base64ToBlob` -/

theorem base64ToBlobLoop_flatten (fuel : Nat) :
    ∀ (rest : JSString) (byteArrays : List (List Nat)), rest.length ≤ fuel →
      ∃ r, base64ToBlobLoop fuel rest byteArrays = some r ∧
        r.flatten = byteArrays.flatten ++ byteArrayOf rest := by
  induction fuel with
  | zero =>
    intro rest byteArrays h
    have : rest = [] := List.length_eq_zero.1 (Nat.le_zero.1 h)
    subst this
    exact ⟨byteArrays, rfl, by simp [byteArrayOf]⟩
  | succ fuel ih =>
    intro rest byteArrays h
    cases rest with
    | nil => exact ⟨byteArrays, rfl, by simp [byteArrayOf]⟩
    | cons c cs =>
      have hlen : ((c :: cs).drop 512).length ≤ fuel := by
        simp only [List.length_drop, List.length_cons] at h ⊢
        omega
      obtain ⟨r, hr, hflat⟩ := ih ((c :: cs).drop 512)
        (byteArrays ++ [byteArrayOf ((c :: cs).take 512)]) hlen
      refine ⟨r, by simpa [base64ToBlobLoop] using hr, ?_⟩
      rw [hflat]
      simp only [List.flatten_append, List.flatten_cons, List.flatten_nil, List.append_nil,
        List.append_assoc, byteArrayOf, ← List.map_append, List.take_append_drop]

theorem base64ToBlob_eq (w : World) (base64 mimeType decoded : JSString) (s : HState)
    (h : w.atob base64 = .ok decoded) :
    base64ToBlob w base64 mimeType s =
      (.ok { bytes := byteArrayOf decoded, type := blobType mimeType }, s) := by
  obtain ⟨r, hr, hflat⟩ := base64ToBlobLoop_flatten decoded.length decoded [] (Nat.le_refl _)
  simp only [List.flatten_nil, List.nil_append] at hflat
  unfold base64ToBlob
  simp only [bind, Eff.andThen, Eff.lift, h, hr, hflat]
  rfl

theorem toNat_ofNat_of_lt (n : Nat) (h : n < 55296) : (Char.ofNat n).toNat = n := by
  have hv : n.isValidChar := Or.inl h
  unfold Char.ofNat
  rw [dif_pos hv]
  rfl

theorem byteArrayOf_ofNat (bytes : List Nat) (h : ∀ b ∈ bytes, b < 256) :
    byteArrayOf (bytes.map Char.ofNat) = bytes := by
  have hc : ∀ b, b < 256 → (Char.ofNat b).toNat % 256 = b := by
    intro b hb
    rw [toNat_ofNat_of_lt b (by omega)]
    exact Nat.mod_eq_of_lt hb
  induction bytes with
  | nil => rfl
  | cons b bs ih =>
    simp only [byteArrayOf, List.map_cons, List.map_map, List.cons.injEq] at ih ⊢
    exact ⟨hc b (h b (by simp)), ih (fun x hx => h x (by simp [hx]))⟩

/-- C20: for a base64 string that `atob` decodes, the loop of `base64ToBlob` terminates
(the fuel given suffices) and its chunks, joined, are the character codes of the decoded
string in order, one byte per character; so the blob's bytes do not depend on the chunk
size and are the bytes `dataURLToBlob` produces, in one pass, for a data URL with the
same payload. -/
theorem base64ToBlob_chunking (w : World) (base64 mimeType decoded : JSString) (s : HState)
    (h : w.atob base64 = .ok decoded) :
    (∃ byteArrays, base64ToBlobLoop decoded.length decoded [] = some byteArrays ∧
      byteArrays.flatten = decoded.map fun c => c.toNat % 256) ∧
    base64ToBlob w base64 mimeType s =
      (.ok { bytes := decoded.map fun c => c.toNat % 256, type := blobType mimeType }, s) ∧
    (decoded.map fun c => c.toNat % 256).length = decoded.length ∧
    ((∀ c ∈ decoded, c.toNat < 256) →
      (decoded.map fun c => c.toNat % 256) = decoded.map Char.toNat) ∧
    (∀ dataUrl : JSString, (splitStr ";base64,".toList dataUrl)[1]? = some base64 →
      ∃ blob, dataURLToBlob w dataUrl s = (.ok blob, s) ∧
        blob.bytes = decoded.map fun c => c.toNat % 256) := by
  refine ⟨?_, base64ToBlob_eq w base64 mimeType decoded s h, by simp, ?_, ?_⟩
  · obtain ⟨r, hr, hflat⟩ := base64ToBlobLoop_flatten decoded.length decoded []
      (Nat.le_refl _)
    exact ⟨r, hr, by simpa [byteArrayOf] using hflat⟩
  · intro hc
    apply List.map_congr_left
    intro c hmem
    exact Nat.mod_eq_of_lt (hc c hmem)
  · intro dataUrl hp
    cases hparts : splitStr ";base64,".toList dataUrl with
    | nil =>
      rw [hparts] at hp
      simp at hp
    | cons head tl =>
      rw [hparts] at hp
      refine ⟨{ bytes := decoded.map fun c => c.toNat % 256,
                type := blobType
                  (orElse ((split ':' head)[1]?) "application/octet-stream".toList) },
        ?_, rfl⟩
      unfold dataURLToBlob
      simp only [bind, Eff.andThen, Eff.lift, hparts, List.getElem?_cons_zero, Option.elim,
        hp, Option.getD, h]
      rfl

theorem base64ToBlob_chunking_witness :
    base64ToBlob standardWorld "aGVsbG8=".toList "text/plain".toList { element := none } =
      (.ok { bytes := [104, 101, 108, 108, 111], type := "text/plain".toList },
        { element := none }) ∧
    (∃ blob, dataURLToBlob standardWorld "data:text/plain;base64,aGVsbG8=".toList
        { element := none } = (.ok blob, { element := none }) ∧
      blob.bytes = [104, 101, 108, 108, 111]) :=
  ⟨(base64ToBlob_chunking standardWorld "aGVsbG8=".toList "text/plain".toList
      "hello".toList { element := none } (by decide)).2.1,
   (base64ToBlob_chunking standardWorld "aGVsbG8=".toList "text/plain".toList
      "hello".toList { element := none } (by decide)).2.2.2.2
      "data:text/plain;base64,aGVsbG8=".toList (by decide)⟩

theorem base64Char_mem (n : Nat) : base64Char n ∈ base64Alphabet := by
  by_cases h : n < 64
  · revert n
    decide
  · have : base64Char n = 'A' := by
      unfold base64Char
      exact List.getD_eq_default _ _ (by simpa [base64Alphabet] using Nat.le_of_not_lt h)
    rw [this]
    decide

theorem base64Encode_no_comma (bytes : List Nat) : ',' ∉ base64Encode bytes := by
  intro hc
  unfold base64Encode at hc
  rcases List.mem_append.1 hc with hc | hc
  · obtain ⟨v, _, hv⟩ := List.mem_map.1 hc
    have hmem := base64Char_mem v
    rw [hv] at hmem
    revert hmem
    decide
  · have := List.eq_of_mem_replicate hc
    revert this
    decide

theorem toDataURL_split (blob : Blob) (htype : ',' ∉ blob.type) :
    ∃ header, startsWith (toDataURL blob) "data:".toList = true ∧
      header = "data".toList ++ ':' ::
        ((if blob.type.isEmpty then "application/octet-stream".toList else blob.type) ++
          ";base64".toList) ∧
      split ',' (toDataURL blob) = [header, base64Encode blob.bytes] := by
  refine ⟨_, ?_, rfl, ?_⟩
  · unfold toDataURL
    rw [List.append_assoc, List.append_assoc]
    exact startsWith_append _ _
  · have hurl : toDataURL blob =
        ("data".toList ++ ':' ::
          ((if blob.type.isEmpty then "application/octet-stream".toList else blob.type) ++
            ";base64".toList)) ++ ',' :: base64Encode blob.bytes := by
      unfold toDataURL
      simp
    have hno : ',' ∉ "data".toList ++ ':' ::
        ((if blob.type.isEmpty then "application/octet-stream".toList else blob.type) ++
          ";base64".toList) := by
      intro hm
      rcases List.mem_append.1 hm with hm | hm
      · revert hm
        decide
      · rcases List.mem_cons.1 hm with hm | hm
        · revert hm
          decide
        · rcases List.mem_append.1 hm with hm | hm
          · split_ifs at hm
            · revert hm
              decide
            · exact htype hm
          · revert hm
            decide
    rw [hurl, split_append_sep ',' _ _ hno,
      split_of_not_mem ',' _ (base64Encode_no_comma blob.bytes)]

/-- C17: base64 round trip. For a blob of bytes `B` (each below 256, the MIME type free
of `,`), with the standard `FileReader` and `atob`: `blobToBase64` gives the data URL of
the blob, the piece after its first comma is the base64 of `B`, and `base64ToBlob` turns
that piece into a blob whose bytes are exactly `B`; so does the decoding in `handleFile`
when given the data URL. -/
theorem base64_round_trip (w : World) (blob : Blob) (mimeType : JSString) (s : HState)
    (hbytes : ∀ b ∈ blob.bytes, b < 256) (htype : ',' ∉ blob.type)
    (hread : w.readAsDataURL blob = .ok (toDataURL blob))
    (hatob : ∀ x, w.atob x = atob x) :
    blobToBase64 w blob s = (.ok (toDataURL blob), s) ∧
    (split ',' (toDataURL blob))[1]? = some (base64Encode blob.bytes) ∧
    base64ToBlob w (base64Encode blob.bytes) mimeType s =
      (.ok { bytes := blob.bytes, type := blobType mimeType }, s) ∧
    (∃ type, fileBlob w (toDataURL blob) s =
      (.ok { bytes := blob.bytes, type := type }, s)) := by
  have hdec : w.atob (base64Encode blob.bytes) = .ok (blob.bytes.map Char.ofNat) := by
    rw [hatob, atob_base64Encode blob.bytes hbytes]
  have hblob : ∀ mime, base64ToBlob w (base64Encode blob.bytes) mime s =
      (.ok { bytes := blob.bytes, type := blobType mime }, s) := by
    intro mime
    rw [base64ToBlob_eq w _ mime _ s hdec, byteArrayOf_ofNat blob.bytes hbytes]
  obtain ⟨header, hstart, hheader, hsplit⟩ := toDataURL_split blob htype
  refine ⟨?_, ?_, hblob mimeType, ?_⟩
  · simp only [blobToBase64, Eff.lift, hread]
  · rw [hsplit]
    rfl
  · have hcolon : ∃ afterColon, (split ':' header)[1]? = some afterColon := by
      rw [hheader, split_append_sep ':' _ _ (by decide)]
      exact ⟨_, by rw [List.getElem?_cons_succ, split_head]⟩
    obtain ⟨afterColon, hcolon⟩ := hcolon
    refine ⟨blobType (orElse ((split ';' afterColon)[0]?) "application/octet-stream".toList),
      ?_⟩
    unfold fileBlob
    rw [if_pos hstart]
    simp only [bind, Eff.andThen, Eff.lift, hsplit, List.getElem?_cons_zero, Option.elim,
      hcolon, List.getElem?_cons_succ, Option.getD]
    exact hblob _

theorem base64_round_trip_witness :
    blobToBase64 standardWorld { bytes := [255, 216, 255], type := "image/jpeg".toList }
        { element := none } =
      (.ok "data:image/jpeg;base64,/9j/".toList, { element := none }) ∧
    base64ToBlob standardWorld "/9j/".toList "image/jpeg".toList { element := none } =
      (.ok { bytes := [255, 216, 255], type := "image/jpeg".toList }, { element := none }) :=
  ⟨(base64_round_trip standardWorld { bytes := [255, 216, 255], type := "image/jpeg".toList }
      "image/jpeg".toList { element := none } (by decide) (by decide) rfl
      (fun _ => rfl)).1,
   (base64_round_trip standardWorld { bytes := [255, 216, 255], type := "image/jpeg".toList }
      "image/jpeg".toList { element := none } (by decide) (by decide) rfl
      (fun _ => rfl)).2.2.1⟩

/-! ## The Text handler -/

theorem char_toNat_lt (c : Char) : c.toNat < 1114112 := by
  have h := c.valid
  simp only [UInt32.isValidChar, Nat.isValidChar] at h
  have : c.toNat = c.val.toNat := rfl
  omega

theorem char_toNat_inj (c d : Char) (h : c.toNat = d.toNat) : c = d := by
  rw [← Char.ofNat_toNat c, ← Char.ofNat_toNat d, h]

theorem utf8Char_lt (c : Char) : ∀ b ∈ utf8Char c, b < 256 := by
  intro b hb
  have hc := char_toNat_lt c
  unfold utf8Char at hb
  dsimp only at hb
  split_ifs at hb <;>
    simp only [List.mem_cons, List.mem_singleton, List.not_mem_nil, or_false] at hb <;>
    omega

theorem utf8Encode_lt (text : JSString) : ∀ b ∈ utf8Encode text, b < 256 := by
  induction text with
  | nil =>
    intro b hb
    simp [utf8Encode] at hb
  | cons c cs ih =>
    intro b hb
    simp only [utf8Encode, List.mem_append] at hb
    rcases hb with hb | hb
    · exact utf8Char_lt c b hb
    · exact ih b hb

theorem utf8Char_append_inj (c d : Char) (r1 r2 : List Nat)
    (h : utf8Char c ++ r1 = utf8Char d ++ r2) : c = d ∧ r1 = r2 := by
  have hc := char_toNat_lt c
  have hd := char_toNat_lt d
  unfold utf8Char at h
  dsimp only at h
  split_ifs at h <;>
    simp only [List.cons_append, List.nil_append, List.cons.injEq] at h <;>
    first
      | (exfalso; omega)
      | (refine ⟨char_toNat_inj c d (by omega), ?_⟩; tauto)

theorem utf8Encode_injective : ∀ s t : JSString, utf8Encode s = utf8Encode t → s = t := by
  intro s
  induction s with
  | nil =>
    intro t h
    cases t with
    | nil => rfl
    | cons d ds =>
      exfalso
      simp only [utf8Encode] at h
      have hlen := congrArg List.length h
      unfold utf8Char at hlen
      dsimp only at hlen
      split_ifs at hlen <;> simp at hlen
  | cons c cs ih =>
    intro t h
    cases t with
    | nil =>
      exfalso
      simp only [utf8Encode] at h
      have hlen := congrArg List.length h
      unfold utf8Char at hlen
      dsimp only at hlen
      split_ifs at hlen <;> simp at hlen
    | cons d ds =>
      simp only [utf8Encode] at h
      obtain ⟨h1, h2⟩ := utf8Char_append_inj c d _ _ h
      rw [h1, ih ds h2]

theorem saveToServer_effects (w : World) (blob : Blob) (fileName fileType content : JSString)
    (s : HState) (hread : w.readAsDataURL blob = .ok content) :
    ∃ r s1, saveToServer w blob fileName fileType s = (.ok r, s1) ∧
      s1.effects = s.effects ++
        [.post { fileName := fileName, fileContent := content, fileType := fileType }] := by
  rw [saveToServer_eq, hread]
  dsimp only
  cases w.postSaveFile
      { fileName := fileName, fileContent := content, fileType := fileType } with
  | error m => exact ⟨_, _, rfl, rfl⟩
  | ok response =>
    cases response with
    | error m => exact ⟨_, _, rfl, rfl⟩
    | ok reply => exact ⟨_, _, rfl, rfl⟩

/-- C14: for a non-empty text `T` and clock reading `t`, with the `FileReader` reading
the text blob, `handleText` sends exactly one request: a save request named `text_` `t`
`.txt`, of type `text`, whose content is the data URL `data:text/plain;base64,` followed
by the base64 of the UTF-8 bytes of `T`; that payload decodes to those bytes, and no other
string has these bytes: the text is neither trimmed nor changed. -/
theorem handleText_request (w : World) (text : JSString) (s : HState) (hne : text ≠ [])
    (hread : w.readAsDataURL (textBlob text) = .ok (toDataURL (textBlob text))) :
    (handleText w (some text) s).2.effects =
      s.effects ++
        [Effect.post
          { fileName := "text_".toList ++ numberToString w.now ++ ".txt".toList
            fileContent :=
              "data:text/plain;base64,".toList ++ base64Encode (utf8Encode text)
            fileType := "text".toList }] ∧
    atob (base64Encode (utf8Encode text)) = .ok ((utf8Encode text).map Char.ofNat) ∧
    (∀ other : JSString, utf8Encode other = utf8Encode text → other = text) := by
  refine ⟨?_, atob_base64Encode _ (utf8Encode_lt text), fun other h =>
    utf8Encode_injective other text h⟩
  have h1 : truthy (some text) = true := by
    cases text with
    | nil => exact absurd rfl hne
    | cons x xs => rfl
  obtain ⟨r, s1, hsave, heff⟩ := saveToServer_effects w (textBlob text)
    ("text_".toList ++ numberToString w.now ++ ".txt".toList) "text".toList _ s hread
  have hrun := save_then_store_run w (textBlob text)
    ("text_".toList ++ numberToString w.now ++ ".txt".toList) "text".toList s r s1 hsave
  have hcontent : toDataURL (textBlob text) =
      "data:text/plain;base64,".toList ++ base64Encode (utf8Encode text) := rfl
  have hall : handleText w (some text) s =
      (.ok r, (storeSaved ("text_".toList ++ numberToString w.now ++ ".txt".toList)
        "text".toList (textBlob text) s1).2) := by
    simp only [handleText, h1, Bool.not_true, Bool.false_eq_true, if_false, Option.getD]
    simp only [tryCatch, tryCatchThe, MonadExceptOf.tryCatch, MonadExcept.tryCatch,
      Eff.catching]
    simp only [textBlob] at hrun
    rw [hrun]
    rfl
  rw [hall, ← hcontent]
  exact heff

theorem handleText_request_witness :
    (handleText standardWorld (some "hello".toList) { element := none }).2.effects =
      [Effect.post
        { fileName := "text_1700000000000.txt".toList
          fileContent := "data:text/plain;base64,aGVsbG8=".toList
          fileType := "text".toList }] ∧
    atob "aGVsbG8=".toList = .ok "hello".toList :=
  ⟨(handleText_request standardWorld "hello".toList { element := none } (by decide) rfl).1,
   (handleText_request standardWorld "hello".toList { element := none } (by decide) rfl).2.1⟩


/-! ## The save endpoint -/

/-- C18: on a parsed body the endpoint answers with status 400 exactly when `fileName` is
missing or empty, or `fileContent` is missing or empty while `fileType` is not `image`;
the answer is then `success: false` with the message `Missing required fields`, and the
directory and its files are as before. -/
theorem POST_missing_fields (srv : Server) (data : SaveBody) (disk : Disk) :
    ((POST srv (.ok data) disk).1.status = 400 ↔
      ((data.fileName = none ∨ data.fileName = some []) ∨
        ((data.fileContent = none ∨ data.fileContent = some []) ∧
          data.fileType ≠ some "image".toList))) ∧
    ((POST srv (.ok data) disk).1.status = 400 →
      (POST srv (.ok data) disk).1 = badRequest ∧ (POST srv (.ok data) disk).1.success = false ∧
        (POST srv (.ok data) disk).2 = disk) := by
  have hname : truthy data.fileName = false ↔ (data.fileName = none ∨ data.fileName = some []) := by
    cases data.fileName with
    | none => simp [truthy]
    | some s => cases s <;> simp [truthy]
  have hcontent : truthy data.fileContent = false ↔
      (data.fileContent = none ∨ data.fileContent = some []) := by
    cases data.fileContent with
    | none => simp [truthy]
    | some s => cases s <;> simp [truthy]
  by_cases hc : (!truthy data.fileName ||
      (!truthy data.fileContent && data.fileType != some "image".toList)) = true
  · have hpost : POST srv (.ok data) disk = (badRequest, disk) := by
      unfold POST
      simp only [hc, if_true]
    rw [hpost]
    refine ⟨⟨fun _ => ?_, fun _ => rfl⟩, fun _ => ⟨rfl, rfl, rfl⟩⟩
    simp only [Bool.or_eq_true, Bool.and_eq_true, Bool.not_eq_true', bne_iff_ne] at hc
    rcases hc with h | ⟨h, ht⟩
    · exact Or.inl (hname.1 h)
    · exact Or.inr ⟨hcontent.1 h, ht⟩
  · have hstatus : (POST srv (.ok data) disk).1.status ≠ 400 := by
      unfold POST
      simp only [hc, Bool.false_eq_true, if_false]
      cases (if disk.dirExists = true then none else srv.mkdirError) with
      | some m => simp [serverError]
      | none =>
        dsimp only
        cases contentBytes data with
        | error m => simp [serverError]
        | ok bytes =>
          dsimp only
          cases srv.writeError (srv.pathJoin (data.fileName.getD [])) with
          | some m => simp [serverError]
          | none => simp [savedResponse]
    refine ⟨⟨fun h => absurd h hstatus, fun h => ?_⟩, fun h => absurd h hstatus⟩
    exfalso
    apply hc
    simp only [Bool.or_eq_true, Bool.and_eq_true, Bool.not_eq_true', bne_iff_ne]
    rcases h with h | ⟨h, ht⟩
    · exact Or.inl (hname.2 h)
    · exact Or.inr ⟨hcontent.2 h, ht⟩

/-- The claim C18 at a request of type `text` with an empty `fileContent`: status 400,
nothing written. -/
theorem POST_missing_fields_witness :
    (POST plainServer (.ok { fileName := some "a.txt".toList, fileContent := some []
                             fileType := some "text".toList }) {}).1 = badRequest ∧
    (POST plainServer (.ok { fileName := some "a.txt".toList, fileContent := some []
                             fileType := some "text".toList }) {}).1.success = false ∧
    (POST plainServer (.ok { fileName := some "a.txt".toList, fileContent := some []
                             fileType := some "text".toList }) {}).2 = {} :=
  (POST_missing_fields plainServer _ {}).2 (by decide)

theorem bufferBase64Value_char : ∀ n, n < 64 → bufferBase64Value (base64Char n) = some n := by
  decide

theorem takeWhile_before_padding (x : JSString) (hx : ∀ c ∈ x, c ≠ '=') (k : Nat) :
    (x ++ List.replicate k '=').takeWhile (fun c => c != '=') = x := by
  induction x with
  | nil => cases k <;> simp [List.replicate]
  | cons c x ih =>
    have hc : (c != '=') = true := by simpa using hx c (by simp)
    simp only [List.cons_append, List.takeWhile_cons, hc, if_true]
    rw [ih (fun d hd => hx d (by simp [hd]))]

theorem filterMap_bufferBase64Value (vs : List Nat) (h : ∀ v ∈ vs, v < 64) :
    (vs.map base64Char).filterMap bufferBase64Value = vs := by
  induction vs with
  | nil => rfl
  | cons v vs ih =>
    simp only [List.map_cons, List.filterMap_cons, bufferBase64Value_char v (h v (by simp)),
      ih (fun x hx => h x (by simp [hx]))]

/-- The endpoint's decoder gives back the bytes that were encoded. -/
theorem bufferFromBase64_encode (bytes : List Nat) (h : ∀ b ∈ bytes, b < 256) :
    bufferFromBase64 (base64Encode bytes) = bytes := by
  unfold bufferFromBase64 base64Encode
  rw [takeWhile_before_padding _ (by
      intro c hc
      obtain ⟨v, _, hv⟩ := List.mem_map.1 hc
      rw [← hv]
      exact base64Char_ne_pad v),
    filterMap_bufferBase64Value _ (encodeSextets_lt bytes h), decode_encodeSextets bytes h]

/-- The bytes the endpoint writes for the data URL of a blob: the blob's bytes for type
`image`, and for every other type the UTF-8 encoding of the blob's bytes read as UTF-8
text. -/
theorem contentBytes_toDataURL (blob : Blob) (fileType : Option JSString)
    (hbytes : ∀ b ∈ blob.bytes, b < 256) (htype : ',' ∉ blob.type) :
    contentBytes { fileName := none, fileContent := some (toDataURL blob), fileType := fileType } =
      .ok (if fileType = some "image".toList then blob.bytes
           else utf8Encode (utf8Decode blob.bytes)) := by
  obtain ⟨header, hstart, -, hsplit⟩ := toDataURL_split blob htype
  unfold contentBytes
  by_cases ht : fileType = some "image".toList
  · simp only [ht, if_true, hsplit]
    show Outcome.ok (bufferFromBase64 (base64Encode blob.bytes)) = _
    rw [bufferFromBase64_encode _ hbytes]
  · simp only [ht, if_false, hstart, if_true, hsplit]
    show Outcome.ok (utf8Encode (utf8Decode (bufferFromBase64 (base64Encode blob.bytes)))) = _
    rw [bufferFromBase64_encode _ hbytes]

/-- For type `image` the endpoint writes exactly the bytes of the blob whose data URL it
received. -/
theorem POST_image_verbatim (srv : Server) (fileName : JSString) (blob : Blob) (disk : Disk)
    (hname : fileName ≠ []) (hbytes : ∀ b ∈ blob.bytes, b < 256) (htype : ',' ∉ blob.type)
    (hdir : disk.dirExists = true ∨ srv.mkdirError = none)
    (hwrite : srv.writeError (srv.pathJoin fileName) = none) :
    POST srv (.ok { fileName := some fileName, fileContent := some (toDataURL blob)
                    fileType := some "image".toList }) disk =
      (savedResponse fileName,
        { dirExists := true, files := disk.files ++ [(srv.pathJoin fileName, blob.bytes)] }) := by
  have hcontent : contentBytes { fileName := some fileName, fileContent := some (toDataURL blob)
                                 fileType := some "image".toList } = .ok blob.bytes := by
    have h := contentBytes_toDataURL blob (some "image".toList) hbytes htype
    simpa [contentBytes] using h
  have hmk : (if disk.dirExists = true then none else srv.mkdirError) = none := by
    rcases hdir with h | h
    · simp [h]
    · simp [h]
  have htruthy : truthy (some fileName) = true := by
    cases fileName with
    | nil => exact absurd rfl hname
    | cons c cs => rfl
  unfold POST
  simp only [htruthy, hmk, hcontent, Option.getD_some, hwrite]
  rfl

/-- For every other type the endpoint writes the blob's bytes read as UTF-8 text and
encoded again. -/
theorem POST_decoded_as_text (srv : Server) (fileName fileType : JSString) (blob : Blob)
    (disk : Disk) (hname : fileName ≠ []) (hother : fileType ≠ "image".toList)
    (hbytes : ∀ b ∈ blob.bytes, b < 256) (htype : ',' ∉ blob.type)
    (hdir : disk.dirExists = true ∨ srv.mkdirError = none)
    (hwrite : srv.writeError (srv.pathJoin fileName) = none) :
    POST srv (.ok { fileName := some fileName, fileContent := some (toDataURL blob)
                    fileType := some fileType }) disk =
      (savedResponse fileName,
        { dirExists := true
          files := disk.files ++ [(srv.pathJoin fileName, utf8Encode (utf8Decode blob.bytes))] }) := by
  have hne : some fileType ≠ some "image".toList := fun h => hother (Option.some.inj h)
  have hcontent : contentBytes { fileName := some fileName, fileContent := some (toDataURL blob)
                                 fileType := some fileType } =
      .ok (utf8Encode (utf8Decode blob.bytes)) := by
    have h := contentBytes_toDataURL blob (some fileType) hbytes htype
    rw [if_neg hne] at h
    rw [← h]
    unfold contentBytes
    rfl
  have hmk : (if disk.dirExists = true then none else srv.mkdirError) = none := by
    rcases hdir with h | h
    · simp [h]
    · simp [h]
  have htruthy : truthy (some fileName) = true := by
    cases fileName with
    | nil => exact absurd rfl hname
    | cons c cs => rfl
  have hdata : truthy (some (toDataURL blob)) = true := rfl
  unfold POST
  simp only [htruthy, hdata, hmk, hcontent, Option.getD_some, hwrite]
  rfl

/-- C19 at the bytes `FF D8 FF` sent as type `file`: the request carries the base64 data
URL of these three bytes, the endpoint answers 200, and the file written holds the nine
bytes `EF BF BD EF BF BD EF BF BD`, while the same content sent as type `image` is
written as the three bytes. -/
theorem POST_file_not_verbatim :
    toDataURL { bytes := [255, 216, 255], type := "application/octet-stream".toList } =
      "data:application/octet-stream;base64,/9j/".toList ∧
    POST plainServer (.ok { fileName := some "a.bin".toList
                            fileContent := some "data:application/octet-stream;base64,/9j/".toList
                            fileType := some "file".toList }) {} =
      (savedResponse "a.bin".toList,
        { dirExists := true
          files := [("src/download/a.bin".toList, [239, 191, 189, 239, 191, 189, 239, 191, 189])] }) ∧
    POST plainServer (.ok { fileName := some "a.bin".toList
                            fileContent := some "data:application/octet-stream;base64,/9j/".toList
                            fileType := some "image".toList }) {} =
      (savedResponse "a.bin".toList,
        { dirExists := true, files := [("src/download/a.bin".toList, [255, 216, 255])] }) := by
  refine ⟨?_, ?_, ?_⟩ <;> decide


/-! ## Scheme-less text classified as a URL -/

theorem matches_excludes (ic : Bool) (c : Char) (r : Regex) (s : List Char)
    (h : Regex.Matches ic r s) : Regex.excludes ic c r = true → c ∉ s := by
  induction h with
  | eps => intro _ hc; simp at hc
  | @set rs d hd =>
    intro he hc
    simp only [List.mem_singleton] at hc
    subst hc
    simp [Regex.excludes, hd] at he
  | seq _ _ iha ihb =>
    intro he hc
    simp only [Regex.excludes, Bool.and_eq_true] at he
    rcases List.mem_append.1 hc with hc | hc
    · exact iha he.1 hc
    · exact ihb he.2 hc
  | altLeft _ ih =>
    intro he
    simp only [Regex.excludes, Bool.and_eq_true] at he
    exact ih he.1
  | altRight _ ih =>
    intro he
    simp only [Regex.excludes, Bool.and_eq_true] at he
    exact ih he.2
  | starNil => intro _ hc; simp at hc
  | starCons _ _ iha ihb =>
    intro he hc
    rcases List.mem_append.1 hc with hc | hc
    · exact iha (by simpa [Regex.excludes] using he) hc
    · exact ihb he hc

theorem matches_seq_inv (ic : Bool) (a b : Regex) (s : List Char)
    (h : Regex.Matches ic (.seq a b) s) :
    ∃ s1 s2, s = s1 ++ s2 ∧ Regex.Matches ic a s1 ∧ Regex.Matches ic b s2 := by
  cases h with
  | seq ha hb => exact ⟨_, _, rfl, ha, hb⟩

theorem matches_opt_inv (ic : Bool) (a : Regex) (s : List Char)
    (h : Regex.Matches ic (Regex.opt a) s) : Regex.Matches ic a s ∨ s = [] := by
  unfold Regex.opt at h
  cases h with
  | altLeft ha => exact Or.inl ha
  | altRight hb =>
    cases hb
    exact Or.inr rfl

theorem toLower_toNat (d : Char) :
    d.toLower.toNat = if 65 ≤ d.toNat ∧ d.toNat ≤ 90 then d.toNat + 32 else d.toNat := by
  unfold Char.toLower
  dsimp only
  by_cases h : d.toNat ≥ 65 ∧ d.toNat ≤ 90
  · rw [if_pos h, if_pos h, toNat_ofNat_of_lt _ (by omega)]
  · rw [if_neg h, if_neg h]

theorem toUpper_toNat (d : Char) :
    d.toUpper.toNat = if 97 ≤ d.toNat ∧ d.toNat ≤ 122 then d.toNat - 32 else d.toNat := by
  unfold Char.toUpper
  dsimp only
  by_cases h : d.toNat ≥ 97 ∧ d.toNat ≤ 122
  · rw [if_pos h, if_pos h, toNat_ofNat_of_lt _ (by omega)]
  · rw [if_neg h, if_neg h]

/-- Under the `i` flag a character that is not an upper-case letter is matched only by
characters whose lower-case form it is. -/
theorem matches_chr_lower (c : Char) (hc : ¬(65 ≤ c.toNat ∧ c.toNat ≤ 90)) (s : List Char)
    (h : Regex.Matches true (Regex.chr c) s) : asciiLower s = [c] := by
  unfold Regex.chr at h
  cases h with
  | @set _ d hd =>
    have hl := toLower_toNat d
    have hu := toUpper_toNat d
    simp only [Regex.accepts, Regex.inRanges, List.any_cons, List.any_nil, Bool.or_false,
      Bool.true_and, Bool.or_eq_true, Bool.and_eq_true, decide_eq_true_eq] at hd
    have : d.toLower = c := by
      apply char_toNat_inj
      split_ifs at hl hu <;> omega
    simp [asciiLower, this]

theorem matches_lit_lower : ∀ (p s : List Char), (∀ c ∈ p, ¬(65 ≤ c.toNat ∧ c.toNat ≤ 90)) →
    Regex.Matches true (Regex.lit p) s → asciiLower s = p
  | [], s, _, h => by
    unfold Regex.lit at h
    cases h
    rfl
  | c :: cs, s, hp, h => by
    unfold Regex.lit at h
    obtain ⟨s1, s2, rfl, h1, h2⟩ := matches_seq_inv _ _ _ _ h
    have e1 := matches_chr_lower c (hp c (by simp)) s1 h1
    have e2 := matches_lit_lower cs s2 (fun x hx => hp x (by simp [hx])) h2
    unfold asciiLower at e1 e2 ⊢
    rw [List.map_append, e1, e2]
    rfl

theorem startsWith_append_right : ∀ (s p t : JSString), startsWith s p = true →
    startsWith (s ++ t) p = true
  | _, [], t, _ => by cases t <;> simp [startsWith]
  | [], _ :: _, _, h => by simp [startsWith] at h
  | c :: cs, q :: qs, t, h => by
    simp only [startsWith, Bool.and_eq_true, List.cons_append] at h ⊢
    exact ⟨h.1, startsWith_append_right cs qs t h.2⟩

/-- A string the pattern of `isUrl` matches holds no `:` unless it begins with `http://`
or `https://`, in any case of the letters. -/
theorem urlRegex_no_colon (t : JSString) (hm : urlRegex.test true t = true)
    (hhttp : startsWithIgnoreCase t "http://".toList = false)
    (hhttps : startsWithIgnoreCase t "https://".toList = false) : ':' ∉ t := by
  have h := (Regex.test_iff_matches true t urlRegex).1 hm
  unfold urlRegex at h
  obtain ⟨s1, s2, rfl, h1, h2⟩ := matches_seq_inv _ _ _ _ h
  rcases matches_opt_inv _ _ _ h1 with h1 | rfl
  · exfalso
    obtain ⟨a, r, rfl, ha, hr⟩ := matches_seq_inv _ _ _ _ h1
    obtain ⟨b, e, rfl, hb, he⟩ := matches_seq_inv _ _ _ _ hr
    have ea := matches_lit_lower _ a (by decide) ha
    have ee := matches_lit_lower _ e (by decide) he
    have hall : asciiLower ((a ++ (b ++ e)) ++ s2) =
        asciiLower a ++ (asciiLower b ++ asciiLower e) ++ asciiLower s2 := by
      simp [asciiLower]
    rcases matches_opt_inv _ _ _ hb with hb | rfl
    · have eb := matches_chr_lower 's' (by decide) b hb
      have : startsWithIgnoreCase ((a ++ (b ++ e)) ++ s2) "https://".toList = true := by
        unfold startsWithIgnoreCase
        rw [hall, ea, eb, ee]
        exact startsWith_append_right _ _ _ (by decide)
      rw [this] at hhttps
      exact Bool.noConfusion hhttps
    · have : startsWithIgnoreCase ((a ++ ([] ++ e)) ++ s2) "http://".toList = true := by
        unfold startsWithIgnoreCase
        rw [hall, ea, ee]
        exact startsWith_append_right _ _ _ (by decide)
      rw [this] at hhttp
      exact Bool.noConfusion hhttp
  · rw [List.nil_append]
    exact matches_excludes true ':' _ s2 h2 (by decide)

theorem mem_of_mem_trimStart (x : Char) : ∀ s : JSString, x ∈ trimStart s → x ∈ s
  | [], h => h
  | c :: cs, h => by
    unfold trimStart at h
    split_ifs at h
    · exact List.mem_cons_of_mem _ (mem_of_mem_trimStart x cs h)
    · exact h

theorem mem_of_mem_trim (x : Char) (s : JSString) (h : x ∈ trim s) : x ∈ s := by
  unfold trim at h
  have h1 := mem_of_mem_trimStart x _ (List.mem_reverse.1 h)
  exact mem_of_mem_trimStart x s (List.mem_reverse.1 h1)

/-- What a descriptor of type URL says of the container: its text matches the pattern,
and the descriptor's `url` is the trimmed text. -/
theorem classifyContent_url_inv (toLowerCase : JSString → JSString) (c : Container)
    (d : ContentDescriptor) (hd : classifyContent toLowerCase (some c) = some d)
    (ht : d.type = ContentType.URL) :
    isUrl c.textContent = true ∧ d.url = some (trim c.textContent) := by
  unfold classifyContent at hd
  cases himg : c.img.filter fun i => !i.src.isEmpty with
  | some i =>
    simp only [himg, Option.some.injEq] at hd
    subst hd
    simp at ht
  | none =>
    by_cases hf : truthy c.dataset.fileContent = true
    · simp [himg, hf] at hd
      subst hd
      simp at ht
    · by_cases hu : isUrl c.textContent = true
      · simp [himg, hf, hu] at hd
        subst hd
        exact ⟨hu, rfl⟩
      · simp [himg, hf, hu] at hd
        subst hd
        simp at ht

/-- A non-empty string that does not parse as a URL once trimmed is turned away by
`handleUrl` before any work. -/
theorem handleUrl_invalid (w : World) (url : JSString) (s : HState) (hne : url ≠ [])
    (hinvalid : w.parsesAsUrl (trim url) = false) :
    handleUrl w (some url) s = (.ok (failure "Invalid URL format".toList), s) := by
  have htruthy : truthy (some url) = true := by
    cases url with
    | nil => exact absurd rfl hne
    | cons c cs => rfl
  simp only [handleUrl, htruthy, isValidUrl, Option.getD_some, hinvalid]
  rfl

theorem processContent_url (w : World) (c : Container) (d : ContentDescriptor)
    (s : HState) (hel : s.element = some c)
    (hd : classifyContent w.toLowerCase (some c) = some d) (ht : d.type = ContentType.URL) :
    processContent w s =
      Eff.catching (handleUrl w d.url) (fun m => Eff.ret (errorResult m)) s := by
  simp only [processContent, processContentWith, bind, Eff.andThen, Eff.element, hel, hd]
  cases d with
  | mk type size format element url =>
    simp only at ht
    subst ht
    rfl

/-- C21: a container text that `classifyContent` classifies as a URL and whose trimmed
form does not begin with `http://` or `https://` (letters in any case) holds no `:`; as
`new URL` rejects every string without `:` (it has no scheme), `processContent` returns
`success: false` with the message `Invalid URL format`, and the state is as before: no
request was sent and the dataset is unchanged. -/
theorem processContent_schemeless (w : World) (c : Container) (s : HState)
    (hel : s.element = some c)
    (hurl : (classifyContent w.toLowerCase (some c)).map (fun d => d.type) =
      some ContentType.URL)
    (hhttp : startsWithIgnoreCase (trim c.textContent) "http://".toList = false)
    (hhttps : startsWithIgnoreCase (trim c.textContent) "https://".toList = false)
    (hparse : ∀ u : JSString, ':' ∉ u → w.parsesAsUrl u = false) :
    ':' ∉ trim c.textContent ∧
    isValidUrl w (trim (trim c.textContent)) = false ∧
    processContent w s = (.ok (failure "Invalid URL format".toList), s) ∧
    (processContent w s).2.effects = s.effects := by
  obtain ⟨d, hd⟩ := classifyContent_some w.toLowerCase c
  rw [hd] at hurl
  have ht : d.type = ContentType.URL := by simpa using hurl
  obtain ⟨hisUrl, hdurl⟩ := classifyContent_url_inv w.toLowerCase c d hd ht
  rw [isUrl_eq_test] at hisUrl
  have hcolon := urlRegex_no_colon (trim c.textContent) hisUrl hhttp hhttps
  have hne : trim c.textContent ≠ [] := by
    intro he
    rw [he] at hisUrl
    revert hisUrl
    decide
  have hinvalid : w.parsesAsUrl (trim (trim c.textContent)) = false :=
    hparse _ (fun h => hcolon (mem_of_mem_trim _ _ h))
  have hrun : processContent w s = (.ok (failure "Invalid URL format".toList), s) := by
    rw [processContent_url w c d s hel hd ht, hdurl]
    unfold Eff.catching
    rw [handleUrl_invalid w _ s hne hinvalid]
  exact ⟨hcolon, hinvalid, hrun, by rw [hrun]⟩

theorem hasScheme_colon : ∀ s : JSString, hasScheme s = true → ':' ∈ s
  | [], h => by simp [hasScheme] at h
  | c :: cs, h => by
    simp only [hasScheme, Bool.and_eq_true, beq_iff_eq] at h
    have hmem : ':' ∈ cs.dropWhile fun d => d.isAlphanum || d == '+' || d == '-' || d == '.' :=
      List.mem_of_mem_head? h.2
    exact List.mem_cons_of_mem _ ((List.dropWhile_sublist _).subset hmem)

theorem urlInput_subset (x : Char) (s : JSString) (h : x ∈ urlInput s) : x ∈ s := by
  unfold urlInput at h
  have h1 := List.mem_reverse.1 (List.mem_of_mem_filter h)
  have h2 := (List.dropWhile_sublist _).subset h1
  exact (List.dropWhile_sublist _).subset (List.mem_reverse.1 h2)

/-- The claim C21 at the text `example.com`, with a `new URL` that accepts exactly the
inputs with a scheme: classified as a URL, then turned away as `Invalid URL format`. -/
theorem processContent_schemeless_witness :
    (classifyContent schemeWorld.toLowerCase (some { textContent := "example.com".toList })).map
      (fun d => d.type) = some ContentType.URL ∧
    (':' ∉ trim "example.com".toList ∧
     isValidUrl schemeWorld (trim (trim "example.com".toList)) = false ∧
     processContent schemeWorld { element := some { textContent := "example.com".toList } } =
       (.ok (failure "Invalid URL format".toList),
         { element := some { textContent := "example.com".toList } }) ∧
     (processContent schemeWorld
        { element := some { textContent := "example.com".toList } }).2.effects = []) :=
  ⟨by decide,
   processContent_schemeless schemeWorld { textContent := "example.com".toList }
     { element := some { textContent := "example.com".toList } } rfl (by decide) (by decide)
     (by decide)
     (fun u hu => by
       cases h : schemeWorld.parsesAsUrl u with
       | false => rfl
       | true => exact absurd (urlInput_subset _ _ (hasScheme_colon _ h)) hu)⟩

/-! ## An image request without content -/

/-- C22: a request with a non-empty `fileName`, `fileType` `image` and a missing or empty
`fileContent` passes validation; decoding then throws, and the endpoint answers with
status 500 and `success: false`, the message being that of the error; no file is written
(the same holds when creating the directory fails first). -/
theorem POST_image_without_content (srv : Server) (fileName : JSString)
    (fileContent : Option JSString) (disk : Disk) (hname : fileName ≠ [])
    (hcontent : fileContent = none ∨ fileContent = some []) :
    (!truthy (some fileName) ||
      (!truthy fileContent && some "image".toList != some "image".toList)) = false ∧
    (∃ m, contentBytes { fileName := some fileName, fileContent := fileContent
                         fileType := some "image".toList } = .error m ∧
      (disk.dirExists = true ∨ srv.mkdirError = none →
        POST srv (.ok { fileName := some fileName, fileContent := fileContent
                        fileType := some "image".toList }) disk =
          (serverError m, { disk with dirExists := true }))) ∧
    (POST srv (.ok { fileName := some fileName, fileContent := fileContent
                     fileType := some "image".toList }) disk).1.status = 500 ∧
    (POST srv (.ok { fileName := some fileName, fileContent := fileContent
                     fileType := some "image".toList }) disk).1.success = false ∧
    (POST srv (.ok { fileName := some fileName, fileContent := fileContent
                     fileType := some "image".toList }) disk).2.files = disk.files := by
  have htruthy : truthy (some fileName) = true := by
    cases fileName with
    | nil => exact absurd rfl hname
    | cons c cs => rfl
  have hbytes : ∃ m, contentBytes { fileName := some fileName, fileContent := fileContent
                                    fileType := some "image".toList } = .error m := by
    rcases hcontent with h | h
    · subst h
      exact ⟨typeError, rfl⟩
    · subst h
      exact ⟨bufferTypeError, rfl⟩
  obtain ⟨m, hm⟩ := hbytes
  have hpost : POST srv (.ok { fileName := some fileName, fileContent := fileContent
                               fileType := some "image".toList }) disk =
      match (if disk.dirExists = true then none else srv.mkdirError) with
      | some e => (serverError e, disk)
      | none => (serverError m, { disk with dirExists := true }) := by
    unfold POST
    simp only [htruthy, hm, bne_self_eq_false, Bool.and_false, Bool.not_true, Bool.or_false,
      Bool.false_eq_true, if_false]
  refine ⟨by simp [htruthy], ⟨m, hm, fun hdir => ?_⟩, ?_, ?_, ?_⟩
  · rw [hpost]
    rcases hdir with h | h
    · simp [h]
    · simp [h]
  all_goals
    rw [hpost]
    cases (if disk.dirExists = true then none else srv.mkdirError) <;> rfl

/-- The claim C22 at the name `a.png` with no `fileContent`: status 500, the message of
the `TypeError`, nothing written. -/
theorem POST_image_without_content_witness :
    POST plainServer (.ok { fileName := some "a.png".toList, fileContent := none
                            fileType := some "image".toList }) {} =
      ({ status := 500, success := false
         message := "Cannot read properties of undefined".toList }, {}) ∧
    (POST plainServer (.ok { fileName := some "a.png".toList, fileContent := some []
                             fileType := some "image".toList }) {}).2.files = [] :=
  ⟨by
    obtain ⟨m, hm, h⟩ := (POST_image_without_content plainServer "a.png".toList none {}
      (by decide) (Or.inl rfl)).2.1
    rw [h (Or.inl rfl)]
    have : m = typeError := by
      have e : contentBytes { fileName := some "a.png".toList, fileContent := none
                              fileType := some "image".toList } = .error typeError := rfl
      rw [e] at hm
      exact (Outcome.error.inj hm).symm
    rw [this]
    rfl,
   (POST_image_without_content plainServer "a.png".toList (some []) {} (by decide)
     (Or.inr rfl)).2.2.2.2⟩

end CtrlV
